import Mathlib

/-!
# SoundEngine (soundboy.hpp): a shallow embedding of the mixer and its registries

Conventions of the embedding.

* `uint32_t` values are natural numbers; every operation whose C++ result is a
  `uint32_t` is reduced with `toU32`.  `int` values are integers; conversions of
  integers to `int` and the `int` accumulations are reduced with `toI32` (two's
  complement wrap-around, which is what the target hardware does where C++ leaves
  the result open).  `int16_t` samples are the subtype `I16`.
* `float` is IEEE binary32.  A `float` value is the rational number it stands
  for, and every operation that yields a `float` (an addition, subtraction,
  multiplication or division of floats, a conversion of an integer to `float`)
  is the exact result rounded by `rnd32`: round to nearest, ties to even, 24
  significant bits, subnormal values included.  `floor` applied to a `float` is
  the `float` overload (the SDL headers of main.cpp include `<math.h>`), an exact
  operation.  Infinities and NaN are not values of the model: a quotient by zero
  is 0 (on x86-64 the conversion of the infinity or NaN that the hardware
  produces to `uint32_t` is 0 as well), and a result beyond the binary32 range
  (it takes a gain, a `difference` or a speed of magnitude above `2^96`, or a
  speed of magnitude below `2^-96`) is kept as the rounded rational.
* A conversion of a `float` to an integer type discards the fractional part.
  Where the truncated value does not fit the target, C++ leaves the result
  open, and the model takes what the x86-64 conversion instruction gives:
  `castInt` yields `INT_MIN`, and `castU32`, a 64-bit conversion of which the low
  32 bits are kept, yields the value modulo `2^32` (0 beyond the 64-bit range).
* `int16_t *data` is the memory behind the pointer: a function from the element
  index to the sample stored there.
* `Clip *` is the identity of a clip object (`Option Nat`, `none` for `nullptr`);
  the objects themselves live in `Engine.clips`.
* Arrays are functions of the index; only the indices below the declared array
  size are meaningful.
* Mutexes are not modelled: every operation runs atomically.
-/

namespace SoundEngine

/-! ## Constants and machine arithmetic -/

def CLIP_COUNT : Nat := 128

def SAMPLE_COUNT : Nat := 4096

def SE_STATIC_VOLUME : Nat := 1

def SE_STATIC_SPEED : Nat := 2

def SHRT_MAX : Int := 32767

def SHRT_MIN : Int := -32768

/-- Reduction of an integer to the range of `uint32_t`. -/
def toU32 (n : Int) : Nat := (n % 4294967296).toNat

/-- Reduction of an integer to the range of a 32-bit `int`. -/
def toI32 (n : Int) : Int := (n + 2147483648) % 4294967296 - 2147483648

/-- Reduction of an integer to the range of `int16_t`. -/
def toI16 (n : Int) : Int := (n + 32768) % 65536 - 32768

/-- Conversion of a floating-point value to an integer: the fractional part is
discarded (truncation toward zero). -/
def truncF (q : ℚ) : Int := if 0 ≤ q then ⌊q⌋ else ⌈q⌉

/-- The function `floor` on a `float`: the result is a `float` again. -/
def floorF (q : ℚ) : ℚ := ((⌊q⌋ : Int) : ℚ)

/-- Rounding to the nearest integer, a tie going to the even neighbour. -/
def roundEven (q : ℚ) : Int :=
  if q - ⌊q⌋ < 1 / 2 then ⌊q⌋
  else if 1 / 2 < q - ⌊q⌋ then ⌊q⌋ + 1
  else if ⌊q⌋ % 2 = 0 then ⌊q⌋ else ⌊q⌋ + 1

/-- The exponent of the unit in the last place of the binary32 values of the
magnitude of `q`: 24 significant bits, and -149 throughout the subnormal range. -/
def ulpExp (q : ℚ) : Int := max (Int.log 2 |q| - 23) (-149)

/-- The binary32 value of an exact result `q`: the multiple of the unit in the
last place nearest to `q`, ties to even. -/
def rnd32 (q : ℚ) : ℚ := (roundEven (q / 2 ^ ulpExp q) : ℚ) * 2 ^ ulpExp q

/-- The conversion `(int)x` of a `float`: truncation toward zero, and `INT_MIN`
when the truncated value is not an `int`. -/
def castInt (q : ℚ) : Int :=
  if -2147483648 ≤ truncF q ∧ truncF q ≤ 2147483647 then truncF q else -2147483648

/-- The conversion `(uint32_t)x` of a `float`: the low 32 bits of the truncated
value, and 0 when the truncated value is not a 64-bit integer. -/
def castU32 (q : ℚ) : Nat :=
  if -9223372036854775808 ≤ truncF q ∧ truncF q ≤ 9223372036854775807 then toU32 (truncF q)
  else 0

/-- The type `int16_t`. -/
abbrev I16 : Type := { x : Int // -32768 ≤ x ∧ x ≤ 32767 }

/-- A `for (j = 0; j < n; j++)` loop: runs `body 0`, `body 1`, ..., `body (n-1)`
in this order on the loop state. -/
def forLoop {α : Type} (body : Nat → α → α) : Nat → α → α
  | 0, s => s
  | n + 1, s => body n (forLoop body n s)

/-- Whether `flags & f` is non-zero. -/
def hasFlag (flags f : Nat) : Bool := (flags &&& f) != 0

/-! ## Data model -/

/-- The struct `ClipInfo`. -/
structure ClipInfo where
  data : Nat → I16
  start : Nat
  end_ : Nat
  progress : Nat
  flags : Nat
  volumeL : ℚ
  volumeR : ℚ
  speed : ℚ
  difference : ℚ
  active : Bool

/-- The global state of the engine: the clip objects, `clipPointers`, `clipCount`,
`dispatchInfos`, `dispatchIndices`, `dispatchCount`, `masterBuffer` and
`channelBuffer`. -/
structure Engine where
  clips : Nat → ClipInfo
  clipPointers : Nat → Option Nat
  clipCount : Nat
  dispatchInfos : Nat → ClipInfo
  dispatchIndices : Nat → Nat
  dispatchCount : Nat
  masterBuffer : Nat → Int
  channelBuffer : Nat → Int

/-! ## Clip::play and dispatch -/

/-- The method `Clip::play` called on the clip object `c`: the return value and
the state after the call. -/
def play (s : Engine) (c : Nat) : Bool × Engine :=
  let cc := s.clipCount
  if cc = CLIP_COUNT then (false, s)
  else if !(s.clips c).active then
    (true, { s with
      clips := Function.update s.clips c { s.clips c with progress := 0, active := true }
      clipPointers := Function.update s.clipPointers cc (some c)
      clipCount := toU32 ((s.clipCount : Int) + 1) })
  else (true, s)

/-- The slot scan of `dispatch`: the lowest index `i` in `[i0, i0 + fuel)` whose
`dispatchInfos[i]` is inactive. -/
def findInactive (infos : Nat → ClipInfo) : Nat → Nat → Option Nat
  | _, 0 => none
  | i, fuel + 1 => if !(infos i).active then some i else findInactive infos (i + 1) fuel

/-- The function `dispatch`. -/
def dispatch (s : Engine) (info : ClipInfo) : Bool × Engine :=
  let dc := s.dispatchCount
  if dc = CLIP_COUNT then (false, s)
  else
    match findInactive s.dispatchInfos 0 CLIP_COUNT with
    | some i =>
      (true, { s with
        dispatchInfos := Function.update s.dispatchInfos i { info with active := true }
        dispatchIndices := Function.update s.dispatchIndices s.dispatchCount i
        dispatchCount := toU32 ((s.dispatchCount : Int) + 1) })
    | none => (false, s)

/-! ## processInfo -/

/-- The local `sampleRange`: the `uint32_t` difference `end - start - progress`
converted to `int`. -/
def sampleRange (info : ClipInfo) : Int :=
  toI32 (toU32 ((info.end_ : Int) - info.start - info.progress))

/-- The local `length`. -/
def length (info : ClipInfo) : Int := min (sampleRange info) (SAMPLE_COUNT : Int)

/-- The local `offset`. -/
def offset (info : ClipInfo) : Nat := toU32 (((info.start : Int) + info.progress) * 2)

/-- The bound `length * 2` of the fixed-speed loops, as a number of iterations of a
loop counting up from 0 by one. -/
def fixedBound (info : ClipInfo) : Nat := (toI32 (length info * 2)).toNat

/-- The local `sampleCount` of the variable-speed path. -/
def sampleCount (info : ClipInfo) : Nat :=
  min (castU32 (floorF (rnd32 (rnd32 (sampleRange info : ℚ) / info.speed)))) SAMPLE_COUNT

/-- The bound `sampleCount * 2` of the variable-speed loops. -/
def variableBound (info : ClipInfo) : Nat := toU32 ((sampleCount info : Int) * 2)

/-- Lines 111-113: the copy loop of the fixed-speed, fixed-volume path. -/
def copyLoop (info : ClipInfo) (n : Nat) (ch : Nat → Int) : Nat → Int :=
  forLoop (fun j ch =>
    Function.update ch j (info.data (toU32 ((offset info : Int) + j))).val) n ch

/-- Lines 116-119: the gain loop of the fixed-speed path; iteration `k` has
`j = 2 * k`.  The sample is converted to `float` exactly, the product is a
`float`, and `(int)` converts it. -/
def gainLoop (info : ClipInfo) (n : Nat) (ch : Nat → Int) : Nat → Int :=
  forLoop (fun k ch =>
    let j := 2 * k
    let l := castInt (rnd32 (((info.data (toU32 ((offset info : Int) + j))).val : ℚ)
      * info.volumeL))
    let r := castInt (rnd32 (((info.data (toU32 ((offset info : Int) + j + 1))).val : ℚ)
      * info.volumeR))
    Function.update (Function.update ch j l) (j + 1) r) n ch

/-- Lines 134-139: the resampling loop of the variable-speed, fixed-volume path;
the loop state is `fProgress` and `channelBuffer`.  In
`offset + floor(fProgress) * 2` the `uint32_t` `offset` is converted to `float`,
the sum is a `float`, and the initialisation of `position` converts it to
`uint32_t`. -/
def resampleLoop (info : ClipInfo) (n : Nat) (st : ℚ × (Nat → Int)) : ℚ × (Nat → Int) :=
  forLoop (fun k st =>
    let j := 2 * k
    let position := castU32 (rnd32 (rnd32 (offset info : ℚ) + rnd32 (floorF st.1 * 2)))
    (rnd32 (st.1 + info.speed),
      Function.update (Function.update st.2 j (info.data position).val) (j + 1)
        (info.data (toU32 ((position : Int) + 1))).val)) n st

/-- Lines 142-147: the resampling loop of the variable-speed path with gain. -/
def resampleGainLoop (info : ClipInfo) (n : Nat) (st : ℚ × (Nat → Int)) :
    ℚ × (Nat → Int) :=
  forLoop (fun k st =>
    let j := 2 * k
    let position := castU32 (rnd32 (rnd32 (offset info : ℚ) + rnd32 (floorF st.1 * 2)))
    let l := castInt (rnd32 (((info.data position).val : ℚ) * info.volumeL))
    let r := castInt (rnd32 (((info.data (toU32 ((position : Int) + 1))).val : ℚ)
      * info.volumeR))
    (rnd32 (st.1 + info.speed), Function.update (Function.update st.2 j l) (j + 1) r)) n st

/-- Lines 122-124 and 150-152: `masterBuffer[j] += channelBuffer[j]` for `j < n`. -/
def accumulate (n : Nat) (ch : Nat → Int) (m : Nat → Int) : Nat → Int :=
  forLoop (fun j m => Function.update m j (toI32 (m j + ch j))) n m

/-- The number of `channelBuffer` entries that `processInfo` writes and then adds
to `masterBuffer`. -/
def produced (info : ClipInfo) : Nat :=
  if hasFlag info.flags SE_STATIC_SPEED then fixedBound info else variableBound info

/-- The content of `channelBuffer` after the fill loop of `processInfo`, together
with the final value of `fProgress` (the variable-speed path only; on the
fixed-speed path the local does not exist and `difference` is returned). -/
def fillChannel (info : ClipInfo) (ch : Nat → Int) : ℚ × (Nat → Int) :=
  if hasFlag info.flags SE_STATIC_SPEED then
    if hasFlag info.flags SE_STATIC_VOLUME then
      (info.difference, copyLoop info (fixedBound info) ch)
    else
      (info.difference, gainLoop info ((fixedBound info + 1) / 2) ch)
  else
    if hasFlag info.flags SE_STATIC_VOLUME then
      resampleLoop info ((variableBound info + 1) / 2) (info.difference, ch)
    else
      resampleGainLoop info ((variableBound info + 1) / 2) (info.difference, ch)

/-- The result of `processInfo`: the updated clip, `masterBuffer` and
`channelBuffer`. -/
structure Mixed where
  info : ClipInfo
  masterBuffer : Nat → Int
  channelBuffer : Nat → Int

/-- Lines 126-127 and 154-156: the clip after `processInfo`, where `fProgress` is
the value of that local after the fill loop (read on the variable-speed path
only).  On that path the comparison of line 154 is one of floats
(`offset / 2`, `3` and `end` are converted), and `progress += floor(fProgress)`
adds in `float` and converts the sum back to `uint32_t`. -/
def advance (info : ClipInfo) (fProgress : ℚ) : ClipInfo :=
  if hasFlag info.flags SE_STATIC_SPEED then
    { info with
      active := decide (toU32 (sampleRange info) > SAMPLE_COUNT)
      progress := toU32 ((info.progress : Int) + length info) }
  else
    { info with
      active := decide (rnd32 (rnd32 (rnd32 ((offset info / 2 : Nat) : ℚ) + fProgress) + 3)
        < rnd32 (info.end_ : ℚ))
      progress := castU32 (rnd32 (rnd32 (info.progress : ℚ) + floorF fProgress))
      difference := rnd32 (fProgress - floorF fProgress) }

/-- The function `processInfo`: the fill loop, the accumulation into
`masterBuffer`, then the update of `active`, `progress` and `difference`. -/
def processInfo (info : ClipInfo) (master channel : Nat → Int) : Mixed :=
  { info := advance info (fillChannel info channel).1
    masterBuffer := accumulate (produced info) (fillChannel info channel).2 master
    channelBuffer := (fillChannel info channel).2 }

/-- The value that `processInfo` adds to `masterBuffer[j]` for the clip `info`:
the entry `channelBuffer[j]` written by its fill loop, and nothing at the
positions the loop does not reach. -/
def contribution (info : ClipInfo) (j : Nat) : Int :=
  if j < produced info then (fillChannel info (fun _ => 0)).2 j else 0

/-- Consecutive `processInfo` calls on one clip, call number `i` starting from
the buffers `bufs i`: the clip after `n` calls. -/
def playback (bufs : Nat → (Nat → Int) × (Nat → Int)) (info : ClipInfo) : Nat → ClipInfo
  | 0 => info
  | n + 1 => (processInfo (playback bufs info n) (bufs n).1 (bufs n).2).info

/-! ## callback -/

/-- Lines 174-182: the clip object `c` is copied out, processed and written
back. -/
def mixOne (s : Engine) (c : Nat) : Engine :=
  let r := processInfo (s.clips c) s.masterBuffer s.channelBuffer
  { s with
    clips := Function.update s.clips c r.info
    masterBuffer := r.masterBuffer
    channelBuffer := r.channelBuffer }

/-- Lines 173-182, iteration `i` of the loop over the persistent clips.  The
result is `none` when `clipPointers[i]` is null, which the loop dereferences. -/
def mixClip (i : Nat) (st : Option Engine) : Option Engine :=
  match st with
  | none => none
  | some s =>
    match s.clipPointers i with
    | none => none
    | some c => some (mixOne s c)

/-- Line 186, iteration `i` of the loop over the dispatch entries. -/
def mixDispatch (i : Nat) (s : Engine) : Engine :=
  let index := s.dispatchIndices i
  let r := processInfo (s.dispatchInfos index) s.masterBuffer s.channelBuffer
  { s with
    dispatchInfos := Function.update s.dispatchInfos index r.info
    masterBuffer := r.masterBuffer
    channelBuffer := r.channelBuffer }

/-- The clamp of line 190 followed by the conversion to `int16_t`. -/
def clampSample (x : Int) : Int := toI16 (max (min x SHRT_MAX) SHRT_MIN)

/-- Lines 189-191: the output loop. -/
def writeOut (master : Nat → Int) (outStream : Nat → Int) : Nat → Int :=
  forLoop (fun i out => Function.update out i (clampSample (master i)))
    (SAMPLE_COUNT * 2) outStream

/-- Lines 197-209, iteration `i` of the compaction of `clipPointers`; the loop
state is the array and `backSpace`. -/
def compactClipsStep (clips : Nat → ClipInfo) (i : Nat)
    (st : (Nat → Option Nat) × Nat) : (Nat → Option Nat) × Nat :=
  match st.1 i with
  | none => (st.1, st.2 + 1)
  | some c =>
    if !(clips c).active then (st.1, st.2 + 1)
    else if st.2 = 0 then st
    else (Function.update (Function.update st.1 (i - st.2) (some c)) i none, st.2)

/-- Lines 218-229, iteration `i` of the compaction of `dispatchIndices`. -/
def compactDispatchStep (infos : Nat → ClipInfo) (i : Nat)
    (st : (Nat → Nat) × Nat) : (Nat → Nat) × Nat :=
  let index := st.1 i
  if !(infos index).active then (st.1, st.2 + 1)
  else if st.2 = 0 then st
  else (Function.update st.1 (i - st.2) index, st.2)

/-- Lines 162-187 of `callback`: the `memset` of `masterBuffer`, the snapshot of
the two counts and the two mixing loops.  The result is `none` when the first loop
dereferences a null pointer. -/
def mixPhase (s : Engine) : Option Engine :=
  let s0 : Engine := { s with masterBuffer := fun _ => 0 }
  let dcount := s0.dispatchCount
  let ccount := s0.clipCount
  match forLoop mixClip ccount (some s0) with
  | none => none
  | some s1 => some (forLoop mixDispatch dcount s1)

/-- Lines 193-213 of `callback`: the compaction of `clipPointers`.  `backSpace`
counts entries below `clipCount`, so `clipCount -= backSpace` does not wrap. -/
def compactClips (s : Engine) : Engine :=
  let cp := forLoop (compactClipsStep s.clips) s.clipCount (s.clipPointers, 0)
  { s with clipPointers := cp.1, clipCount := s.clipCount - cp.2 }

/-- Lines 214-233 of `callback`: the compaction of `dispatchIndices`. -/
def compactDispatch (s : Engine) : Engine :=
  let dp := forLoop (compactDispatchStep s.dispatchInfos) s.dispatchCount
    (s.dispatchIndices, 0)
  { s with dispatchIndices := dp.1, dispatchCount := s.dispatchCount - dp.2 }

/-- The function `callback` run without interleaved control calls, on the output
stream `outStream`: the state after it and the content of the stream, or `none`
when it dereferences a null pointer. -/
def callback (s : Engine) (outStream : Nat → Int) : Option (Engine × (Nat → Int)) :=
  match mixPhase s with
  | none => none
  | some s2 =>
    some (compactDispatch (compactClips s2), writeOut s2.masterBuffer outStream)

/-- Whether the entry `p` of `clipPointers` survives the compaction: it is not
null and its clip is active. -/
def alive (clips : Nat → ClipInfo) (p : Option Nat) : Bool :=
  match p with
  | none => false
  | some c => (clips c).active

/-- The content of `masterBuffer[j]` after mixing the clips `infos` in this order
on top of the value `m0`. -/
def mixAll (infos : List ClipInfo) (m0 : Int) (j : Nat) : Int :=
  infos.foldl
    (fun acc info => if j < produced info then toI32 (acc + contribution info j) else acc) m0

/-- The clips of `clipPointers[0..clipCount)` in list order, null entries left
out. -/
def persistentInfos (s : Engine) : List ClipInfo :=
  (List.range s.clipCount).filterMap (fun i => (s.clipPointers i).map s.clips)

/-- The clips of `dispatchInfos` named by `dispatchIndices[0..dispatchCount)`. -/
def dispatchedInfos (s : Engine) : List ClipInfo :=
  (List.range s.dispatchCount).map (fun i => s.dispatchInfos (s.dispatchIndices i))

/-- The successive `Clip::play` calls on the clips `cs`: the return values in
call order and the final state. -/
def playAll (s : Engine) : List Nat → List Bool × Engine
  | [] => ([], s)
  | c :: cs => ((play s c).1 :: (playAll (play s c).2 cs).1, (playAll (play s c).2 cs).2)

/-! ## Examples of states -/

/-- A buffer in which every sample is `v`. -/
def constData (v : I16) : Nat → I16 := fun _ => v

/-- The value-initialised `ClipInfo` of the source over the buffer `d`. -/
def defaultInfo (d : Nat → I16) : ClipInfo :=
  { data := d, start := 0, end_ := 0, progress := 0, flags := 0,
    volumeL := 1, volumeR := 1, speed := 1, difference := 0, active := false }

/-- The state of the globals at program start (all zero-initialised) with clip
objects that are idle and play nothing. -/
def initEngine : Engine :=
  { clips := fun _ => defaultInfo (constData ⟨0, by decide⟩)
    clipPointers := fun _ => none
    clipCount := 0
    dispatchInfos := fun _ => defaultInfo (constData ⟨0, by decide⟩)
    dispatchIndices := fun _ => 0
    dispatchCount := 0
    masterBuffer := fun _ => 0
    channelBuffer := fun _ => 0 }

/-- A clip of 5000 sample-pairs over a buffer of ones, fixed speed and fixed
volume, at `progress = 0`. -/
def clip5000 : ClipInfo :=
  { data := constData ⟨1, by decide⟩, start := 0, end_ := 5000, progress := 0, flags := 3,
    volumeL := 1, volumeR := 1, speed := 1, difference := 0, active := true }

/-- A clip of one sample-pair over a buffer of ones, fixed speed and fixed
volume. -/
def clipOne : ClipInfo :=
  { data := constData ⟨1, by decide⟩, start := 0, end_ := 1, progress := 0, flags := 3,
    volumeL := 1, volumeR := 1, speed := 1, difference := 0, active := true }

/-- A state with one registered persistent clip, the clip object 0 playing
`clip5000`, and no dispatch entry. -/
def oneClipEngine : Engine :=
  { clips := fun _ => clip5000
    clipPointers := fun _ => some 0
    clipCount := 1
    dispatchInfos := fun _ => defaultInfo (constData ⟨0, by decide⟩)
    dispatchIndices := fun _ => 0
    dispatchCount := 0
    masterBuffer := fun _ => 0
    channelBuffer := fun _ => 0 }

/-- The exact sum of the values that the first `k` registered clips (persistent
clips first, then dispatch entries) contribute at position `j`. -/
def exactSum (s : Engine) (k j : Nat) : Int :=
  (((persistentInfos s ++ dispatchedInfos s).take k).map
    (fun info => contribution info j)).sum

/-- A clip over a buffer of ones whose `end` is `2^32 - 1`, fixed speed and fixed
volume. -/
def wideClip : ClipInfo :=
  { data := constData ⟨1, by decide⟩, start := 0, end_ := 4294967295, progress := 0,
    flags := 3, volumeL := 1, volumeR := 1, speed := 1, difference := 0, active := true }

/-- A state whose only active entry is the persistent clip `wideClip`. -/
def wideEngine : Engine :=
  { clips := fun _ => wideClip
    clipPointers := fun _ => some 0
    clipCount := 1
    dispatchInfos := fun _ => defaultInfo (constData ⟨0, by decide⟩)
    dispatchIndices := fun _ => 0
    dispatchCount := 0
    masterBuffer := fun _ => 0
    channelBuffer := fun _ => 0 }

/-- The value of the local `fProgress` at the start of iteration `k` of a
variable-speed loop: `difference` after `k` additions `fProgress += info.speed`. -/
def fAcc (info : ClipInfo) : Nat → ℚ
  | 0 => info.difference
  | k + 1 => rnd32 (fAcc info k + info.speed)

/-- The source element index `position` that iteration `k` of a variable-speed
loop reads for the left channel; the right channel is read at the next index. -/
def sourcePosition (info : ClipInfo) (k : Nat) : Nat :=
  castU32 (rnd32 (rnd32 (offset info : ℚ) + rnd32 (floorF (fAcc info k) * 2)))

/-- The gain of the channel of `channelBuffer[j]`: left at even `j`, right at odd
`j`. -/
def channelVolume (info : ClipInfo) (j : Nat) : ℚ :=
  if j % 2 = 0 then info.volumeL else info.volumeR

/-- The element index of `data` that `processInfo` reads for `channelBuffer[j]`:
`offset + j` on the fixed-speed path, `position` (even `j`) or `position + 1`
(odd `j`) of iteration `j / 2` on the variable-speed path. -/
def sourceIndex (info : ClipInfo) (j : Nat) : Nat :=
  if hasFlag info.flags SE_STATIC_SPEED then toU32 ((offset info : Int) + j)
  else if j % 2 = 0 then sourcePosition info (j / 2)
  else toU32 ((sourcePosition info (j / 2) : Int) + 1)

/-- A clip of one sample-pair over a buffer of ones, fixed speed, with the gains
`volumeL = 3/4` and `volumeR = 1`. -/
def gainClip : ClipInfo :=
  { data := constData ⟨1, by decide⟩, start := 0, end_ := 1, progress := 0, flags := 2,
    volumeL := 3 / 4, volumeR := 1, speed := 1, difference := 0, active := true }

/-- A clip of 4099 sample-pairs over a buffer of ones played at `speed = 1` on
the variable-speed path. -/
def lateClip : ClipInfo :=
  { data := constData ⟨1, by decide⟩, start := 0, end_ := 4099, progress := 0, flags := 1,
    volumeL := 1, volumeR := 1, speed := 1, difference := 0, active := true }

/-- A clip of 5 sample-pairs played at `speed = 10` on the variable-speed path. -/
def stuckClip : ClipInfo :=
  { data := constData ⟨1, by decide⟩, start := 0, end_ := 5, progress := 0, flags := 1,
    volumeL := 1, volumeR := 1, speed := 10, difference := 0, active := true }

/-- A buffer whose first sample-pair (elements 0 and 1) is 0 and whose other
samples are 5. -/
def pairThenFives : Nat → I16 :=
  fun k => if k < 2 then ⟨0, by decide⟩ else ⟨5, by decide⟩

/-- A clip over the first sample-pair of `pairThenFives` played at `speed = 1/4`
on the variable-speed path with the carry `difference = 3/4`. -/
def carryClip : ClipInfo :=
  { data := pairThenFives, start := 0, end_ := 1, progress := 0, flags := 1,
    volumeL := 1, volumeR := 1, speed := 1 / 4, difference := 3 / 4, active := true }

/-- The list `dispatchIndices[0..dispatchCount)`. -/
def dispatchList (s : Engine) : List Nat :=
  (List.range s.dispatchCount).map s.dispatchIndices

/-- The states in which `init` leaves the globals: the zero-initialised counts
and every `dispatchInfos` slot inactive. -/
def isInitial (s : Engine) : Prop :=
  s.clipCount = 0 ∧ s.dispatchCount = 0 ∧
    ∀ i, i < CLIP_COUNT → (s.dispatchInfos i).active = false

/-- The states reachable from `init` by `dispatch` calls (of clips with
`speed > 0`) and `callback` runs. -/
inductive Reachable : Engine → Prop
  | start (s : Engine) : isInitial s → Reachable s
  | afterDispatch (s : Engine) (info : ClipInfo) :
      Reachable s → 0 < info.speed → Reachable (dispatch s info).2
  | afterCallback (s : Engine) (out : Nat → Int) (r : Engine × (Nat → Int)) :
      Reachable s → callback s out = some r → Reachable r.1

/-- The registry invariant of the dispatch table: no persistent clip is
registered, `dispatchIndices[0..dispatchCount)` has no repetition, names slots
below `CLIP_COUNT` only, and names exactly the active slots. -/
def DispatchInv (s : Engine) : Prop :=
  s.clipCount = 0 ∧ (dispatchList s).Nodup ∧ (∀ i ∈ dispatchList s, i < CLIP_COUNT) ∧
    ∀ i, i < CLIP_COUNT → ((s.dispatchInfos i).active = true ↔ i ∈ dispatchList s)

/-- The value of the local `fProgress` after the fill loop of the variable-speed
path: `difference` advanced `sampleCount` times by `speed`. -/
def fProgressEnd (info : ClipInfo) : ℚ := fAcc info (sampleCount info)

/-! ## load -/

/-- The struct `Track` (its `spec` is not modelled); `buffer` is `none` for
`nullptr`. -/
structure Track where
  length : Nat
  buffer : Option (Nat → I16)

/-- The function `load`.  `wav` is what `SDL_LoadWAV` yields: the decoded buffer
and its byte length, or `none` when it fails; a failure is reported and leaves
`t.buffer` and `byteLength` at their initial values `nullptr` and 0. -/
def load (wav : Option ((Nat → I16) × Nat)) : Track :=
  match wav with
  | some (buffer, byteLength) => { length := byteLength / 2 / 2, buffer := some buffer }
  | none => { length := 0 / 2 / 2, buffer := none }

/-! ## Further examples of states -/

/-- A clip of 5000 sample-pairs over a buffer in which every sample is 32767,
fixed speed and fixed volume. -/
def loudClip : ClipInfo :=
  { data := constData ⟨32767, by decide⟩, start := 0, end_ := 5000, progress := 0,
    flags := 3, volumeL := 1, volumeR := 1, speed := 1, difference := 0, active := true }

/-- A state with two registered persistent clips (the clip objects 0 and 1) and
two dispatch entries (the slots 0 and 1), all four playing `loudClip`. -/
def loudEngine : Engine :=
  { clips := fun _ => loudClip
    clipPointers := fun i => some i
    clipCount := 2
    dispatchInfos := fun _ => loudClip
    dispatchIndices := fun i => i
    dispatchCount := 2
    masterBuffer := fun _ => 0
    channelBuffer := fun _ => 0 }

/-- A state with three registered persistent clips: the clip objects 0 and 2 play
`clip5000`, and the clip object 1 plays `clipOne`, which one callback exhausts. -/
def threeClipEngine : Engine :=
  { clips := fun c => if c = 1 then clipOne else clip5000
    clipPointers := fun i => some i
    clipCount := 3
    dispatchInfos := fun _ => defaultInfo (constData ⟨0, by decide⟩)
    dispatchIndices := fun _ => 0
    dispatchCount := 0
    masterBuffer := fun _ => 0
    channelBuffer := fun _ => 0 }

/-- The state after `n` successive calls `dispatch(info)` from the state `s`. -/
def dispatchMany (info : ClipInfo) : Nat → Engine → Engine
  | 0, s => s
  | n + 1, s => (dispatch (dispatchMany info n s) info).2

/-- The state after `CLIP_COUNT` calls `dispatch(clip5000)` from the start
state. -/
def fullEngine : Engine := dispatchMany clip5000 CLIP_COUNT initEngine

/-- The state after those calls and one `callback` run. -/
def fullEngineAfterCallback : Engine :=
  match callback fullEngine (fun _ => 0) with
  | some r => r.1
  | none => fullEngine

/-- A clip of one sample-pair over a buffer of tens, fixed speed, with the gain
`0.7f`, the binary32 value `11744051 / 2^24`, on both channels. -/
def tenClip : ClipInfo :=
  { data := constData ⟨10, by decide⟩, start := 0, end_ := 1, progress := 0, flags := 2,
    volumeL := 11744051 / 16777216, volumeR := 11744051 / 16777216, speed := 1,
    difference := 0, active := true }

/-- A clip of `2^23 + 4` sample-pairs at `progress = 2^23` with the carry
`difference = 3/4`, played at `speed = 8` on the variable-speed path. -/
def marginClip : ClipInfo :=
  { data := constData ⟨1, by decide⟩, start := 0, end_ := 8388612, progress := 8388608,
    flags := 1, volumeL := 1, volumeR := 1, speed := 8, difference := 3 / 4, active := true }

/-- A clip over a track that failed to load, built as main.cpp builds its clips:
the whole track, `start = 0` and `end = length`, on the variable-speed path with
gain. -/
def failedClip : ClipInfo :=
  { data := constData ⟨0, by decide⟩, start := 0, end_ := (load none).length, progress := 0,
    flags := 0, volumeL := 1, volumeR := 1, speed := 1 / 2, difference := 0, active := true }

end SoundEngine

/-!
# Sound (soundboi.hpp): the legacy registry, its handles and its mixer

`int` values are integers (`clipCount`, `clipIds`, `nextId`, `Handle::id`), with
`SoundEngine.toI32` on the increments and decrements; `float volume` is a
binary32 value as in `SoundEngine`; `int16_t *source` is `none` for `nullptr` and
otherwise the memory behind the pointer.  A method of `Handle` takes the handle and the globals
and returns what it changes.
-/

namespace Sound

def CLIP_COUNT : Int := 128

/-- The struct `Sound::Clip`. -/
structure Clip where
  source : Option (Nat → SoundEngine.I16)
  maskStart : Int
  maskEnd : Int
  volume : ℚ
  progress : Nat

/-- The globals `clips`, `clipIds`, `nextId` and `clipCount`. -/
structure Registry where
  clips : Nat → Clip
  clipIds : Nat → Int
  nextId : Int
  clipCount : Int

/-- The struct `Sound::Handle`. -/
structure Handle where
  id : Int

/-- The loop of `getClipIndex` from index `i` on, with `fuel` entries left below
`clipCount`: the first index whose id is `id`, or -1. -/
def scanIds (clipIds : Nat → Int) (id : Int) : Nat → Nat → Int
  | _, 0 => -1
  | i, fuel + 1 => if clipIds i = id then (i : Int) else scanIds clipIds id (i + 1) fuel

/-- The function `getClipIndex`. -/
def getClipIndex (r : Registry) (id : Int) : Int :=
  scanIds r.clipIds id 0 r.clipCount.toNat

/-- The method `Handle::setProgress`. -/
def Handle.setProgress (h : Handle) (r : Registry) (p : Nat) : Registry :=
  if h.id < 0 then r
  else
    let index := getClipIndex r h.id
    if index > 0 then
      let i := index.toNat
      { r with clips := Function.update r.clips i { r.clips i with progress := p } }
    else r

/-- The method `Handle::setVolume`. -/
def Handle.setVolume (h : Handle) (r : Registry) (v : ℚ) : Registry :=
  if h.id < 0 then r
  else
    let index := getClipIndex r h.id
    if index > 0 then
      let i := index.toNat
      { r with clips := Function.update r.clips i { r.clips i with volume := v } }
    else r

/-- The method `Handle::getProgress`. -/
def Handle.getProgress (h : Handle) (r : Registry) : Nat :=
  if h.id < 0 then 0
  else
    let index := getClipIndex r h.id
    if index > 0 then (r.clips index.toNat).progress else 0

/-- The method `Handle::getVolume`. -/
def Handle.getVolume (h : Handle) (r : Registry) : ℚ :=
  if h.id < 0 then 0
  else
    let index := getClipIndex r h.id
    if index > 0 then (r.clips index.toNat).volume else 0

/-- Lines 116-119: the loop of `stop` that moves the entries above `index` down by
one; iteration `k` has `i = index + k`. -/
def shiftDown (index : Nat) (n : Nat) (st : (Nat → Clip) × (Nat → Int)) :
    (Nat → Clip) × (Nat → Int) :=
  SoundEngine.forLoop (fun k st =>
    let i := index + k
    (Function.update st.1 i (st.1 (i + 1)), Function.update st.2 i (st.2 (i + 1)))) n st

/-- The method `Handle::stop`: the handle and the globals after the call.  The
lookup runs after `id = -1`, as in the source. -/
def Handle.stop (h : Handle) (r : Registry) : Handle × Registry :=
  if h.id < 0 then (h, r)
  else
    let h1 : Handle := { id := -1 }
    let index := getClipIndex r h1.id
    if index > 0 then
      let moved := shiftDown index.toNat (r.clipCount - 1 - index).toNat (r.clips, r.clipIds)
      (h1, { r with clips := moved.1, clipIds := moved.2,
                    clipCount := SoundEngine.toI32 (r.clipCount - 1) })
    else (h1, r)

/-- The function `Sound::play`. -/
def play (r : Registry) (clip : Clip) : Handle × Registry :=
  if r.clipCount < CLIP_COUNT then
    ({ id := r.nextId },
      { r with
        clips := Function.update r.clips r.clipCount.toNat clip
        nextId := SoundEngine.toI32 (r.nextId + 1)
        clipIds := Function.update r.clipIds r.clipCount.toNat r.nextId
        clipCount := SoundEngine.toI32 (r.clipCount + 1) })
  else ({ id := -1 }, r)

/-- A clip over 100 samples of a buffer of ones at `volume = 1`. -/
def someClip : Clip :=
  { source := some (SoundEngine.constData ⟨1, by decide⟩), maskStart := 0, maskEnd := 100,
    volume := 1, progress := 0 }

/-- The globals at program start: zero-initialised. -/
def emptyRegistry : Registry :=
  { clips := fun _ => { source := none, maskStart := 0, maskEnd := 0, volume := 0,
                        progress := 0 }
    clipIds := fun _ => 0
    nextId := 0
    clipCount := 0 }

/-- The registry after one successful `play`. -/
def oneRegistry : Registry := (play emptyRegistry someClip).2

/-- The handle returned by that `play`. -/
def firstHandle : Handle := (play emptyRegistry someClip).1

/-- The registry after two successful `play` calls. -/
def twoRegistry : Registry := (play oneRegistry someClip).2

/-- The handle returned by the second `play`. -/
def secondHandle : Handle := (play oneRegistry someClip).1

def BUFFER_LENGTH : Int := 8192

/-- Lines 152-155 of `audio_callback`: the inner loop over the samples of one
clip; iteration `k` has `j = 2 * k`.  The left entry is added to, the right entry
is assigned. -/
def mixLoop (source : Nat → SoundEngine.I16) (offset : Int) (volume : ℚ) (n : Nat)
    (pb : Nat → Int) : Nat → Int :=
  SoundEngine.forLoop (fun k pb =>
    let j := 2 * k
    let l := SoundEngine.castInt (SoundEngine.rnd32
      (((source (offset + (j : Int)).toNat).val : ℚ) * volume))
    let r := SoundEngine.castInt (SoundEngine.rnd32
      (((source (offset + (j : Int) + 1).toNat).val : ℚ) * volume))
    Function.update (Function.update pb j (SoundEngine.toI32 (pb j + l))) (j + 1) r) n pb

/-- The local `offset` of `audio_callback` for the clip `c`: the `uint32_t` sum
`maskStart + progress` converted to `int`. -/
def clipOffset (c : Clip) : Int := SoundEngine.toI32 (c.maskStart + (c.progress : Int))

/-- The local `clipLength` of `audio_callback` for the clip `c`. -/
def clipLength (currentLength : Int) (c : Clip) : Int :=
  min currentLength (SoundEngine.toI32 (c.maskEnd - clipOffset c))

/-- Lines 148-155 of `audio_callback`, iteration `i` of the loop over the
registered clips; the loop state is `clips` and `processingBuffer`.  The result is
`none` when samples are read through a null `source`. -/
def mixClipStep (currentLength : Int) (i : Nat)
    (st : Option ((Nat → Clip) × (Nat → Int))) : Option ((Nat → Clip) × (Nat → Int)) :=
  match st with
  | none => none
  | some (clips, pb) =>
    let offset := clipOffset (clips i)
    let progress := SoundEngine.toU32
      (((clips i).progress : Int) + clipLength currentLength (clips i))
    let moved : Clip := { clips i with progress := progress }
    let n := ((clipLength currentLength (clips i)).toNat + 1) / 2
    if n = 0 then some (Function.update clips i moved, pb)
    else
      match (clips i).source with
      | none => none
      | some src =>
        some (Function.update clips i moved, mixLoop src offset (clips i).volume n pb)

/-- Lines 145-156 of `audio_callback`: one chunk of `currentLength` samples is
mixed into the zeroed `processingBuffer`; the result is `clips` and
`processingBuffer` as they stand before the output loop. -/
def mixChunk (r : Registry) (currentLength : Int) : Option ((Nat → Clip) × (Nat → Int)) :=
  SoundEngine.forLoop (mixClipStep currentLength) r.clipCount.toNat
    (some (r.clips, fun _ => 0))

/-- A clip over 10000 samples of a buffer of threes at `volume = 1`. -/
def threeClip : Clip :=
  { source := some (SoundEngine.constData ⟨3, by decide⟩), maskStart := 0, maskEnd := 10000,
    volume := 1, progress := 0 }

/-- A clip over 10000 samples of a buffer of fives at `volume = 1`. -/
def fiveClip : Clip :=
  { source := some (SoundEngine.constData ⟨5, by decide⟩), maskStart := 0, maskEnd := 10000,
    volume := 1, progress := 0 }

/-- The registry after `play(threeClip)` and `play(fiveClip)` from the start
state. -/
def mixRegistry : Registry := (play (play emptyRegistry threeClip).2 fiveClip).2

end Sound

namespace SoundEngine

/-! ## Machine arithmetic lemmas -/

theorem toU32_of_lt (n : Nat) (h : n < 4294967296) : toU32 (n : Int) = n := by
  unfold toU32; omega

theorem toI32_of_range (x : Int) (h1 : -2147483648 ≤ x) (h2 : x ≤ 2147483647) :
    toI32 x = x := by
  unfold toI32; omega

theorem toI16_of_range (x : Int) (h1 : -32768 ≤ x) (h2 : x ≤ 32767) : toI16 x = x := by
  unfold toI16; omega

theorem toI32_add_toI32 (a b : Int) : toI32 (toI32 a + b) = toI32 (a + b) := by
  unfold toI32; omega

/-! ## Binary32 rounding -/

theorem two_zpow_pos (k : Int) : (0 : ℚ) < 2 ^ k := zpow_pos (by norm_num) k

theorem roundEven_intCast (z : Int) : roundEven (z : ℚ) = z := by
  unfold roundEven
  rw [Int.floor_intCast, sub_self, if_pos (by norm_num)]

theorem roundEven_nonneg (q : ℚ) (h : 0 ≤ q) : 0 ≤ roundEven q := by
  have hf : 0 ≤ ⌊q⌋ := Int.floor_nonneg.mpr h
  unfold roundEven
  split
  · exact hf
  · split
    · omega
    · split <;> omega

theorem roundEven_le (q : ℚ) (n : Int) (h : q ≤ n) : roundEven q ≤ n := by
  have hf : ⌊q⌋ ≤ n := by
    have := Int.floor_le q
    exact_mod_cast le_trans this h
  unfold roundEven
  by_cases h1 : q - ⌊q⌋ < 1 / 2
  · rw [if_pos h1]; exact hf
  · have hlt : (⌊q⌋ : ℚ) < n := by
      have := Int.floor_le q
      linarith
    have hlt2 : ⌊q⌋ < n := by exact_mod_cast hlt
    rw [if_neg h1]
    split
    · omega
    · split <;> omega

theorem ulpExp_zero : ulpExp 0 = -23 := by
  unfold ulpExp
  rw [abs_zero, Int.log_zero_right]
  decide

theorem rnd32_zero : rnd32 0 = 0 := by
  unfold rnd32
  rw [zero_div]
  have : roundEven 0 = 0 := by
    have := roundEven_intCast 0
    simpa using this
  rw [this]
  simp

theorem rnd32_nonneg (q : ℚ) (h : 0 ≤ q) : 0 ≤ rnd32 q := by
  unfold rnd32
  apply mul_nonneg
  · exact_mod_cast roundEven_nonneg _ (div_nonneg h (le_of_lt (two_zpow_pos _)))
  · exact le_of_lt (two_zpow_pos _)

/-- A quotient by a power of two not above `2^k` of a multiple of `2^k` is an
integer. -/
theorem div_zpow_int (m : Int) (k u : Int) (h : u ≤ k) :
    ((m : ℚ) * 2 ^ k) / 2 ^ u = ((m * 2 ^ (k - u).toNat : Int) : ℚ) := by
  have h2 : (2 : ℚ) ≠ 0 := by norm_num
  have hk : k = (k - u).toNat + u := by omega
  have : (2 : ℚ) ^ k = 2 ^ (k - u).toNat * 2 ^ u := by
    conv_lhs => rw [hk]
    rw [zpow_add₀ h2, zpow_natCast]
  rw [this]
  push_cast
  field_simp
  ring

theorem rnd32_of_int_quot (q : ℚ) (z : Int) (h : q / 2 ^ ulpExp q = (z : ℚ)) : rnd32 q = q := by
  unfold rnd32
  rw [h, roundEven_intCast, ← h]
  have := two_zpow_pos (ulpExp q)
  field_simp

theorem rnd32_repr (m k : Int) (hm : |m| < 16777216) (hk : -149 ≤ k) :
    rnd32 ((m : ℚ) * 2 ^ k) = (m : ℚ) * 2 ^ k := by
  by_cases h0 : m = 0
  · rw [h0]; simp [rnd32_zero]
  · have hq : (0 : ℚ) < |(m : ℚ) * 2 ^ k| := by
      apply abs_pos.mpr
      exact mul_ne_zero (by exact_mod_cast h0) (ne_of_gt (two_zpow_pos k))
    have hlt : |(m : ℚ) * 2 ^ k| < ((2 : ℕ) : ℚ) ^ (k + 24) := by
      rw [abs_mul, abs_of_pos (two_zpow_pos k), Nat.cast_ofNat,
        zpow_add₀ (by norm_num : (2 : ℚ) ≠ 0), mul_comm]
      apply mul_lt_mul_of_pos_left _ (two_zpow_pos k)
      have : ((|m| : Int) : ℚ) < 16777216 := by exact_mod_cast hm
      rw [Int.cast_abs] at this
      norm_num
      exact this
    have hlog := (Int.lt_zpow_iff_log_lt (by norm_num : 1 < 2) hq).mp hlt
    have hu : ulpExp ((m : ℚ) * 2 ^ k) ≤ k := by
      unfold ulpExp
      exact max_le (by omega) hk
    exact rnd32_of_int_quot _ _ (div_zpow_int m k _ hu)

theorem rnd32_intCast (z : Int) (h : |z| ≤ 16777216) : rnd32 (z : ℚ) = z := by
  by_cases hlt : |z| < 16777216
  · have := rnd32_repr z 0 hlt (by decide)
    simpa using this
  · have hz : z = 16777216 ∨ z = -16777216 := by
      rcases abs_cases z with ⟨h1, _⟩ | ⟨h1, _⟩ <;> omega
    rcases hz with hz | hz
    · have := rnd32_repr 1 24 (by decide) (by decide)
      rw [hz]
      norm_num at this ⊢
      exact this
    · have := rnd32_repr (-1) 24 (by decide) (by decide)
      rw [hz]
      norm_num at this ⊢
      exact this

theorem rnd32_natCast (n : Nat) (h : n ≤ 16777216) : rnd32 (n : ℚ) = n := by
  have := rnd32_intCast (n : Int) (by rw [abs_of_nonneg (Int.natCast_nonneg n)]; exact_mod_cast h)
  simpa using this

theorem truncF_intCast (z : Int) : truncF (z : ℚ) = z := by
  unfold truncF
  split
  · exact Int.floor_intCast z
  · exact Int.ceil_intCast z

theorem castU32_intCast (z : Int) (h0 : 0 ≤ z) (h1 : z < 4294967296) :
    (castU32 (z : ℚ) : Int) = z := by
  unfold castU32
  rw [truncF_intCast, if_pos ⟨by omega, by omega⟩]
  unfold toU32
  omega

theorem castU32_natCast (n : Nat) (h : n < 4294967296) : castU32 (n : ℚ) = n := by
  have := castU32_intCast (n : Int) (Int.natCast_nonneg n) (by exact_mod_cast h)
  rw [Int.cast_natCast] at this
  exact_mod_cast this

theorem castInt_intCast (z : Int) (h0 : -2147483648 ≤ z) (h1 : z ≤ 2147483647) :
    castInt (z : ℚ) = z := by
  unfold castInt
  rw [truncF_intCast, if_pos ⟨h0, h1⟩]

/-- Rounding does not lift a non-negative value above an integer bound that
binary32 holds exactly. -/
theorem rnd32_le_nat (x : ℚ) (n : Nat) (hx : 0 ≤ x) (hn : n ≤ 16777216) (h : x ≤ n) :
    rnd32 x ≤ n := by
  by_cases hu : ulpExp x ≤ 0
  · have hq := div_zpow_int (n : Int) 0 (ulpExp x) hu
    rw [zpow_zero, mul_one] at hq
    have hle : x / 2 ^ ulpExp x ≤ (((n : Int) * 2 ^ (0 - ulpExp x).toNat : Int) : ℚ) := by
      rw [← hq]
      apply div_le_div_of_nonneg_right _ (le_of_lt (two_zpow_pos _))
      exact_mod_cast h
    have hr := roundEven_le _ _ hle
    have hr2 : (roundEven (x / 2 ^ ulpExp x) : ℚ) ≤
        (((n : Int) * 2 ^ (0 - ulpExp x).toNat : Int) : ℚ) := by exact_mod_cast hr
    unfold rnd32
    calc (roundEven (x / 2 ^ ulpExp x) : ℚ) * 2 ^ ulpExp x
        ≤ (((n : Int) * 2 ^ (0 - ulpExp x).toNat : Int) : ℚ) * 2 ^ ulpExp x :=
          mul_le_mul_of_nonneg_right hr2 (le_of_lt (two_zpow_pos _))
      _ = (n : ℚ) := by
          rw [← hq]
          have := two_zpow_pos (ulpExp x)
          field_simp
  · have hpos : 0 < x := by
      rcases lt_or_eq_of_le hx with h1 | h1
      · exact h1
      · rw [← h1, ulpExp_zero] at hu
        exact absurd (by decide) hu
    have hlog : 24 ≤ Int.log 2 |x| := by
      unfold ulpExp at hu
      by_contra hc
      apply hu
      exact max_le (by omega) (by decide)
    rw [abs_of_pos hpos] at hlog
    have hge := (Int.zpow_le_iff_le_log (by norm_num : 1 < 2) hpos).mpr hlog
    rw [Nat.cast_ofNat] at hge
    have hn2 : (n : ℚ) ≤ 16777216 := by exact_mod_cast hn
    have hx2 : x = 16777216 := by
      norm_num at hge
      linarith
    have hxn : (n : ℚ) = 16777216 := by linarith
    rw [hxn, hx2]
    have := rnd32_natCast 16777216 (le_refl _)
    norm_num at this
    rw [this]

/-- The binary32 value nearest to an even integer is an even integer. -/
theorem rnd32_even (n : Int) : ∃ m : Int, rnd32 ((2 * n : Int) : ℚ) = ((2 * m : Int) : ℚ) := by
  by_cases h0 : n = 0
  · exact ⟨0, by rw [h0]; simp [rnd32_zero]⟩
  · by_cases hu : ulpExp ((2 * n : Int) : ℚ) ≤ 0
    · refine ⟨n, rnd32_of_int_quot _ ((2 * n) * 2 ^ (0 - ulpExp ((2 * n : Int) : ℚ)).toNat) ?_⟩
      have := div_zpow_int (2 * n) 0 _ hu
      rw [zpow_zero, mul_one] at this
      exact this
    · refine ⟨roundEven (((2 * n : Int) : ℚ) / 2 ^ ulpExp ((2 * n : Int) : ℚ)) *
        2 ^ (ulpExp ((2 * n : Int) : ℚ) - 1).toNat, ?_⟩
      unfold rnd32
      have hk : ulpExp ((2 * n : Int) : ℚ) = (ulpExp ((2 * n : Int) : ℚ) - 1).toNat + 1 := by
        omega
      have hp : (2 : ℚ) ^ ulpExp ((2 * n : Int) : ℚ) =
          2 ^ (ulpExp ((2 * n : Int) : ℚ) - 1).toNat * 2 := by
        conv_lhs => rw [hk]
        rw [zpow_add₀ (by norm_num : (2 : ℚ) ≠ 0), zpow_natCast, zpow_one]
      rw [hp]
      push_cast
      ring

theorem ulpExp_of_bounds (q : ℚ) (e : Int) (h1 : 2 ^ e ≤ |q|) (h2 : |q| < 2 ^ (e + 1))
    (he : -126 ≤ e) : ulpExp q = e - 23 := by
  have hq : 0 < |q| := lt_of_lt_of_le (two_zpow_pos e) h1
  have a := (Int.zpow_le_iff_le_log (by norm_num : 1 < 2) hq).mp
    (by rw [Nat.cast_ofNat]; exact h1)
  have b := (Int.lt_zpow_iff_log_lt (by norm_num : 1 < 2) hq).mp
    (by rw [Nat.cast_ofNat]; exact h2)
  unfold ulpExp
  rw [max_eq_left (by omega)]
  omega

theorem play_fail (s : Engine) (c : Nat) (h : s.clipCount = CLIP_COUNT) :
    play s c = (false, s) := by
  simp [play, h]

theorem play_ok_fst (s : Engine) (c : Nat) (h : s.clipCount ≠ CLIP_COUNT) :
    (play s c).1 = true := by
  unfold play
  simp only [h, if_false]
  split <;> rfl

theorem play_active (s : Engine) (c : Nat) (h : (s.clips c).active = true) :
    (play s c).2 = s := by
  unfold play
  by_cases hc : s.clipCount = CLIP_COUNT <;> simp [hc, h]

theorem play_on_idle_state (s : Engine) (c : Nat) (h : s.clipCount ≠ CLIP_COUNT)
    (hi : (s.clips c).active = false) :
    (play s c).2 = { s with
      clips := Function.update s.clips c { s.clips c with progress := 0, active := true }
      clipPointers := Function.update s.clipPointers s.clipCount (some c)
      clipCount := toU32 ((s.clipCount : Int) + 1) } := by
  unfold play
  simp [h, hi]

theorem playAll_count (cs : List Nat) : ∀ s : Engine, cs.Nodup →
    (∀ c ∈ cs, (s.clips c).active = false) → s.clipCount ≤ CLIP_COUNT →
    (playAll s cs).1.count true = min cs.length (CLIP_COUNT - s.clipCount) ∧
    (playAll s cs).1.length = cs.length := by
  induction cs with
  | nil => intro s _ _ _; simp [playAll]
  | cons c cs ih =>
    intro s hnd hidle hle
    have hc : (s.clips c).active = false := hidle c (by simp)
    have hnd2 := (List.nodup_cons.mp hnd)
    by_cases hfull : s.clipCount = CLIP_COUNT
    · have hp := play_fail s c hfull
      have := ih s hnd2.2 (fun d hd => hidle d (by simp [hd])) hle
      simp only [playAll, hp, List.length_cons]
      simp [this.1, this.2, hfull]
    · have h1 := play_ok_fst s c hfull
      have h2 := play_on_idle_state s c hfull hc
      have hlt : s.clipCount < CLIP_COUNT := lt_of_le_of_ne hle hfull
      have hcnt : (play s c).2.clipCount = s.clipCount + 1 := by
        rw [h2]; simp only [CLIP_COUNT] at hlt
        show toU32 ((s.clipCount : Int) + 1) = s.clipCount + 1
        unfold toU32; omega
      have hidle2 : ∀ d ∈ cs, ((play s c).2.clips d).active = false := by
        intro d hd
        have hne : d ≠ c := by
          intro e; subst e; exact hnd2.1 hd
        rw [h2]
        simp [Function.update, hne, hidle d (by simp [hd])]
      have := ih (play s c).2 hnd2.2 hidle2 (by rw [hcnt]; exact hlt)
      simp only [playAll, h1, List.length_cons, List.count_cons_self, this.1, this.2, hcnt]
      refine ⟨?_, trivial⟩
      omega

/-- C5: `Clip::play` returns false exactly when `clipCount == CLIP_COUNT` at the
call, a failing call changes nothing, and successive plays of pairwise distinct
idle clips succeed until the registry is full: from `clipCount` entries,
`min n (CLIP_COUNT - clipCount)` of `n` plays succeed, so that of
`CLIP_COUNT + 1` plays into an empty registry exactly `CLIP_COUNT` succeed and
one fails. -/
theorem play_false_iff_full (s : Engine) (c : Nat) :
    ((play s c).1 = false ↔ s.clipCount = CLIP_COUNT) ∧
    ((play s c).1 = false → (play s c).2 = s) ∧
    (∀ cs : List Nat, cs.Nodup → (∀ d ∈ cs, (s.clips d).active = false) →
      s.clipCount ≤ CLIP_COUNT →
      (playAll s cs).1.count true = min cs.length (CLIP_COUNT - s.clipCount)) ∧
    (∀ cs : List Nat, cs.Nodup → (∀ d ∈ cs, (s.clips d).active = false) →
      s.clipCount = 0 → cs.length = CLIP_COUNT + 1 →
      (playAll s cs).1.count true = CLIP_COUNT ∧ (playAll s cs).1.count false = 1) := by
  have hiff : (play s c).1 = false ↔ s.clipCount = CLIP_COUNT := by
    constructor
    · intro h
      by_contra hne
      rw [play_ok_fst s c hne] at h
      exact Bool.noConfusion h
    · intro h
      rw [play_fail s c h]
  refine ⟨hiff, ?_, ?_, ?_⟩
  · intro h
    rw [play_fail s c (hiff.mp h)]
  · intro cs hnd hidle hle
    exact (playAll_count cs s hnd hidle hle).1
  · intro cs hnd hidle h0 hlen
    have h := playAll_count cs s hnd hidle (by rw [h0]; exact Nat.zero_le _)
    have ht : (playAll s cs).1.count true = CLIP_COUNT := by
      rw [h.1, h0, hlen]; simp
    refine ⟨ht, ?_⟩
    have hsum := List.count_add_count_not (playAll s cs).1 true
    rw [h.2, hlen, ht] at hsum
    simp only [Bool.not_true] at hsum
    omega

/-- C5, at the start state and the clip objects 0, ..., 128. -/
theorem play_false_iff_full_witness :
    (List.range (CLIP_COUNT + 1)).Nodup ∧
    (∀ d ∈ List.range (CLIP_COUNT + 1), (initEngine.clips d).active = false) ∧
    initEngine.clipCount = 0 ∧
    (List.range (CLIP_COUNT + 1)).length = CLIP_COUNT + 1 ∧
    (playAll initEngine (List.range (CLIP_COUNT + 1))).1.count true = CLIP_COUNT ∧
    (playAll initEngine (List.range (CLIP_COUNT + 1))).1.count false = 1 :=
  ⟨List.nodup_range _, fun _ _ => rfl, rfl, List.length_range _,
    (play_false_iff_full initEngine 0).2.2.2 (List.range (CLIP_COUNT + 1))
      (List.nodup_range _) (fun _ _ => rfl) rfl (List.length_range _)⟩

/-- C6: `Clip::play` on a clip whose `active` is already true changes nothing in
the state (`clipPointers`, `clipCount` and every field of the clip included), and
on any clip two calls in a row leave the state that one call leaves. -/
theorem play_idempotent (s : Engine) (c : Nat) :
    ((s.clips c).active = true → (play s c).2 = s) ∧
    (play (play s c).2 c).2 = (play s c).2 := by
  refine ⟨play_active s c, ?_⟩
  by_cases hfull : s.clipCount = CLIP_COUNT
  · rw [play_fail s c hfull]
    show (play s c).2 = s
    rw [play_fail s c hfull]
  · cases hact : (s.clips c).active with
    | true => rw [play_active s c hact, play_active s c hact]
    | false =>
      apply play_active
      rw [play_on_idle_state s c hfull hact]
      simp

/-- C6, at a clip that was just played into the empty registry. -/
theorem play_idempotent_witness :
    ((play initEngine 0).2.clips 0).active = true ∧
    (play (play initEngine 0).2 0).2 = (play initEngine 0).2 :=
  ⟨rfl, (play_idempotent (play initEngine 0).2 0).1 rfl⟩

/-- C7: `Clip::play` on an idle clip with `clipCount < CLIP_COUNT` returns true,
stores the clip at `clipPointers[old clipCount]`, adds one to `clipCount`, sets
`progress = 0` and `active = true`, and changes no other entry of `clipPointers`,
no other field of the clip and no other clip. -/
theorem play_idle (s : Engine) (c : Nat) (hidle : (s.clips c).active = false)
    (hcap : s.clipCount < CLIP_COUNT) :
    (play s c).1 = true ∧
    (play s c).2.clipPointers s.clipCount = some c ∧
    (play s c).2.clipCount = s.clipCount + 1 ∧
    (play s c).2.clips c = { s.clips c with progress := 0, active := true } ∧
    (∀ i, i ≠ s.clipCount → (play s c).2.clipPointers i = s.clipPointers i) ∧
    (∀ d, d ≠ c → (play s c).2.clips d = s.clips d) := by
  have hne : s.clipCount ≠ CLIP_COUNT := Nat.ne_of_lt hcap
  refine ⟨play_ok_fst s c hne, ?_⟩
  rw [play_on_idle_state s c hne hidle]
  simp only [CLIP_COUNT] at hcap
  refine ⟨by simp, ?_, by simp, ?_, ?_⟩
  · show toU32 ((s.clipCount : Int) + 1) = s.clipCount + 1
    unfold toU32; omega
  · intro i hi; simp [Function.update, hi]
  · intro d hd; simp [Function.update, hd]

/-- C7, at the start state and the clip object 0. -/
theorem play_idle_witness :
    (initEngine.clips 0).active = false ∧ initEngine.clipCount < CLIP_COUNT ∧
    (play initEngine 0).1 = true ∧
    (play initEngine 0).2.clipPointers initEngine.clipCount = some 0 ∧
    (play initEngine 0).2.clipCount = initEngine.clipCount + 1 :=
  have h := play_idle initEngine 0 rfl (by decide)
  ⟨rfl, by decide, h.1, h.2.1, h.2.2.1⟩

/-! ## dispatch -/

theorem findInactive_spec (infos : Nat → ClipInfo) : ∀ (fuel i0 : Nat),
    (∃ i, i0 ≤ i ∧ i < i0 + fuel ∧ (infos i).active = false) →
    ∃ i, findInactive infos i0 fuel = some i ∧ i0 ≤ i ∧ i < i0 + fuel ∧
      (infos i).active = false ∧ ∀ k, i0 ≤ k → k < i → (infos k).active = true := by
  intro fuel
  induction fuel with
  | zero =>
    intro i0 h
    obtain ⟨i, h1, h2, _⟩ := h
    omega
  | succ n ih =>
    intro i0 h
    cases hact : (infos i0).active with
    | false =>
      refine ⟨i0, by simp [findInactive, hact], le_refl _, by omega, hact, ?_⟩
      intro k h1 h2; omega
    | true =>
      obtain ⟨i, h1, h2, h3⟩ := h
      have hne : i ≠ i0 := by
        intro e; rw [e, hact] at h3; exact Bool.noConfusion h3
      obtain ⟨r, hr1, hr2, hr3, hr4, hr5⟩ := ih (i0 + 1) ⟨i, by omega, by omega, h3⟩
      refine ⟨r, by simp [findInactive, hact, hr1], by omega, by omega, hr4, ?_⟩
      intro k hk1 hk2
      by_cases hk : k = i0
      · rw [hk]; exact hact
      · exact hr5 k (by omega) hk2

/-- C8: with `dispatchCount < CLIP_COUNT` and some inactive slot, `dispatch`
returns true, takes the lowest inactive slot `i`, stores there the copy of `info`
with `active = true`, writes `i` at `dispatchIndices[old dispatchCount]`, adds one
to `dispatchCount`, and changes no other slot and no other index entry. -/
theorem dispatch_first_free (s : Engine) (info : ClipInfo)
    (hcap : s.dispatchCount < CLIP_COUNT)
    (hfree : ∃ i, i < CLIP_COUNT ∧ (s.dispatchInfos i).active = false) :
    ∃ i, i < CLIP_COUNT ∧ (s.dispatchInfos i).active = false ∧
      (∀ k, k < i → (s.dispatchInfos k).active = true) ∧
      (dispatch s info).1 = true ∧
      (dispatch s info).2.dispatchInfos i = { info with active := true } ∧
      (dispatch s info).2.dispatchIndices s.dispatchCount = i ∧
      (dispatch s info).2.dispatchCount = s.dispatchCount + 1 ∧
      (∀ k, k ≠ i → (dispatch s info).2.dispatchInfos k = s.dispatchInfos k) ∧
      (∀ k, k ≠ s.dispatchCount →
        (dispatch s info).2.dispatchIndices k = s.dispatchIndices k) := by
  obtain ⟨i0, hi0, hact0⟩ := hfree
  obtain ⟨i, hfind, _, hlt, hact, hmin⟩ :=
    findInactive_spec s.dispatchInfos CLIP_COUNT 0 ⟨i0, Nat.zero_le _, by omega, hact0⟩
  have hne : s.dispatchCount ≠ CLIP_COUNT := Nat.ne_of_lt hcap
  have hd : dispatch s info = (true, { s with
        dispatchInfos := Function.update s.dispatchInfos i { info with active := true }
        dispatchIndices := Function.update s.dispatchIndices s.dispatchCount i
        dispatchCount := toU32 ((s.dispatchCount : Int) + 1) }) := by
    unfold dispatch
    simp [hne, hfind]
  refine ⟨i, by omega, hact, fun k hk => hmin k (Nat.zero_le _) hk, ?_⟩
  rw [hd]
  simp only [CLIP_COUNT] at hcap
  refine ⟨rfl, by simp, by simp, ?_, ?_, ?_⟩
  · show toU32 ((s.dispatchCount : Int) + 1) = s.dispatchCount + 1
    unfold toU32; omega
  · intro k hk; simp [Function.update, hk]
  · intro k hk; simp [Function.update, hk]

/-- C8, at the start state, where every slot is inactive and slot 0 is taken. -/
theorem dispatch_first_free_witness :
    initEngine.dispatchCount < CLIP_COUNT ∧
    (∃ i, i < CLIP_COUNT ∧ (initEngine.dispatchInfos i).active = false) ∧
    ∃ i, i < CLIP_COUNT ∧ (initEngine.dispatchInfos i).active = false ∧
      (∀ k, k < i → (initEngine.dispatchInfos k).active = true) ∧
      (dispatch initEngine (defaultInfo (constData ⟨1, by decide⟩))).1 = true :=
  have h := dispatch_first_free initEngine (defaultInfo (constData ⟨1, by decide⟩))
    (by decide) ⟨0, by decide, rfl⟩
  ⟨by decide, ⟨0, by decide, rfl⟩,
    h.elim fun i hi => ⟨i, hi.1, hi.2.1, hi.2.2.1, hi.2.2.2.1⟩⟩

/-! ## The loops of processInfo in closed form -/

theorem copyLoop_apply (info : ClipInfo) (ch : Nat → Int) (n j : Nat) :
    copyLoop info n ch j =
      if j < n then (info.data (toU32 ((offset info : Int) + j))).val else ch j := by
  induction n with
  | zero => simp [copyLoop, forLoop]
  | succ n ih =>
    show Function.update (copyLoop info n ch) n _ j = _
    by_cases h : j = n
    · subst h; simp
    · rw [Function.update_noteq h, ih]
      have : j < n + 1 ↔ j < n := by omega
      simp [this]

theorem accumulate_apply (ch m : Nat → Int) (n : Nat) : ∀ j : Nat,
    accumulate n ch m j = if j < n then toI32 (m j + ch j) else m j := by
  induction n with
  | zero => intro j; simp [accumulate, forLoop]
  | succ n ih =>
    intro j
    show Function.update (accumulate n ch m) n
      (toI32 (accumulate n ch m n + ch n)) j = _
    by_cases h : j = n
    · subst h
      rw [Function.update_same, ih j]
      simp
    · rw [Function.update_noteq h, ih j]
      have : j < n + 1 ↔ j < n := by omega
      simp [this]

theorem gainLoop_apply (info : ClipInfo) (ch : Nat → Int) (n j : Nat) :
    gainLoop info n ch j =
      if j < 2 * n then
        castInt (rnd32 (((info.data (toU32 ((offset info : Int) + j))).val : ℚ)
          * channelVolume info j))
      else ch j := by
  induction n with
  | zero => simp [gainLoop, forLoop]
  | succ n ih =>
    show Function.update (Function.update (gainLoop info n ch) (2 * n) _) (2 * n + 1) _ j = _
    by_cases h1 : j = 2 * n + 1
    · subst h1
      have hp : (2 * n + 1) % 2 ≠ 0 := by omega
      have hl : 2 * n + 1 < 2 * (n + 1) := by omega
      rw [Function.update_same]
      simp only [channelVolume, hp, hl, if_true, if_false]
      push_cast
      simp [add_assoc]
    · rw [Function.update_noteq h1]
      by_cases h2 : j = 2 * n
      · subst h2
        have hp : (2 * n) % 2 = 0 := by omega
        have hl : 2 * n < 2 * (n + 1) := by omega
        rw [Function.update_same]
        simp only [channelVolume, hp, hl, if_true]
      · rw [Function.update_noteq h2, ih]
        have : j < 2 * (n + 1) ↔ j < 2 * n := by omega
        simp [this]

theorem resampleLoop_fst (info : ClipInfo) (ch : Nat → Int) (n : Nat) :
    (resampleLoop info n (info.difference, ch)).1 = fAcc info n := by
  induction n with
  | zero => rfl
  | succ n ih =>
    show rnd32 ((resampleLoop info n (info.difference, ch)).1 + info.speed) = _
    rw [ih]
    rfl

theorem resampleGainLoop_fst (info : ClipInfo) (ch : Nat → Int) (n : Nat) :
    (resampleGainLoop info n (info.difference, ch)).1 = fAcc info n := by
  induction n with
  | zero => rfl
  | succ n ih =>
    show rnd32 ((resampleGainLoop info n (info.difference, ch)).1 + info.speed) = _
    rw [ih]
    rfl

theorem resampleLoop_apply (info : ClipInfo) (ch : Nat → Int) (n j : Nat) :
    (resampleLoop info n (info.difference, ch)).2 j =
      if j < 2 * n then
        (if j % 2 = 0 then (info.data (sourcePosition info (j / 2))).val
         else (info.data (toU32 ((sourcePosition info (j / 2) : Int) + 1))).val)
      else ch j := by
  induction n with
  | zero => simp [resampleLoop, forLoop]
  | succ n ih =>
    have hf := resampleLoop_fst info ch n
    simp only [resampleLoop] at hf
    show Function.update (Function.update (resampleLoop info n (info.difference, ch)).2
      (2 * n) _) (2 * n + 1) _ j = _
    by_cases h1 : j = 2 * n + 1
    · subst h1
      have hp : (2 * n + 1) % 2 ≠ 0 := by omega
      have hl : 2 * n + 1 < 2 * (n + 1) := by omega
      have hd : (2 * n + 1) / 2 = n := by omega
      rw [Function.update_same]
      simp only [hp, hl, hd, if_true, if_false, sourcePosition, hf]
    · rw [Function.update_noteq h1]
      by_cases h2 : j = 2 * n
      · subst h2
        have hp : (2 * n) % 2 = 0 := by omega
        have hl : 2 * n < 2 * (n + 1) := by omega
        have hd : (2 * n) / 2 = n := by omega
        rw [Function.update_same]
        simp only [hp, hl, hd, if_true, sourcePosition, hf]
      · rw [Function.update_noteq h2, ih]
        have : j < 2 * (n + 1) ↔ j < 2 * n := by omega
        simp [this]

theorem resampleGainLoop_apply (info : ClipInfo) (ch : Nat → Int) (n j : Nat) :
    (resampleGainLoop info n (info.difference, ch)).2 j =
      if j < 2 * n then
        (if j % 2 = 0 then
          castInt (rnd32 (((info.data (sourcePosition info (j / 2))).val : ℚ) * info.volumeL))
         else
          castInt (rnd32 (((info.data
            (toU32 ((sourcePosition info (j / 2) : Int) + 1))).val : ℚ) * info.volumeR)))
      else ch j := by
  induction n with
  | zero => simp [resampleGainLoop, forLoop]
  | succ n ih =>
    have hf := resampleGainLoop_fst info ch n
    simp only [resampleGainLoop] at hf
    show Function.update (Function.update (resampleGainLoop info n (info.difference, ch)).2
      (2 * n) _) (2 * n + 1) _ j = _
    by_cases h1 : j = 2 * n + 1
    · subst h1
      have hp : (2 * n + 1) % 2 ≠ 0 := by omega
      have hl : 2 * n + 1 < 2 * (n + 1) := by omega
      have hd : (2 * n + 1) / 2 = n := by omega
      rw [Function.update_same]
      simp only [hp, hl, hd, if_true, if_false, sourcePosition, hf]
    · rw [Function.update_noteq h1]
      by_cases h2 : j = 2 * n
      · subst h2
        have hp : (2 * n) % 2 = 0 := by omega
        have hl : 2 * n < 2 * (n + 1) := by omega
        have hd : (2 * n) / 2 = n := by omega
        rw [Function.update_same]
        simp only [hp, hl, hd, if_true, sourcePosition, hf]
      · rw [Function.update_noteq h2, ih]
        have : j < 2 * (n + 1) ↔ j < 2 * n := by omega
        simp [this]

/-! ## processInfo in closed form -/

theorem fixedBound_even (info : ClipInfo) : (fixedBound info + 1) / 2 * 2 = fixedBound info := by
  unfold fixedBound toI32
  omega

theorem variableBound_even (info : ClipInfo) :
    (variableBound info + 1) / 2 * 2 = variableBound info := by
  unfold variableBound toU32
  omega

theorem produced_even (info : ClipInfo) : produced info = 2 * ((produced info + 1) / 2) := by
  unfold produced
  split
  · have := fixedBound_even info; omega
  · have := variableBound_even info; omega

theorem fillChannel_static_fixed (info : ClipInfo) (ch : Nat → Int) (j : Nat)
    (hs : hasFlag info.flags SE_STATIC_SPEED = true)
    (hv : hasFlag info.flags SE_STATIC_VOLUME = true) (hj : j < produced info) :
    (fillChannel info ch).2 j = (info.data (toU32 ((offset info : Int) + j))).val := by
  simp only [produced, hs, if_true] at hj
  simp only [fillChannel, hs, hv, if_true, copyLoop_apply, hj]

theorem fillChannel_gain_fixed (info : ClipInfo) (ch : Nat → Int) (j : Nat)
    (hs : hasFlag info.flags SE_STATIC_SPEED = true)
    (hv : hasFlag info.flags SE_STATIC_VOLUME = false) (hj : j < produced info) :
    (fillChannel info ch).2 j =
      castInt (rnd32 (((info.data (toU32 ((offset info : Int) + j))).val : ℚ)
        * channelVolume info j)) := by
  simp only [produced, hs, if_true] at hj
  have h2 : j < 2 * ((fixedBound info + 1) / 2) := by
    have := fixedBound_even info; omega
  simp [fillChannel, hs, hv, gainLoop_apply, h2]

theorem fillChannel_static_variable (info : ClipInfo) (ch : Nat → Int) (j : Nat)
    (hs : hasFlag info.flags SE_STATIC_SPEED = false)
    (hv : hasFlag info.flags SE_STATIC_VOLUME = true) (hj : j < produced info) :
    (fillChannel info ch).2 j =
      if j % 2 = 0 then (info.data (sourcePosition info (j / 2))).val
      else (info.data (toU32 ((sourcePosition info (j / 2) : Int) + 1))).val := by
  simp only [produced, hs] at hj
  have h2 : j < 2 * ((variableBound info + 1) / 2) := by
    have := variableBound_even info
    simp only [Bool.false_eq_true, if_false] at hj
    omega
  simp [fillChannel, hs, hv, resampleLoop_apply, h2]

theorem fillChannel_gain_variable (info : ClipInfo) (ch : Nat → Int) (j : Nat)
    (hs : hasFlag info.flags SE_STATIC_SPEED = false)
    (hv : hasFlag info.flags SE_STATIC_VOLUME = false) (hj : j < produced info) :
    (fillChannel info ch).2 j =
      if j % 2 = 0 then
        castInt (rnd32 (((info.data (sourcePosition info (j / 2))).val : ℚ) * info.volumeL))
      else
        castInt (rnd32 (((info.data
          (toU32 ((sourcePosition info (j / 2) : Int) + 1))).val : ℚ) * info.volumeR)) := by
  simp only [produced, hs] at hj
  have h2 : j < 2 * ((variableBound info + 1) / 2) := by
    have := variableBound_even info
    simp only [Bool.false_eq_true, if_false] at hj
    omega
  simp [fillChannel, hs, hv, resampleGainLoop_apply, h2]

theorem fillChannel_eq_contribution (info : ClipInfo) (ch : Nat → Int) (j : Nat)
    (hj : j < produced info) : (fillChannel info ch).2 j = contribution info j := by
  unfold contribution
  rw [if_pos hj]
  cases hs : hasFlag info.flags SE_STATIC_SPEED <;>
    cases hv : hasFlag info.flags SE_STATIC_VOLUME
  · rw [fillChannel_gain_variable info ch j hs hv hj,
      fillChannel_gain_variable info _ j hs hv hj]
  · rw [fillChannel_static_variable info ch j hs hv hj,
      fillChannel_static_variable info _ j hs hv hj]
  · rw [fillChannel_gain_fixed info ch j hs hv hj, fillChannel_gain_fixed info _ j hs hv hj]
  · rw [fillChannel_static_fixed info ch j hs hv hj,
      fillChannel_static_fixed info _ j hs hv hj]

theorem processInfo_masterBuffer (info : ClipInfo) (m ch : Nat → Int) (j : Nat) :
    (processInfo info m ch).masterBuffer j =
      if j < produced info then toI32 (m j + contribution info j) else m j := by
  have h : (processInfo info m ch).masterBuffer =
      accumulate (produced info) (fillChannel info ch).2 m := rfl
  rw [h, accumulate_apply]
  by_cases hj : j < produced info
  · rw [if_pos hj, if_pos hj, fillChannel_eq_contribution info ch j hj]
  · rw [if_neg hj, if_neg hj]

theorem processInfo_channelBuffer (info : ClipInfo) (m ch : Nat → Int) (j : Nat)
    (hj : j < produced info) :
    (processInfo info m ch).channelBuffer j = contribution info j := by
  have h : (processInfo info m ch).channelBuffer = (fillChannel info ch).2 := rfl
  rw [h, fillChannel_eq_contribution info ch j hj]

theorem processInfo_info_fixed (info : ClipInfo) (m ch : Nat → Int)
    (hs : hasFlag info.flags SE_STATIC_SPEED = true) :
    (processInfo info m ch).info = { info with
      active := decide (toU32 (sampleRange info) > SAMPLE_COUNT)
      progress := toU32 ((info.progress : Int) + length info) } := by
  show advance info (fillChannel info ch).1 = _
  unfold advance
  rw [if_pos hs]

theorem advance_flags (info : ClipInfo) (f : ℚ) : (advance info f).flags = info.flags := by
  unfold advance
  split <;> rfl

theorem processInfo_flags (info : ClipInfo) (m ch : Nat → Int) :
    (processInfo info m ch).info.flags = info.flags :=
  advance_flags info (fillChannel info ch).1

/-! ## The fixed-speed path -/

theorem range_arith (e s p : Nat) (h1 : s ≤ e) (h2 : p ≤ e - s)
    (h3 : e - s < 2147483648) :
    toI32 (toU32 ((e : Int) - s - p)) = ((e - s - p : Nat) : Int) ∧
    toU32 ((p : Int) + min (((e - s - p : Nat) : Int)) 4096) = p + min (e - s - p) 4096 ∧
    (toU32 (((e - s - p : Nat) : Int)) > 4096 ↔ 4096 < e - s - p) ∧
    (toI32 (min (((e - s - p : Nat) : Int)) 4096 * 2)).toNat = 2 * min (e - s - p) 4096 := by
  unfold toI32 toU32
  refine ⟨by omega, by omega, by omega, by omega⟩

theorem active_arith (e s p : Nat) (h2 : p ≤ e - s) :
    4096 < e - s - p ↔ p + min (e - s - p) 4096 < e - s := by
  omega

theorem playback_arith (k L : Nat) :
    min (k * 4096) L + min (L - min (k * 4096) L) 4096 = min ((k + 1) * 4096) L ∧
    (¬ (4096 < L - min (k * 4096) L) ↔ min ((k + 1) * 4096) L = L) := by
  refine ⟨by omega, by omega⟩

theorem length_eq (info : ClipInfo) : length info = min (sampleRange info) 4096 := by
  unfold length SAMPLE_COUNT
  norm_num

theorem fixed_step (info : ClipInfo) (m ch : Nat → Int)
    (hs : hasFlag info.flags SE_STATIC_SPEED = true) (h1 : info.start ≤ info.end_)
    (h2 : info.progress ≤ info.end_ - info.start)
    (h3 : info.end_ - info.start < 2147483648) :
    (processInfo info m ch).info.progress =
      info.progress + min (info.end_ - info.start - info.progress) 4096 ∧
    ((processInfo info m ch).info.active = true ↔
      4096 < info.end_ - info.start - info.progress) ∧
    produced info = 2 * min (info.end_ - info.start - info.progress) 4096 ∧
    (processInfo info m ch).info.start = info.start ∧
    (processInfo info m ch).info.end_ = info.end_ ∧
    (processInfo info m ch).info.flags = info.flags := by
  obtain ⟨a1, a2, a3, a4⟩ := range_arith info.end_ info.start info.progress h1 h2 h3
  have hr : sampleRange info = ((info.end_ - info.start - info.progress : Nat) : Int) := a1
  rw [processInfo_info_fixed info m ch hs]
  refine ⟨?_, ?_, ?_, rfl, rfl, rfl⟩
  · dsimp only
    rw [length_eq, hr]
    exact a2
  · dsimp only
    rw [decide_eq_true_iff, hr]
    exact a3
  · rw [produced, if_pos hs, fixedBound, length_eq, hr]
    exact a4

theorem playback_fixed (bufs : Nat → (Nat → Int) × (Nat → Int)) (info : ClipInfo)
    (hs : hasFlag info.flags SE_STATIC_SPEED = true) (h1 : info.start ≤ info.end_)
    (h3 : info.end_ - info.start < 2147483648) (h0 : info.progress = 0) (k : Nat) :
    (playback bufs info k).progress = min (k * 4096) (info.end_ - info.start) ∧
    (playback bufs info k).start = info.start ∧
    (playback bufs info k).end_ = info.end_ ∧
    (playback bufs info k).flags = info.flags := by
  induction k with
  | zero => simp [playback, h0]
  | succ k ih =>
    obtain ⟨ih1, ih2, ih3, ih4⟩ := ih
    have hstep := fixed_step (playback bufs info k) (bufs k).1 (bufs k).2
      (by rw [ih4]; exact hs) (by rw [ih2, ih3]; exact h1)
      (by rw [ih1, ih2, ih3]; exact Nat.min_le_right _ _) (by rw [ih2, ih3]; exact h3)
    rw [ih1, ih2, ih3, ih4] at hstep
    obtain ⟨s1, _, _, s4, s5, s6⟩ := hstep
    exact ⟨s1.trans (playback_arith k _).1, s4, s5, s6⟩

/-- C4: on the fixed-speed path, with `start <= end`, `progress <= end - start` and
`end - start < 2^31`, one `processInfo` call advances `progress` by exactly
`min(end - start - progress, SAMPLE_COUNT)`, which is the number of sample-pairs
copied, and leaves `active` true exactly when the new `progress` is below
`end - start`.  Hence for a clip played from `progress = 0`: after `k` calls
`progress` is `min(k * SAMPLE_COUNT, end - start)`, after any call the clip is
inactive exactly when its cumulative `progress` has reached `end - start`, and the
number of samples mixed so far is twice `progress`, so it is `end - start`
sample-pairs in the call that retires the clip. -/
theorem fixed_speed_playback (bufs : Nat → (Nat → Int) × (Nat → Int)) (info : ClipInfo)
    (m ch : Nat → Int)
    (hs : hasFlag info.flags SE_STATIC_SPEED = true) (h1 : info.start ≤ info.end_)
    (h2 : info.progress ≤ info.end_ - info.start)
    (h3 : info.end_ - info.start < 2147483648) :
    (processInfo info m ch).info.progress =
      info.progress + min (info.end_ - info.start - info.progress) SAMPLE_COUNT ∧
    produced info = 2 * min (info.end_ - info.start - info.progress) SAMPLE_COUNT ∧
    ((processInfo info m ch).info.active = true ↔
      (processInfo info m ch).info.progress < info.end_ - info.start) ∧
    (info.progress = 0 → ∀ k : Nat,
      (playback bufs info k).progress = min (k * SAMPLE_COUNT) (info.end_ - info.start) ∧
      ((playback bufs info (k + 1)).active = false ↔
        (playback bufs info (k + 1)).progress = info.end_ - info.start) ∧
      ∑ i ∈ Finset.range k, produced (playback bufs info i) =
        2 * (playback bufs info k).progress) := by
  obtain ⟨s1, s2, s3, _, _, _⟩ := fixed_step info m ch hs h1 h2 h3
  refine ⟨s1, s3, ?_, ?_⟩
  · rw [s2, s1]
    exact active_arith _ _ _ h2
  · intro h0 k
    have hpb := playback_fixed bufs info hs h1 h3 h0
    have hstep : ∀ i : Nat,
        ((playback bufs info (i + 1)).active = true ↔
          4096 < info.end_ - info.start - min (i * 4096) (info.end_ - info.start)) ∧
        produced (playback bufs info i) =
          2 * min (info.end_ - info.start - min (i * 4096) (info.end_ - info.start)) 4096 := by
      intro i
      obtain ⟨p1, p2, p3, p4⟩ := hpb i
      have h := fixed_step (playback bufs info i) (bufs i).1 (bufs i).2
        (by rw [p4]; exact hs) (by rw [p2, p3]; exact h1)
        (by rw [p1, p2, p3]; exact Nat.min_le_right _ _) (by rw [p2, p3]; exact h3)
      rw [p1, p2, p3] at h
      exact ⟨h.2.1, h.2.2.1⟩
    refine ⟨(hpb k).1, ?_, ?_⟩
    · rw [(hpb (k + 1)).1, ← Bool.not_eq_true, (hstep k).1]
      exact (playback_arith k _).2
    · induction k with
      | zero => simp [playback, h0]
      | succ k ih =>
        rw [Finset.sum_range_succ, ih, (hstep k).2, (hpb k).1, (hpb (k + 1)).1,
          ← (playback_arith k _).1]
        ring

/-- C4, at a clip of 5000 sample-pairs: the first call advances by 4096. -/
theorem fixed_speed_playback_witness :
    hasFlag clip5000.flags SE_STATIC_SPEED = true ∧ clip5000.start ≤ clip5000.end_ ∧
    clip5000.progress ≤ clip5000.end_ - clip5000.start ∧
    clip5000.end_ - clip5000.start < 2147483648 ∧
    (processInfo clip5000 (fun _ => 0) (fun _ => 0)).info.progress =
      clip5000.progress + min (clip5000.end_ - clip5000.start - clip5000.progress)
        SAMPLE_COUNT :=
  ⟨by decide, by decide, by decide, by decide,
    (fixed_speed_playback (fun _ => (fun _ => 0, fun _ => 0)) clip5000 (fun _ => 0)
      (fun _ => 0) (by decide) (by decide) (by decide) (by decide)).1⟩

/-! ## Accumulation into masterBuffer -/

theorem contribution_of_ge (info : ClipInfo) (j : Nat) (h : produced info ≤ j) :
    contribution info j = 0 := by
  unfold contribution
  rw [if_neg (by omega)]

theorem produced_clipOne : produced clipOne = 2 := by decide

theorem contribution_clipOne : contribution clipOne 0 = 1 := by
  have h : 0 < produced clipOne := by rw [produced_clipOne]; decide
  rw [← fillChannel_eq_contribution clipOne (fun _ => 0) 0 h,
    fillChannel_static_fixed clipOne _ 0 (by decide) (by decide) h]
  rfl

/-- C3 as stated fails: with `masterBuffer[0] = 2147483647`, a clip that
contributes 1 at position 0 does not leave `2147483647 + 1` there, a value that a
32-bit `int` cannot hold. -/
theorem processInfo_sum_out_of_range :
    0 < produced clipOne ∧ contribution clipOne 0 = 1 ∧
    (processInfo clipOne (fun _ => 2147483647) (fun _ => 0)).masterBuffer 0 ≠
      (fun _ => (2147483647 : Int)) 0 + contribution clipOne 0 := by
  refine ⟨by rw [produced_clipOne]; decide, contribution_clipOne, ?_⟩
  rw [processInfo_masterBuffer, produced_clipOne, contribution_clipOne]
  decide

/-- C3, amended: `processInfo` produces an even number `2n` of samples; for
`j < 2n` it leaves `masterBuffer[j] = old masterBuffer[j] + contribution` as a
32-bit `int`, which is the exact sum whenever that sum lies in the range of `int`;
for `j >= 2n` it leaves `masterBuffer[j]` unchanged; and mixing two clips gives the
same `masterBuffer` in either order, the element-wise sum of the two contributions
(as a 32-bit `int`) on top of the prior content. -/
theorem processInfo_accumulates (info : ClipInfo) (m ch : Nat → Int) :
    (∃ n, produced info = 2 * n) ∧
    (∀ j, j < produced info →
      (processInfo info m ch).masterBuffer j = toI32 (m j + contribution info j)) ∧
    (∀ j, j < produced info → -2147483648 ≤ m j + contribution info j →
      m j + contribution info j ≤ 2147483647 →
      (processInfo info m ch).masterBuffer j = m j + contribution info j) ∧
    (∀ j, produced info ≤ j → (processInfo info m ch).masterBuffer j = m j) ∧
    (∀ (other : ClipInfo) (ch1 ch2 ch3 : Nat → Int),
      (processInfo other (processInfo info m ch).masterBuffer ch1).masterBuffer =
        (processInfo info (processInfo other m ch2).masterBuffer ch3).masterBuffer) ∧
    (∀ (other : ClipInfo) (ch1 : Nat → Int) (j : Nat),
      -2147483648 ≤ m j → m j ≤ 2147483647 →
      (processInfo other (processInfo info m ch).masterBuffer ch1).masterBuffer j =
        toI32 (m j + contribution info j + contribution other j)) := by
  refine ⟨⟨_, produced_even info⟩, ?_, ?_, ?_, ?_, ?_⟩
  · intro j hj
    rw [processInfo_masterBuffer, if_pos hj]
  · intro j hj h1 h2
    rw [processInfo_masterBuffer, if_pos hj, toI32_of_range _ h1 h2]
  · intro j hj
    rw [processInfo_masterBuffer, if_neg (by omega)]
  · intro other ch1 ch2 ch3
    funext j
    simp only [processInfo_masterBuffer]
    split_ifs <;> first | rfl | (unfold toI32; omega)
  · intro other ch1 j h1 h2
    simp only [processInfo_masterBuffer]
    by_cases ha : j < produced info <;> by_cases hb : j < produced other
    · simp only [ha, hb, if_true]; unfold toI32; omega
    · rw [contribution_of_ge other j (by omega)]
      simp only [ha, hb, if_true, if_false, add_zero]
    · rw [contribution_of_ge info j (by omega)]
      simp only [ha, hb, if_true, if_false, add_zero]
    · rw [contribution_of_ge info j (by omega), contribution_of_ge other j (by omega)]
      simp only [ha, hb, if_false, add_zero]
      rw [toI32_of_range _ h1 h2]

/-- C3 amended, at a clip that contributes 1 on top of an empty buffer. -/
theorem processInfo_accumulates_witness :
    0 < produced clipOne ∧
    -2147483648 ≤ (fun _ => (0 : Int)) 0 + contribution clipOne 0 ∧
    (fun _ => (0 : Int)) 0 + contribution clipOne 0 ≤ 2147483647 ∧
    (processInfo clipOne (fun _ => 0) (fun _ => 0)).masterBuffer 0 =
      (fun _ => (0 : Int)) 0 + contribution clipOne 0 :=
  have h0 : 0 < produced clipOne := by rw [produced_clipOne]; decide
  have h1 : -2147483648 ≤ (fun _ => (0 : Int)) 0 + contribution clipOne 0 := by
    rw [contribution_clipOne]; decide
  have h2 : (fun _ => (0 : Int)) 0 + contribution clipOne 0 ≤ 2147483647 := by
    rw [contribution_clipOne]; decide
  ⟨h0, h1, h2,
    (processInfo_accumulates clipOne (fun _ => 0) (fun _ => 0)).2.2.1 0 h0 h1 h2⟩

/-! ## The loops of callback -/

theorem forLoop_write (f : Nat → Int) (n : Nat) (out : Nat → Int) (j : Nat) :
    forLoop (fun i out => Function.update out i (f i)) n out j =
      if j < n then f j else out j := by
  induction n with
  | zero => simp [forLoop]
  | succ n ih =>
    show Function.update (forLoop (fun i out => Function.update out i (f i)) n out) n (f n) j
      = _
    by_cases h : j = n
    · subst h; simp
    · rw [Function.update_noteq h, ih]
      have : j < n + 1 ↔ j < n := by omega
      simp [this]

theorem writeOut_apply (m out : Nat → Int) (j : Nat) :
    writeOut m out j = if j < SAMPLE_COUNT * 2 then clampSample (m j) else out j :=
  forLoop_write (fun i => clampSample (m i)) (SAMPLE_COUNT * 2) out j

theorem clampSample_eq (x : Int) : clampSample x = max (min x 32767) (-32768) := by
  unfold clampSample SHRT_MAX SHRT_MIN toI16
  omega

theorem mixAll_append (xs ys : List ClipInfo) (m0 : Int) (j : Nat) :
    mixAll (xs ++ ys) m0 j = mixAll ys (mixAll xs m0 j) j := by
  unfold mixAll
  rw [List.foldl_append]

theorem mixAll_single (info : ClipInfo) (m0 : Int) (j : Nat) :
    mixAll [info] m0 j = if j < produced info then toI32 (m0 + contribution info j) else m0 :=
  rfl

theorem mixClips_frame (n : Nat) (s0 : Engine)
    (hp : ∀ i, i < n → ∃ c, s0.clipPointers i = some c) :
    ∃ s1, forLoop mixClip n (some s0) = some s1 ∧
      s1.clipPointers = s0.clipPointers ∧ s1.clipCount = s0.clipCount ∧
      s1.dispatchInfos = s0.dispatchInfos ∧ s1.dispatchIndices = s0.dispatchIndices ∧
      s1.dispatchCount = s0.dispatchCount := by
  induction n with
  | zero => exact ⟨s0, rfl, rfl, rfl, rfl, rfl, rfl⟩
  | succ n ih =>
    obtain ⟨s1, h1, f1, f2, f3, f4, f5⟩ := ih (fun i hi => hp i (by omega))
    obtain ⟨c, hc⟩ := hp n (by omega)
    have hc1 : s1.clipPointers n = some c := by rw [f1]; exact hc
    refine ⟨mixOne s1 c, ?_, f1, f2, f3, f4, f5⟩
    show mixClip n (forLoop mixClip n (some s0)) = _
    rw [h1]
    simp only [mixClip, hc1]

theorem mixDispatch_frame (n : Nat) (s0 : Engine) :
    (forLoop mixDispatch n s0).clips = s0.clips ∧
    (forLoop mixDispatch n s0).clipPointers = s0.clipPointers ∧
    (forLoop mixDispatch n s0).clipCount = s0.clipCount ∧
    (forLoop mixDispatch n s0).dispatchIndices = s0.dispatchIndices ∧
    (forLoop mixDispatch n s0).dispatchCount = s0.dispatchCount := by
  induction n with
  | zero => exact ⟨rfl, rfl, rfl, rfl, rfl⟩
  | succ n ih => exact ih

/-! ## Compaction of clipPointers -/

theorem compactClipsStep_dead (clips : Nat → ClipInfo) (i : Nat)
    (st : (Nat → Option Nat) × Nat) (h : alive clips (st.1 i) = false) :
    compactClipsStep clips i st = (st.1, st.2 + 1) := by
  unfold compactClipsStep
  cases hp : st.1 i with
  | none => rfl
  | some c =>
    rw [hp] at h
    simp only [alive] at h
    simp [h]

theorem compactClipsStep_alive (clips : Nat → ClipInfo) (i : Nat)
    (st : (Nat → Option Nat) × Nat) (h : alive clips (st.1 i) = true) :
    compactClipsStep clips i st =
      if st.2 = 0 then st
      else (Function.update (Function.update st.1 (i - st.2) (st.1 i)) i none, st.2) := by
  unfold compactClipsStep
  cases hp : st.1 i with
  | none => rw [hp] at h; exact Bool.noConfusion h
  | some c =>
    rw [hp] at h
    simp only [alive] at h
    simp [h]

theorem compactClips_invariant (clips : Nat → ClipInfo) (ptrs0 : Nat → Option Nat)
    (n : Nat) :
    (forLoop (compactClipsStep clips) n (ptrs0, 0)).2 +
        (((List.range n).map ptrs0).filter (alive clips)).length = n ∧
    (List.range (n - (forLoop (compactClipsStep clips) n (ptrs0, 0)).2)).map
        (forLoop (compactClipsStep clips) n (ptrs0, 0)).1 =
      ((List.range n).map ptrs0).filter (alive clips) ∧
    ∀ k, n ≤ k → (forLoop (compactClipsStep clips) n (ptrs0, 0)).1 k = ptrs0 k := by
  induction n with
  | zero => simp [forLoop]
  | succ n ih =>
    obtain ⟨ia, ib, ic⟩ := ih
    have hstep : forLoop (compactClipsStep clips) (n + 1) (ptrs0, 0) =
        compactClipsStep clips n (forLoop (compactClipsStep clips) n (ptrs0, 0)) := rfl
    rw [hstep]
    generalize forLoop (compactClipsStep clips) n (ptrs0, 0) = st at ia ib ic
    have hn : st.1 n = ptrs0 n := ic n (le_refl _)
    rw [List.range_succ, List.map_append, List.filter_append, List.map_singleton,
      List.filter_singleton]
    cases ha : alive clips (ptrs0 n) with
    | false =>
      rw [compactClipsStep_dead clips n st (by rw [hn]; exact ha)]
      simp only [cond_false, List.append_nil]
      refine ⟨by omega, ?_, fun k hk => ic k (by omega)⟩
      have : n + 1 - (st.2 + 1) = n - st.2 := by omega
      rw [this]; exact ib
    | true =>
      rw [compactClipsStep_alive clips n st (by rw [hn]; exact ha)]
      simp only [cond_true, List.length_append, List.length_singleton]
      have hle : st.2 ≤ n := by omega
      have hsucc : n + 1 - st.2 = (n - st.2) + 1 := by omega
      by_cases hb : st.2 = 0
      · rw [if_pos hb]
        refine ⟨by omega, ?_, fun k hk => ic k (by omega)⟩
        rw [hsucc, List.range_succ, List.map_append, ib, List.map_singleton]
        have : n - st.2 = n := by omega
        rw [this, hn]
      · rw [if_neg hb]
        refine ⟨by omega, ?_, ?_⟩
        · show List.map (Function.update (Function.update st.1 (n - st.2) (st.1 n)) n none)
            (List.range (n + 1 - st.2)) = _
          rw [hsucc, List.range_succ, List.map_append, List.map_singleton]
          have h1 : List.map (Function.update (Function.update st.1 (n - st.2) (st.1 n)) n none)
              (List.range (n - st.2)) = List.map st.1 (List.range (n - st.2)) := by
            apply List.map_congr_left
            intro k hk
            have hk2 := List.mem_range.mp hk
            rw [Function.update_noteq (by omega), Function.update_noteq (by omega)]
          have h2 : Function.update (Function.update st.1 (n - st.2) (st.1 n)) n none
              (n - st.2) = ptrs0 n := by
            rw [Function.update_noteq (by omega), Function.update_same, hn]
          rw [h1, h2, ib]
        · intro k hk
          show Function.update (Function.update st.1 (n - st.2) (st.1 n)) n none k = _
          rw [Function.update_noteq (by omega), Function.update_noteq (by omega)]
          exact ic k (by omega)

theorem mixPhase_frame (s : Engine)
    (hp : ∀ i, i < s.clipCount → ∃ c, s.clipPointers i = some c) :
    ∃ s2, mixPhase s = some s2 ∧ s2.clipPointers = s.clipPointers ∧
      s2.clipCount = s.clipCount ∧ s2.dispatchIndices = s.dispatchIndices ∧
      s2.dispatchCount = s.dispatchCount := by
  obtain ⟨s1, h1, f1, f2, _, f4, f5⟩ :=
    mixClips_frame s.clipCount { s with masterBuffer := fun _ => 0 } hp
  obtain ⟨_, g2, g3, g4, g5⟩ := mixDispatch_frame s.dispatchCount s1
  refine ⟨forLoop mixDispatch s.dispatchCount s1, ?_, g2.trans f1, g3.trans f2,
    g4.trans f4, g5.trans f5⟩
  unfold mixPhase
  simp only [h1]

theorem callback_of_mixPhase (s s2 : Engine) (out : Nat → Int) (h : mixPhase s = some s2) :
    callback s out = some (compactDispatch (compactClips s2), writeOut s2.masterBuffer out) := by
  unfold callback
  rw [h]

theorem mixClips_clips (n : Nat) (s0 : Engine)
    (hp : ∀ i, i < n → ∃ c, s0.clipPointers i = some c)
    (hinj : ∀ i k, i < n → k < n → s0.clipPointers i = s0.clipPointers k → i = k) :
    ∃ s1, forLoop mixClip n (some s0) = some s1 ∧
      (∀ i c, i < n → s0.clipPointers i = some c →
        ∃ m ch, s1.clips c = (processInfo (s0.clips c) m ch).info) ∧
      (∀ d, (∀ i, i < n → s0.clipPointers i ≠ some d) → s1.clips d = s0.clips d) ∧
      s1.clipPointers = s0.clipPointers := by
  induction n with
  | zero =>
    exact ⟨s0, rfl, fun i c hi _ => absurd hi (Nat.not_lt_zero i), fun _ _ => rfl, rfl⟩
  | succ n ih =>
    obtain ⟨s1, h1, ha, hb, hc⟩ :=
      ih (fun i hi => hp i (by omega)) (fun i k hi hk => hinj i k (by omega) (by omega))
    obtain ⟨cn, hcn⟩ := hp n (by omega)
    have hc1 : s1.clipPointers n = some cn := by rw [hc]; exact hcn
    have hfresh : ∀ i, i < n → s0.clipPointers i ≠ some cn := by
      intro i hi e
      have := hinj i n (by omega) (by omega) (e.trans hcn.symm)
      omega
    refine ⟨mixOne s1 cn, ?_, ?_, ?_, hc⟩
    · show mixClip n (forLoop mixClip n (some s0)) = _
      rw [h1]
      simp only [mixClip, hc1]
    · intro i c hi hic
      by_cases hin : i = n
      · subst hin
        have hcc : c = cn := Option.some.inj (hic.symm.trans hcn)
        subst hcc
        refine ⟨s1.masterBuffer, s1.channelBuffer, ?_⟩
        show Function.update s1.clips c _ c = _
        rw [Function.update_same, hb c hfresh]
      · have hne : c ≠ cn := by
          intro e
          subst e
          exact hfresh i (by omega) hic
        obtain ⟨m, ch, e⟩ := ha i c (by omega) hic
        refine ⟨m, ch, ?_⟩
        show Function.update s1.clips cn _ c = _
        rw [Function.update_noteq hne, e]
    · intro d hd
      have hne : d ≠ cn := by
        intro e
        subst e
        exact hd n (by omega) hcn
      show Function.update s1.clips cn _ d = _
      rw [Function.update_noteq hne]
      exact hb d (fun i hi => hd i (by omega))

/-- After `callback`, the clip object behind each registered pointer is what
`processInfo` made of it (on the buffers as they stood at its turn). -/
theorem callback_clips (s : Engine) (out : Nat → Int)
    (hp : ∀ i, i < s.clipCount → ∃ c, s.clipPointers i = some c)
    (hinj : ∀ i k, i < s.clipCount → k < s.clipCount →
      s.clipPointers i = s.clipPointers k → i = k) :
    ∃ r, callback s out = some r ∧
      ∀ i c, i < s.clipCount → s.clipPointers i = some c →
        ∃ m ch, r.1.clips c = (processInfo (s.clips c) m ch).info := by
  obtain ⟨s1, h1, ha, _, _⟩ :=
    mixClips_clips s.clipCount { s with masterBuffer := fun _ => 0 } hp hinj
  obtain ⟨g1, _⟩ := mixDispatch_frame s.dispatchCount s1
  have hm : mixPhase s = some (forLoop mixDispatch s.dispatchCount s1) := by
    unfold mixPhase
    simp only [h1]
  refine ⟨_, callback_of_mixPhase s _ out hm, ?_⟩
  intro i c hi hic
  obtain ⟨m, ch, e⟩ := ha i c hi hic
  refine ⟨m, ch, ?_⟩
  show (forLoop mixDispatch s.dispatchCount s1).clips c = _
  rw [g1]
  exact e

theorem active_clip5000 (m ch : Nat → Int) : (processInfo clip5000 m ch).info.active = true := by
  rw [processInfo_info_fixed clip5000 m ch (by decide)]
  show decide (toU32 (sampleRange clip5000) > SAMPLE_COUNT) = true
  decide

theorem active_clipOne (m ch : Nat → Int) : (processInfo clipOne m ch).info.active = false := by
  rw [processInfo_info_fixed clipOne m ch (by decide)]
  show decide (toU32 (sampleRange clipOne) > SAMPLE_COUNT) = false
  decide

/-- C9: after `callback`, entered with non-null pointers in
`clipPointers[0..clipCount)` and run without interleaved control calls,
`clipPointers[0..clipCount)` is exactly the list at entry filtered to the clips
that are active after mixing, in their original order; `clipCount` is the number
of those survivors; and no entry below `clipCount` is null or inactive. -/
theorem callback_compacts (s : Engine) (out : Nat → Int)
    (hp : ∀ i, i < s.clipCount → ∃ c, s.clipPointers i = some c) :
    ∃ r, callback s out = some r ∧
      (List.range r.1.clipCount).map r.1.clipPointers =
        ((List.range s.clipCount).map s.clipPointers).filter (alive r.1.clips) ∧
      r.1.clipCount =
        (((List.range s.clipCount).map s.clipPointers).filter (alive r.1.clips)).length ∧
      (∀ i, i < r.1.clipCount →
        ∃ c, r.1.clipPointers i = some c ∧ (r.1.clips c).active = true) := by
  obtain ⟨s2, hm, f1, f2, _, _⟩ := mixPhase_frame s hp
  obtain ⟨ia, ib, _⟩ := compactClips_invariant s2.clips s2.clipPointers s2.clipCount
  have hlist : (List.range (compactDispatch (compactClips s2)).clipCount).map
      (compactDispatch (compactClips s2)).clipPointers =
      ((List.range s.clipCount).map s.clipPointers).filter
        (alive (compactDispatch (compactClips s2)).clips) := by
    rw [← f1, ← f2]
    exact ib
  have hcount : (compactDispatch (compactClips s2)).clipCount =
      (((List.range s.clipCount).map s.clipPointers).filter
        (alive (compactDispatch (compactClips s2)).clips)).length := by
    rw [← hlist, List.length_map, List.length_range]
  refine ⟨_, callback_of_mixPhase s s2 out hm, hlist, hcount, ?_⟩
  intro i hi
  have hmem : (compactDispatch (compactClips s2)).clipPointers i ∈
      ((List.range s.clipCount).map s.clipPointers).filter
        (alive (compactDispatch (compactClips s2)).clips) := by
    rw [← hlist]
    exact List.mem_map.mpr ⟨i, List.mem_range.mpr hi, rfl⟩
  have halive := (List.mem_filter.mp hmem).2
  cases hc : (compactDispatch (compactClips s2)).clipPointers i with
  | none => rw [hc] at halive; exact Bool.noConfusion halive
  | some c => rw [hc] at halive; exact ⟨c, rfl, halive⟩

/-- C9, at a state with three registered clips of which the middle one is
exhausted by this callback: it is removed, the two survivors keep their order,
the last one moves down to index 1, and `clipCount` becomes 2. -/
theorem callback_compacts_witness :
    (∀ i, i < threeClipEngine.clipCount → ∃ c, threeClipEngine.clipPointers i = some c) ∧
    ∃ r, callback threeClipEngine (fun _ => 0) = some r ∧
      (List.range threeClipEngine.clipCount).map threeClipEngine.clipPointers =
        [some 0, some 1, some 2] ∧
      (List.range r.1.clipCount).map r.1.clipPointers = [some 0, some 2] ∧
      r.1.clipCount = 2 ∧ r.1.clipPointers 0 = some 0 ∧ r.1.clipPointers 1 = some 2 := by
  have hp : ∀ i, i < threeClipEngine.clipCount →
      ∃ c, threeClipEngine.clipPointers i = some c := fun i _ => ⟨i, rfl⟩
  have hinj : ∀ i k, i < threeClipEngine.clipCount → k < threeClipEngine.clipCount →
      threeClipEngine.clipPointers i = threeClipEngine.clipPointers k → i = k :=
    fun i k _ _ e => Option.some.inj e
  obtain ⟨r, hr, hlist, hcount, _⟩ := callback_compacts threeClipEngine (fun _ => 0) hp
  obtain ⟨r2, hr2, hclips⟩ := callback_clips threeClipEngine (fun _ => 0) hp hinj
  have hrr : r2 = r := Option.some.inj (hr2.symm.trans hr)
  rw [hrr] at hclips
  have a0 : alive r.1.clips (some 0) = true := by
    obtain ⟨m, ch, e⟩ := hclips 0 0 (by decide) rfl
    show (r.1.clips 0).active = true
    rw [e]
    exact active_clip5000 m ch
  have a1 : alive r.1.clips (some 1) = false := by
    obtain ⟨m, ch, e⟩ := hclips 1 1 (by decide) rfl
    show (r.1.clips 1).active = false
    rw [e]
    exact active_clipOne m ch
  have a2 : alive r.1.clips (some 2) = true := by
    obtain ⟨m, ch, e⟩ := hclips 2 2 (by decide) rfl
    show (r.1.clips 2).active = true
    rw [e]
    exact active_clip5000 m ch
  have hentry : (List.range threeClipEngine.clipCount).map threeClipEngine.clipPointers =
      [some 0, some 1, some 2] := rfl
  have hfil : ((List.range threeClipEngine.clipCount).map threeClipEngine.clipPointers).filter
      (alive r.1.clips) = [some 0, some 2] := by
    rw [hentry]
    simp [List.filter, a0, a1, a2]
  rw [hfil] at hlist hcount
  have hc2 : r.1.clipCount = 2 := hcount
  refine ⟨hp, r, hr, hentry, hlist, hc2, ?_, ?_⟩
  · rw [hc2] at hlist
    have := congrArg (fun l => l.get? 0) hlist
    simpa [List.range_succ] using this
  · rw [hc2] at hlist
    have := congrArg (fun l => l.get? 1) hlist
    simpa [List.range_succ] using this

/-! ## The content of masterBuffer after the mixing loops -/

theorem mixClips_master (n : Nat) (s0 : Engine)
    (hp : ∀ i, i < n → ∃ c, s0.clipPointers i = some c)
    (hinj : ∀ i k, i < n → k < n → s0.clipPointers i = s0.clipPointers k → i = k) :
    ∃ s1, forLoop mixClip n (some s0) = some s1 ∧
      (∀ j, s1.masterBuffer j =
        mixAll ((List.range n).filterMap (fun i => (s0.clipPointers i).map s0.clips))
          (s0.masterBuffer j) j) ∧
      (∀ d, (∀ i, i < n → s0.clipPointers i ≠ some d) → s1.clips d = s0.clips d) ∧
      s1.clipPointers = s0.clipPointers ∧ s1.dispatchInfos = s0.dispatchInfos ∧
      s1.dispatchIndices = s0.dispatchIndices := by
  induction n with
  | zero => exact ⟨s0, rfl, fun _ => rfl, fun _ _ => rfl, rfl, rfl, rfl⟩
  | succ n ih =>
    obtain ⟨s1, h1, hm, hc, hptr, hdi, hdx⟩ :=
      ih (fun i hi => hp i (by omega)) (fun i k hi hk => hinj i k (by omega) (by omega))
    obtain ⟨c, hcn⟩ := hp n (by omega)
    have hc1 : s1.clipPointers n = some c := by rw [hptr]; exact hcn
    have hfresh : ∀ i, i < n → s0.clipPointers i ≠ some c := by
      intro i hi e
      have := hinj i n (by omega) (by omega) (e.trans hcn.symm)
      omega
    have hclip : s1.clips c = s0.clips c := hc c hfresh
    refine ⟨mixOne s1 c, ?_, ?_, ?_, hptr, hdi, hdx⟩
    · show mixClip n (forLoop mixClip n (some s0)) = _
      rw [h1]
      simp only [mixClip, hc1]
    · intro j
      show (processInfo (s1.clips c) s1.masterBuffer s1.channelBuffer).masterBuffer j = _
      rw [processInfo_masterBuffer, List.range_succ, List.filterMap_append, mixAll_append,
        ← hm j, hclip]
      simp only [List.filterMap_cons, List.filterMap_nil, hcn, Option.map_some']
      rw [mixAll_single]
    · intro d hd
      have hne : d ≠ c := by
        intro e; subst e; exact hd n (by omega) hcn
      show Function.update s1.clips c _ d = _
      rw [Function.update_noteq hne]
      exact hc d (fun i hi => hd i (by omega))

theorem mixDispatch_master (n : Nat) (s0 : Engine)
    (hinj : ∀ i k, i < n → k < n → s0.dispatchIndices i = s0.dispatchIndices k → i = k) :
    (∀ j, (forLoop mixDispatch n s0).masterBuffer j =
      mixAll ((List.range n).map (fun i => s0.dispatchInfos (s0.dispatchIndices i)))
        (s0.masterBuffer j) j) ∧
    (∀ d, (∀ i, i < n → s0.dispatchIndices i ≠ d) →
      (forLoop mixDispatch n s0).dispatchInfos d = s0.dispatchInfos d) := by
  induction n with
  | zero => exact ⟨fun _ => rfl, fun _ _ => rfl⟩
  | succ n ih =>
    obtain ⟨hm, hc⟩ := ih (fun i k hi hk => hinj i k (by omega) (by omega))
    have hidx := (mixDispatch_frame n s0).2.2.2.1
    have hfresh : ∀ i, i < n → s0.dispatchIndices i ≠ s0.dispatchIndices n := by
      intro i hi e
      have := hinj i n (by omega) (by omega) e
      omega
    have hclip := hc (s0.dispatchIndices n) hfresh
    constructor
    · intro j
      show (processInfo
        ((forLoop mixDispatch n s0).dispatchInfos ((forLoop mixDispatch n s0).dispatchIndices n))
        (forLoop mixDispatch n s0).masterBuffer
        (forLoop mixDispatch n s0).channelBuffer).masterBuffer j = _
      rw [processInfo_masterBuffer, hidx, hclip, List.range_succ, List.map_append,
        mixAll_append, ← hm j, List.map_singleton, mixAll_single]
    · intro d hd
      have hne : d ≠ s0.dispatchIndices n := fun e => hd n (by omega) e.symm
      show Function.update (forLoop mixDispatch n s0).dispatchInfos
        ((forLoop mixDispatch n s0).dispatchIndices n) _ d = _
      rw [hidx, Function.update_noteq hne]
      exact hc d (fun i hi => hd i (by omega))

theorem mixPhase_master (s : Engine)
    (hp : ∀ i, i < s.clipCount → ∃ c, s.clipPointers i = some c)
    (hinj : ∀ i k, i < s.clipCount → k < s.clipCount →
      s.clipPointers i = s.clipPointers k → i = k)
    (hdinj : ∀ i k, i < s.dispatchCount → k < s.dispatchCount →
      s.dispatchIndices i = s.dispatchIndices k → i = k) :
    ∃ s2, mixPhase s = some s2 ∧
      ∀ j, s2.masterBuffer j = mixAll (persistentInfos s ++ dispatchedInfos s) 0 j := by
  obtain ⟨s1, h1, hm, _, _, e1, e2⟩ :=
    mixClips_master s.clipCount { s with masterBuffer := fun _ => 0 } hp hinj
  have e1 : s1.dispatchInfos = s.dispatchInfos := e1
  have e2 : s1.dispatchIndices = s.dispatchIndices := e2
  obtain ⟨hd, _⟩ := mixDispatch_master s.dispatchCount s1 (by rw [e2]; exact hdinj)
  refine ⟨forLoop mixDispatch s.dispatchCount s1, ?_, ?_⟩
  · unfold mixPhase
    simp only [h1]
  · intro j
    rw [hd j, hm j, e1, e2, mixAll_append]
    rfl

/-! ## The output of callback -/

theorem callback_output (s : Engine) (out : Nat → Int)
    (hp : ∀ i, i < s.clipCount → ∃ c, s.clipPointers i = some c)
    (hinj : ∀ i k, i < s.clipCount → k < s.clipCount →
      s.clipPointers i = s.clipPointers k → i = k)
    (hdinj : ∀ i k, i < s.dispatchCount → k < s.dispatchCount →
      s.dispatchIndices i = s.dispatchIndices k → i = k) :
    ∃ r, callback s out = some r ∧
      (∀ j, r.1.masterBuffer j = mixAll (persistentInfos s ++ dispatchedInfos s) 0 j) ∧
      (∀ j, r.2 j = if j < SAMPLE_COUNT * 2 then
        clampSample (mixAll (persistentInfos s ++ dispatchedInfos s) 0 j) else out j) := by
  obtain ⟨s2, hm, hmaster⟩ := mixPhase_master s hp hinj hdinj
  refine ⟨_, callback_of_mixPhase s s2 out hm, hmaster, ?_⟩
  intro j
  show writeOut s2.masterBuffer out j = _
  rw [writeOut_apply, hmaster j]

theorem single_entry_infos (s : Engine) (info : ClipInfo)
    (hentry : (s.clipCount = 1 ∧ s.dispatchCount = 0 ∧
        ∃ c, s.clipPointers 0 = some c ∧ s.clips c = info) ∨
      (s.clipCount = 0 ∧ s.dispatchCount = 1 ∧
        s.dispatchInfos (s.dispatchIndices 0) = info)) :
    persistentInfos s ++ dispatchedInfos s = [info] ∧
    (∀ i, i < s.clipCount → ∃ c, s.clipPointers i = some c) ∧
    (∀ i k, i < s.clipCount → k < s.clipCount →
      s.clipPointers i = s.clipPointers k → i = k) ∧
    (∀ i k, i < s.dispatchCount → k < s.dispatchCount →
      s.dispatchIndices i = s.dispatchIndices k → i = k) := by
  rcases hentry with ⟨hc, hd, c, hptr, hinfo⟩ | ⟨hc, hd, hinfo⟩
  · refine ⟨?_, ?_, ?_, ?_⟩
    · unfold persistentInfos dispatchedInfos
      rw [hc, hd]
      simp [List.range_succ, hptr, hinfo]
    · intro i hi
      have : i = 0 := by omega
      subst this
      exact ⟨c, hptr⟩
    · intro i k hi hk _; omega
    · intro i k hi hk _; omega
  · refine ⟨?_, ?_, ?_, ?_⟩
    · unfold persistentInfos dispatchedInfos
      rw [hc, hd]
      simp [List.range_succ, hinfo]
    · intro i hi; omega
    · intro i k hi hk _; omega
    · intro i k hi hk _; omega

theorem callback_single (s : Engine) (out : Nat → Int) (info : ClipInfo)
    (hentry : (s.clipCount = 1 ∧ s.dispatchCount = 0 ∧
        ∃ c, s.clipPointers 0 = some c ∧ s.clips c = info) ∨
      (s.clipCount = 0 ∧ s.dispatchCount = 1 ∧
        s.dispatchInfos (s.dispatchIndices 0) = info)) :
    ∃ r, callback s out = some r ∧
      ∀ j, r.2 j = if j < SAMPLE_COUNT * 2 then
        clampSample (if j < produced info then toI32 (0 + contribution info j) else 0)
        else out j := by
  obtain ⟨hl, hp, hinj, hdinj⟩ := single_entry_infos s info hentry
  obtain ⟨r, hr, _, hout⟩ := callback_output s out hp hinj hdinj
  refine ⟨r, hr, ?_⟩
  intro j
  rw [hout j, hl, mixAll_single]

theorem identity_arith (e s p : Nat) (h1 : s ≤ e) (h2 : p ≤ e - s)
    (h3 : e - s - p < 2147483648) :
    toI32 (toU32 ((e : Int) - s - p)) = ((e - s - p : Nat) : Int) ∧
    (toI32 (min (((e - s - p : Nat) : Int)) 4096 * 2)).toNat = 2 * min (e - s - p) 4096 := by
  unfold toI32 toU32
  refine ⟨by omega, by omega⟩

theorem offset_arith (s p j : Nat) (h : 2 * (s + p) + j < 4294967296) :
    toU32 ((toU32 (((s : Int) + p) * 2) : Int) + j) = 2 * (s + p) + j := by
  unfold toU32
  omega

theorem produced_identity (info : ClipInfo)
    (hs : hasFlag info.flags SE_STATIC_SPEED = true) (h1 : info.start ≤ info.end_)
    (h2 : info.progress ≤ info.end_ - info.start)
    (h3 : info.end_ - info.start - info.progress < 2147483648) :
    produced info = 2 * min (info.end_ - info.start - info.progress) 4096 := by
  obtain ⟨a1, a2⟩ := identity_arith info.end_ info.start info.progress h1 h2 h3
  have hr : sampleRange info = ((info.end_ - info.start - info.progress : Nat) : Int) := a1
  rw [produced, if_pos hs, fixedBound, length_eq, hr]
  exact a2

theorem clampSample_sample (x : I16) : clampSample (toI32 (0 + x.val)) = x.val := by
  have h1 := x.property.1
  have h2 := x.property.2
  rw [zero_add, toI32_of_range _ (by omega) (by omega), clampSample_eq]
  omega

theorem clampSample_zero : clampSample 0 = 0 := by decide

/-- C1 as stated fails: the clip `wideClip` has `start <= end`,
`progress <= end - start` and both flags, position 0 lies below
`2 * min(end - start - progress, SAMPLE_COUNT)` and the source sample there is 1,
but `callback` writes 0 to `output[0]`. -/
theorem identity_path_fails_wide :
    hasFlag wideClip.flags SE_STATIC_SPEED = true ∧
    hasFlag wideClip.flags SE_STATIC_VOLUME = true ∧
    wideClip.start ≤ wideClip.end_ ∧
    wideClip.progress ≤ wideClip.end_ - wideClip.start ∧
    0 < 2 * min (wideClip.end_ - wideClip.start - wideClip.progress) SAMPLE_COUNT ∧
    (wideClip.data (2 * (wideClip.start + wideClip.progress) + 0)).val = 1 ∧
    ∃ r, callback wideEngine (fun _ => 7) = some r ∧ r.2 0 = 0 := by
  refine ⟨by decide, by decide, by decide, by decide, by decide, rfl, ?_⟩
  obtain ⟨r, hr, hout⟩ := callback_single wideEngine (fun _ => 7) wideClip
    (Or.inl ⟨rfl, rfl, 0, rfl, rfl⟩)
  refine ⟨r, hr, ?_⟩
  rw [hout 0]
  have hprod : produced wideClip = 0 := by decide
  rw [hprod]
  decide

/-- C1, amended: for a clip with both `SE_STATIC_SPEED` and `SE_STATIC_VOLUME`,
`start <= end`, `progress <= end - start`, a remaining range
`end - start - progress < 2^31` and
`start + progress + min(end - start - progress, SAMPLE_COUNT) <= 2^31` (so that
neither the `int` range nor the `uint32_t` element index wraps; both hold when
`end < 2^31`), one `callback` with that clip as the only active entry, persistent
or dispatched, writes `output[j] = data[2*(start+progress) + j]` for every
`j < 2*min(end-start-progress, SAMPLE_COUNT)` and `output[j] = 0` for every
remaining `j < 2*SAMPLE_COUNT`. -/
theorem identity_path (s : Engine) (out : Nat → Int) (info : ClipInfo)
    (hentry : (s.clipCount = 1 ∧ s.dispatchCount = 0 ∧
        ∃ c, s.clipPointers 0 = some c ∧ s.clips c = info) ∨
      (s.clipCount = 0 ∧ s.dispatchCount = 1 ∧
        s.dispatchInfos (s.dispatchIndices 0) = info))
    (hs : hasFlag info.flags SE_STATIC_SPEED = true)
    (hv : hasFlag info.flags SE_STATIC_VOLUME = true)
    (h1 : info.start ≤ info.end_) (h2 : info.progress ≤ info.end_ - info.start)
    (h3 : info.end_ - info.start - info.progress < 2147483648)
    (h4 : info.start + info.progress +
      min (info.end_ - info.start - info.progress) SAMPLE_COUNT ≤ 2147483648) :
    ∃ r, callback s out = some r ∧
      (∀ j, j < 2 * min (info.end_ - info.start - info.progress) SAMPLE_COUNT →
        r.2 j = (info.data (2 * (info.start + info.progress) + j)).val) ∧
      (∀ j, 2 * min (info.end_ - info.start - info.progress) SAMPLE_COUNT ≤ j →
        j < 2 * SAMPLE_COUNT → r.2 j = 0) := by
  obtain ⟨r, hr, hout⟩ := callback_single s out info hentry
  have hprod := produced_identity info hs h1 h2 h3
  have hS : SAMPLE_COUNT = 4096 := rfl
  rw [hS] at h4 ⊢
  refine ⟨r, hr, ?_, ?_⟩
  · intro j hj
    have hj1 : j < produced info := by rw [hprod]; exact hj
    have hj2 : j < SAMPLE_COUNT * 2 := by rw [hS]; omega
    have hoff : toU32 ((offset info : Int) + j) = 2 * (info.start + info.progress) + j :=
      offset_arith info.start info.progress j (by omega)
    rw [hout j, if_pos hj2, if_pos hj1, ← fillChannel_eq_contribution info (fun _ => 0) j hj1,
      fillChannel_static_fixed info _ j hs hv hj1, hoff]
    exact clampSample_sample _
  · intro j hj hj8
    have hj1 : ¬ j < produced info := by rw [hprod]; omega
    have hj2 : j < SAMPLE_COUNT * 2 := by rw [hS]; omega
    rw [hout j, if_pos hj2, if_neg hj1]
    exact clampSample_zero

/-- C1 amended, at the persistent clip `clip5000`. -/
theorem identity_path_witness :
    hasFlag clip5000.flags SE_STATIC_SPEED = true ∧
    hasFlag clip5000.flags SE_STATIC_VOLUME = true ∧
    clip5000.start ≤ clip5000.end_ ∧ clip5000.progress ≤ clip5000.end_ - clip5000.start ∧
    clip5000.end_ - clip5000.start - clip5000.progress < 2147483648 ∧
    clip5000.start + clip5000.progress +
      min (clip5000.end_ - clip5000.start - clip5000.progress) SAMPLE_COUNT ≤ 2147483648 ∧
    ∃ r, callback oneClipEngine (fun _ => 7) = some r ∧
      (∀ j, j < 2 * min (clip5000.end_ - clip5000.start - clip5000.progress) SAMPLE_COUNT →
        r.2 j = (clip5000.data (2 * (clip5000.start + clip5000.progress) + j)).val) :=
  ⟨by decide, by decide, by decide, by decide, by decide, by decide,
    (identity_path oneClipEngine (fun _ => 7) clip5000 (Or.inl ⟨rfl, rfl, 0, rfl, rfl⟩)
      (by decide) (by decide) (by decide) (by decide) (by decide) (by decide)).elim
      fun r h => ⟨r, h.1, h.2.1⟩⟩

/-! ## Saturation -/

theorem contribution_static (info : ClipInfo) (j : Nat)
    (hv : hasFlag info.flags SE_STATIC_VOLUME = true) :
    contribution info j = 0 ∨ ∃ k, contribution info j = (info.data k).val := by
  by_cases hj : j < produced info
  · right
    rw [← fillChannel_eq_contribution info (fun _ => 0) j hj]
    cases hs : hasFlag info.flags SE_STATIC_SPEED with
    | true => exact ⟨_, fillChannel_static_fixed info _ j hs hv hj⟩
    | false =>
      rw [fillChannel_static_variable info _ j hs hv hj]
      by_cases hpar : j % 2 = 0
      · rw [if_pos hpar]; exact ⟨_, rfl⟩
      · rw [if_neg hpar]; exact ⟨_, rfl⟩
  · left
    exact contribution_of_ge info j (by omega)

theorem contribution_static_range (info : ClipInfo) (j : Nat)
    (hv : hasFlag info.flags SE_STATIC_VOLUME = true) :
    -32768 ≤ contribution info j ∧ contribution info j ≤ 32767 := by
  rcases contribution_static info j hv with h | ⟨k, h⟩
  · rw [h]; decide
  · rw [h]; exact (info.data k).property

theorem sum_range (l : List Int) (hb : ∀ x ∈ l, -32768 ≤ x ∧ x ≤ 32767) :
    -32768 * (l.length : Int) ≤ l.sum ∧ l.sum ≤ 32768 * (l.length : Int) := by
  induction l with
  | nil => simp
  | cons x xs ih =>
    have hx := hb x (by simp)
    have := ih (fun y hy => hb y (by simp [hy]))
    simp only [List.sum_cons, List.length_cons]
    push_cast
    omega

theorem mixAll_exact (j : Nat) (infos : List ClipInfo) :
    ∀ m0 B : Int, -B ≤ m0 → m0 ≤ B →
    (∀ info ∈ infos, -32768 ≤ contribution info j ∧ contribution info j ≤ 32767) →
    B + 32768 * (infos.length : Int) ≤ 2147483647 →
    mixAll infos m0 j = m0 + (infos.map (fun info => contribution info j)).sum := by
  induction infos with
  | nil => intro m0 B _ _ _ _; simp [mixAll]
  | cons info rest ih =>
    intro m0 B h1 h2 hb hlen
    have hc := hb info (by simp)
    simp only [List.length_cons] at hlen
    push_cast at hlen
    have hstep : (if j < produced info then toI32 (m0 + contribution info j) else m0) =
        m0 + contribution info j := by
      by_cases hj : j < produced info
      · rw [if_pos hj, toI32_of_range _ (by omega) (by omega)]
      · rw [if_neg hj, contribution_of_ge info j (by omega), add_zero]
    have hcons : mixAll (info :: rest) m0 j =
        mixAll rest (if j < produced info then toI32 (m0 + contribution info j) else m0) j :=
      rfl
    rw [hcons, hstep, ih (m0 + contribution info j) (B + 32768) (by omega) (by omega)
      (fun i hi => hb i (by simp [hi])) (by omega)]
    simp only [List.map_cons, List.sum_cons]
    ring

theorem persistentInfos_length (s : Engine) : (persistentInfos s).length ≤ s.clipCount := by
  unfold persistentInfos
  have := List.length_filterMap_le (fun i => (s.clipPointers i).map s.clips)
    (List.range s.clipCount)
  rw [List.length_range] at this
  exact this

theorem dispatchedInfos_length (s : Engine) : (dispatchedInfos s).length = s.dispatchCount := by
  unfold dispatchedInfos
  rw [List.length_map, List.length_range]

theorem infos_static (s : Engine)
    (hpv : ∀ i c, i < s.clipCount → s.clipPointers i = some c →
      hasFlag (s.clips c).flags SE_STATIC_VOLUME = true)
    (hdv : ∀ i, i < s.dispatchCount →
      hasFlag (s.dispatchInfos (s.dispatchIndices i)).flags SE_STATIC_VOLUME = true) :
    ∀ info ∈ persistentInfos s ++ dispatchedInfos s,
      hasFlag info.flags SE_STATIC_VOLUME = true := by
  intro info hmem
  rcases List.mem_append.mp hmem with h | h
  · unfold persistentInfos at h
    obtain ⟨i, hi, hmap⟩ := List.mem_filterMap.mp h
    cases hptr : s.clipPointers i with
    | none => rw [hptr] at hmap; exact Option.noConfusion hmap
    | some c =>
      rw [hptr] at hmap
      have e : s.clips c = info := Option.some.inj hmap
      rw [← e]
      exact hpv i c (List.mem_range.mp hi) hptr
  · unfold dispatchedInfos at h
    obtain ⟨i, hi, e⟩ := List.mem_map.mp h
    rw [← e]
    exact hdv i (List.mem_range.mp hi)

theorem exactSum_spec (s : Engine) (j : Nat)
    (hc : s.clipCount ≤ CLIP_COUNT) (hd : s.dispatchCount ≤ CLIP_COUNT)
    (hv : ∀ info ∈ persistentInfos s ++ dispatchedInfos s,
      hasFlag info.flags SE_STATIC_VOLUME = true) (k : Nat) :
    mixAll ((persistentInfos s ++ dispatchedInfos s).take k) 0 j = exactSum s k j ∧
    -8388608 ≤ exactSum s k j ∧ exactSum s k j ≤ 8388608 := by
  have hlen : (((persistentInfos s ++ dispatchedInfos s).take k).length : Int) ≤ 256 := by
    have h1 := persistentInfos_length s
    have h2 := dispatchedInfos_length s
    have h3 : ((persistentInfos s ++ dispatchedInfos s).take k).length =
        min k (persistentInfos s ++ dispatchedInfos s).length := List.length_take _ _
    rw [List.length_append] at h3
    have hC : CLIP_COUNT = 128 := rfl
    rw [hC] at hc hd
    have : ((persistentInfos s ++ dispatchedInfos s).take k).length ≤ 256 := by omega
    exact_mod_cast this
  have hb : ∀ info ∈ (persistentInfos s ++ dispatchedInfos s).take k,
      -32768 ≤ contribution info j ∧ contribution info j ≤ 32767 :=
    fun info hi => contribution_static_range info j (hv info (List.mem_of_mem_take hi))
  have hex := mixAll_exact j _ 0 0 (by decide) (by decide) hb (by omega)
  have hsum := sum_range
    (((persistentInfos s ++ dispatchedInfos s).take k).map (fun info => contribution info j))
    (by
      intro x hx
      obtain ⟨info, hi, e⟩ := List.mem_map.mp hx
      rw [← e]
      exact hb info hi)
  rw [List.length_map] at hsum
  rw [zero_add] at hex
  refine ⟨hex, ?_, ?_⟩
  · unfold exactSum; omega
  · unfold exactSum; omega

/-- C2: with at most `CLIP_COUNT` persistent clips (pairwise distinct clip
objects) and at most `CLIP_COUNT` dispatch entries (pairwise distinct slots) that
all have `SE_STATIC_VOLUME` set, `callback` returns and writes to each of the
`2*SAMPLE_COUNT` output samples the exact sum of the clips' contributions at that
position clamped to `[-32768, 32767]`: a sum above 32767 gives 32767, a sum below
-32768 gives -32768.  The accumulator holds the exact sum after every clip (each
partial sum lies within `[-2^23, 2^23]`, far inside the range of `int`), and each
contribution is a source sample of its clip or zero. -/
theorem callback_saturates (s : Engine) (out : Nat → Int)
    (hc : s.clipCount ≤ CLIP_COUNT) (hd : s.dispatchCount ≤ CLIP_COUNT)
    (hp : ∀ i, i < s.clipCount → ∃ c, s.clipPointers i = some c)
    (hinj : ∀ i k, i < s.clipCount → k < s.clipCount →
      s.clipPointers i = s.clipPointers k → i = k)
    (hdinj : ∀ i k, i < s.dispatchCount → k < s.dispatchCount →
      s.dispatchIndices i = s.dispatchIndices k → i = k)
    (hpv : ∀ i c, i < s.clipCount → s.clipPointers i = some c →
      hasFlag (s.clips c).flags SE_STATIC_VOLUME = true)
    (hdv : ∀ i, i < s.dispatchCount →
      hasFlag (s.dispatchInfos (s.dispatchIndices i)).flags SE_STATIC_VOLUME = true) :
    ∃ r, callback s out = some r ∧ ∀ j, j < 2 * SAMPLE_COUNT →
      r.2 j = max (min (exactSum s (s.clipCount + s.dispatchCount) j) 32767) (-32768) ∧
      (32767 < exactSum s (s.clipCount + s.dispatchCount) j → r.2 j = 32767) ∧
      (exactSum s (s.clipCount + s.dispatchCount) j < -32768 → r.2 j = -32768) ∧
      r.1.masterBuffer j = exactSum s (s.clipCount + s.dispatchCount) j ∧
      (∀ k, mixAll ((persistentInfos s ++ dispatchedInfos s).take k) 0 j = exactSum s k j ∧
        -2147483648 ≤ exactSum s k j ∧ exactSum s k j ≤ 2147483647) ∧
      (∀ info ∈ persistentInfos s ++ dispatchedInfos s,
        contribution info j = 0 ∨ ∃ k, contribution info j = (info.data k).val) := by
  obtain ⟨r, hr, hmaster, hout⟩ := callback_output s out hp hinj hdinj
  have hv := infos_static s hpv hdv
  refine ⟨r, hr, ?_⟩
  intro j hj
  have hall := exactSum_spec s j hc hd hv (s.clipCount + s.dispatchCount)
  have htake : (persistentInfos s ++ dispatchedInfos s).take (s.clipCount + s.dispatchCount)
      = persistentInfos s ++ dispatchedInfos s := by
    apply List.take_of_length_le
    have h1 := persistentInfos_length s
    have h2 := dispatchedInfos_length s
    rw [List.length_append]
    omega
  rw [htake] at hall
  have hj2 : j < SAMPLE_COUNT * 2 := by omega
  have hval : r.2 j =
      max (min (exactSum s (s.clipCount + s.dispatchCount) j) 32767) (-32768) := by
    rw [hout j, if_pos hj2, hall.1, clampSample_eq]
  refine ⟨hval, ?_, ?_, ?_, ?_, ?_⟩
  · intro h; rw [hval]; omega
  · intro h; rw [hval]; omega
  · rw [hmaster j, hall.1]
  · intro k
    obtain ⟨e, l, u⟩ := exactSum_spec s j hc hd hv k
    exact ⟨e, by omega, by omega⟩
  · intro info hi
    exact contribution_static info j (hv info hi)

theorem contribution_loudClip (j : Nat) (hj : j < 2 * SAMPLE_COUNT) :
    contribution loudClip j = 32767 := by
  have hprod : produced loudClip = 2 * SAMPLE_COUNT := by decide
  have hj2 : j < produced loudClip := by rw [hprod]; exact hj
  rw [← fillChannel_eq_contribution loudClip (fun _ => 0) j hj2,
    fillChannel_static_fixed loudClip _ j (by decide) (by decide) hj2]
  rfl

theorem exactSum_loudEngine (j : Nat) (hj : j < 2 * SAMPLE_COUNT) :
    exactSum loudEngine (loudEngine.clipCount + loudEngine.dispatchCount) j = 131068 := by
  have hl : persistentInfos loudEngine ++ dispatchedInfos loudEngine =
      [loudClip, loudClip, loudClip, loudClip] := rfl
  unfold exactSum
  rw [hl]
  show (List.map (fun info => contribution info j)
    [loudClip, loudClip, loudClip, loudClip]).sum = 131068
  simp only [List.map_cons, List.map_nil, List.sum_cons, List.sum_nil,
    contribution_loudClip j hj]
  rfl

/-- C2, at a state with two persistent clips and two dispatch entries that all
play a buffer of samples 32767: at every output position the exact sum is
`4 * 32767 = 131068`, and the output sample is 32767. -/
theorem callback_saturates_witness :
    loudEngine.clipCount ≤ CLIP_COUNT ∧ loudEngine.dispatchCount ≤ CLIP_COUNT ∧
    (∀ i, i < loudEngine.clipCount → ∃ c, loudEngine.clipPointers i = some c) ∧
    (∀ i k, i < loudEngine.clipCount → k < loudEngine.clipCount →
      loudEngine.clipPointers i = loudEngine.clipPointers k → i = k) ∧
    (∀ i k, i < loudEngine.dispatchCount → k < loudEngine.dispatchCount →
      loudEngine.dispatchIndices i = loudEngine.dispatchIndices k → i = k) ∧
    (∀ i c, i < loudEngine.clipCount → loudEngine.clipPointers i = some c →
      hasFlag (loudEngine.clips c).flags SE_STATIC_VOLUME = true) ∧
    (∀ i, i < loudEngine.dispatchCount →
      hasFlag (loudEngine.dispatchInfos (loudEngine.dispatchIndices i)).flags
        SE_STATIC_VOLUME = true) ∧
    ∃ r, callback loudEngine (fun _ => 7) = some r ∧ ∀ j, j < 2 * SAMPLE_COUNT →
      exactSum loudEngine (loudEngine.clipCount + loudEngine.dispatchCount) j = 131068 ∧
      r.2 j = 32767 ∧ r.1.masterBuffer j = 131068 :=
  have hp : ∀ i, i < loudEngine.clipCount → ∃ c, loudEngine.clipPointers i = some c :=
    fun i _ => ⟨i, rfl⟩
  have hinj : ∀ i k, i < loudEngine.clipCount → k < loudEngine.clipCount →
      loudEngine.clipPointers i = loudEngine.clipPointers k → i = k :=
    fun _ _ _ _ e => Option.some.inj e
  have hdinj : ∀ i k, i < loudEngine.dispatchCount → k < loudEngine.dispatchCount →
      loudEngine.dispatchIndices i = loudEngine.dispatchIndices k → i = k :=
    fun _ _ _ _ e => e
  have hpv : ∀ i c, i < loudEngine.clipCount → loudEngine.clipPointers i = some c →
      hasFlag (loudEngine.clips c).flags SE_STATIC_VOLUME = true :=
    fun _ _ _ _ => (by decide : hasFlag loudClip.flags SE_STATIC_VOLUME = true)
  have hdv : ∀ i, i < loudEngine.dispatchCount →
      hasFlag (loudEngine.dispatchInfos (loudEngine.dispatchIndices i)).flags
        SE_STATIC_VOLUME = true :=
    fun _ _ => (by decide : hasFlag loudClip.flags SE_STATIC_VOLUME = true)
  ⟨by decide, by decide, hp, hinj, hdinj, hpv, hdv,
    (callback_saturates loudEngine (fun _ => 7) (by decide) (by decide)
      hp hinj hdinj hpv hdv).elim
      fun r h => ⟨r, h.1, fun j hj =>
        ⟨exactSum_loudEngine j hj,
          (h.2 j hj).2.1 (by rw [exactSum_loudEngine j hj]; decide),
          (h.2 j hj).2.2.2.1.trans (exactSum_loudEngine j hj)⟩⟩⟩

/-! ## Gain -/

theorem castU32_even (m : Int) : castU32 ((2 * m : Int) : ℚ) % 2 = 0 := by
  unfold castU32
  rw [truncF_intCast]
  split
  · unfold toU32; omega
  · rfl

theorem position_even (a : Nat) (f : ℚ) (ha : a % 2 = 0) :
    castU32 (rnd32 (rnd32 (a : ℚ) + rnd32 (floorF f * 2))) % 2 = 0 := by
  have h1 : (a : ℚ) = (((2 * ((a / 2 : Nat) : Int) : Int)) : ℚ) := by
    have : (a : Int) = 2 * ((a / 2 : Nat) : Int) := by omega
    exact_mod_cast this
  have h2 : floorF f * 2 = ((2 * ⌊f⌋ : Int) : ℚ) := by
    unfold floorF
    push_cast
    ring
  obtain ⟨m1, e1⟩ := rnd32_even ((a / 2 : Nat) : Int)
  obtain ⟨m2, e2⟩ := rnd32_even ⌊f⌋
  rw [h1, h2, e1, e2]
  have h3 : (((2 * m1 : Int)) : ℚ) + ((2 * m2 : Int) : ℚ) = ((2 * (m1 + m2) : Int) : ℚ) := by
    push_cast
    ring
  obtain ⟨m3, e3⟩ := rnd32_even (m1 + m2)
  rw [h3, e3]
  exact castU32_even m3

theorem offset_even (info : ClipInfo) : offset info % 2 = 0 := by
  unfold offset toU32
  omega

theorem sourcePosition_even (info : ClipInfo) (k : Nat) : sourcePosition info k % 2 = 0 :=
  position_even (offset info) (fAcc info k) (offset_even info)

theorem parity_arith (a : Nat) (j : Nat) (ha : a % 2 = 0) :
    toU32 ((a : Int) + j) % 2 = j % 2 ∧ toU32 ((a : Int) + 1) % 2 = 1 := by
  unfold toU32
  refine ⟨by omega, by omega⟩

theorem sourceIndex_parity (info : ClipInfo) (j : Nat) : sourceIndex info j % 2 = j % 2 := by
  unfold sourceIndex
  split
  · exact (parity_arith _ j (offset_even info)).1
  · split
    · rename_i h
      rw [h]
      exact sourcePosition_even info (j / 2)
    · rename_i h
      have : j % 2 = 1 := by omega
      rw [this]
      exact (parity_arith _ 0 (sourcePosition_even info (j / 2))).2

theorem fAcc_congr (a b : ClipInfo) (hd : a.difference = b.difference)
    (hs : a.speed = b.speed) (k : Nat) : fAcc a k = fAcc b k := by
  induction k with
  | zero => exact hd
  | succ k ih =>
    show rnd32 (fAcc a k + a.speed) = rnd32 (fAcc b k + b.speed)
    rw [ih, hs]

theorem sourceIndex_data (info : ClipInfo) (d2 : Nat → I16) (vl vr : ℚ) (j : Nat) :
    sourceIndex { info with data := d2, volumeL := vl, volumeR := vr } j =
      sourceIndex info j := by
  have hf := fAcc_congr { info with data := d2, volumeL := vl, volumeR := vr } info rfl rfl
    (j / 2)
  unfold sourceIndex sourcePosition
  rw [hf]
  rfl

theorem contribution_gain (info : ClipInfo) (j : Nat)
    (hv : hasFlag info.flags SE_STATIC_VOLUME = false) (hj : j < produced info) :
    contribution info j =
      castInt (rnd32 (((info.data (sourceIndex info j)).val : ℚ) * channelVolume info j)) := by
  rw [← fillChannel_eq_contribution info (fun _ => 0) j hj]
  unfold sourceIndex
  cases hs : hasFlag info.flags SE_STATIC_SPEED with
  | true =>
    rw [fillChannel_gain_fixed info _ j hs hv hj]
    simp
  | false =>
    rw [fillChannel_gain_variable info _ j hs hv hj]
    unfold channelVolume
    by_cases hpar : j % 2 = 0
    · simp [hpar]
    · simp [hpar]

theorem floor_three_quarters : ⌊(3 / 4 : ℚ)⌋ = 0 := by
  rw [Int.floor_eq_iff]
  norm_num

theorem round_three_quarters : round (3 / 4 : ℚ) = 1 := by
  rw [round_eq, Int.floor_eq_iff]
  norm_num

theorem rnd32_three_quarters : rnd32 (3 / 4) = 3 / 4 := by
  have h := rnd32_repr 3 (-2) (by decide) (by decide)
  have e : ((3 : Int) : ℚ) * 2 ^ (-2 : Int) = 3 / 4 := by
    rw [zpow_neg]
    norm_num
  rw [e] at h
  exact h

theorem produced_gainClip : produced gainClip = 2 := by decide

/-- C10 as stated fails: `gainClip` has `SE_STATIC_VOLUME` clear, its left source
sample is 1 and `volumeL` is 3/4; the product 3/4 rounds to 1, but the value added
to the left channel is 0. -/
theorem gain_is_not_rounded :
    hasFlag gainClip.flags SE_STATIC_VOLUME = false ∧ 0 < produced gainClip ∧
    sourceIndex gainClip 0 = 0 ∧
    round (((gainClip.data 0).val : ℚ) * gainClip.volumeL) = 1 ∧
    contribution gainClip 0 = 0 := by
  have hj : 0 < produced gainClip := by rw [produced_gainClip]; decide
  refine ⟨by decide, hj, by decide, ?_, ?_⟩
  · show round (((1 : Int) : ℚ) * (3 / 4)) = 1
    rw [Int.cast_one, one_mul]
    exact round_three_quarters
  · rw [contribution_gain gainClip 0 (by decide) hj]
    show castInt (rnd32 (((1 : Int) : ℚ) * (3 / 4))) = 0
    rw [Int.cast_one, one_mul, rnd32_three_quarters]
    have ht : truncF (3 / 4) = 0 := by
      unfold truncF
      rw [if_pos (by norm_num), floor_three_quarters]
    unfold castInt
    rw [ht]
    decide

/-- C10, amended: for a clip without `SE_STATIC_VOLUME`, with or without
`SE_STATIC_SPEED`, each value that `processInfo` adds to the mix is the `float`
product of the source sample it reads and the gain of that channel (`volumeL` at
even positions, `volumeR` at odd ones) converted to `int`: the product as
binary32 holds it, with its fractional part discarded (truncated toward zero)
whenever the truncated product is an `int`.  The sample read for a left position
is a left (even-indexed) source sample and for a right position a right one, and
the left value does not change when the right source samples and `volumeR` are
replaced, nor the right value when the left source samples and `volumeL` are
replaced. -/
theorem gain_truncates (info : ClipInfo) (j : Nat)
    (hv : hasFlag info.flags SE_STATIC_VOLUME = false) (hj : j < produced info) :
    contribution info j =
      castInt (rnd32 (((info.data (sourceIndex info j)).val : ℚ) * channelVolume info j)) ∧
    (-2147483648 ≤
        truncF (rnd32 (((info.data (sourceIndex info j)).val : ℚ) * channelVolume info j)) →
      truncF (rnd32 (((info.data (sourceIndex info j)).val : ℚ) * channelVolume info j))
        ≤ 2147483647 →
      contribution info j =
        truncF (rnd32 (((info.data (sourceIndex info j)).val : ℚ) * channelVolume info j))) ∧
    sourceIndex info j % 2 = j % 2 ∧
    (j % 2 = 0 → channelVolume info j = info.volumeL ∧
      ∀ (d2 : Nat → I16) (v : ℚ), (∀ k, k % 2 = 0 → d2 k = info.data k) →
        contribution { info with data := d2, volumeR := v } j = contribution info j) ∧
    (j % 2 = 1 → channelVolume info j = info.volumeR ∧
      ∀ (d2 : Nat → I16) (v : ℚ), (∀ k, k % 2 = 1 → d2 k = info.data k) →
        contribution { info with data := d2, volumeL := v } j = contribution info j) := by
  have hval := contribution_gain info j hv hj
  have hpar := sourceIndex_parity info j
  refine ⟨hval, ?_, hpar, ?_, ?_⟩
  · intro h1 h2
    rw [hval]
    unfold castInt
    rw [if_pos ⟨h1, h2⟩]
  · intro h0
    refine ⟨by unfold channelVolume; rw [if_pos h0], ?_⟩
    intro d2 v hd
    have h2 := contribution_gain { info with data := d2, volumeR := v } j hv hj
    have hidx : sourceIndex { info with data := d2, volumeR := v } j = sourceIndex info j :=
      sourceIndex_data info d2 info.volumeL v j
    have hvol : channelVolume { info with data := d2, volumeR := v } j = channelVolume info j := by
      unfold channelVolume
      rw [if_pos h0, if_pos h0]
    rw [h2, hval, hidx, hvol]
    show castInt (rnd32 (((d2 (sourceIndex info j)).val : ℚ) * channelVolume info j)) = _
    rw [hd _ (by omega)]
  · intro h1
    have hne : ¬ j % 2 = 0 := by omega
    refine ⟨by unfold channelVolume; rw [if_neg hne], ?_⟩
    intro d2 v hd
    have h2 := contribution_gain { info with data := d2, volumeL := v } j hv hj
    have hidx : sourceIndex { info with data := d2, volumeL := v } j = sourceIndex info j :=
      sourceIndex_data info d2 v info.volumeR j
    have hvol : channelVolume { info with data := d2, volumeL := v } j = channelVolume info j := by
      unfold channelVolume
      rw [if_neg hne, if_neg hne]
    rw [h2, hval, hidx, hvol]
    show castInt (rnd32 (((d2 (sourceIndex info j)).val : ℚ) * channelVolume info j)) = _
    rw [hd _ (by omega)]

theorem rnd32_seven : rnd32 (10 * (11744051 / 16777216)) = 7 := by
  have hu : ulpExp (10 * (11744051 / 16777216)) = -21 := by
    have := ulpExp_of_bounds (10 * (11744051 / 16777216)) 2 (by norm_num [abs_of_pos])
      (by norm_num [abs_of_pos]) (by decide)
    rw [this]; rfl
  unfold rnd32
  rw [hu]
  have hq : (10 * (11744051 / 16777216) : ℚ) / 2 ^ (-21 : Int) = 58720255 / 4 := by
    rw [zpow_neg]
    norm_num
  rw [hq]
  have hf : ⌊(58720255 / 4 : ℚ)⌋ = 14680063 := by
    rw [Int.floor_eq_iff]
    norm_num
  have hr : roundEven (58720255 / 4) = 14680064 := by
    unfold roundEven
    rw [hf]
    norm_num
  rw [hr, zpow_neg]
  norm_num

theorem produced_tenClip : produced tenClip = 2 := by decide

/-- C10 amended, at the left sample of `tenClip`: the sample is 10 and the gain is
`0.7f`; the exact product lies below 7, binary32 holds it as 7, and 7 is the value
added to the mix. -/
theorem gain_truncates_witness :
    hasFlag tenClip.flags SE_STATIC_VOLUME = false ∧ 0 < produced tenClip ∧
    ((tenClip.data (sourceIndex tenClip 0)).val : ℚ) * channelVolume tenClip 0 < 7 ∧
    rnd32 (((tenClip.data (sourceIndex tenClip 0)).val : ℚ) * channelVolume tenClip 0) = 7 ∧
    contribution tenClip 0 = 7 := by
  have hj : 0 < produced tenClip := by rw [produced_tenClip]; decide
  have hidx : sourceIndex tenClip 0 = 0 := by decide
  have hprod : ((tenClip.data (sourceIndex tenClip 0)).val : ℚ) * channelVolume tenClip 0 =
      10 * (11744051 / 16777216) := by
    rw [hidx]
    show ((10 : Int) : ℚ) * (11744051 / 16777216) = _
    norm_num
  have hr : rnd32 (((tenClip.data (sourceIndex tenClip 0)).val : ℚ) * channelVolume tenClip 0)
      = 7 := by
    rw [hprod]
    exact rnd32_seven
  have hc := (gain_truncates tenClip 0 (by decide) hj).1
  rw [hr] at hc
  refine ⟨by decide, hj, ?_, hr, ?_⟩
  · rw [hprod]
    norm_num
  · rw [hc]
    have := castInt_intCast 7 (by decide) (by decide)
    exact_mod_cast this

/-! ## The variable-speed path -/

theorem sampleCount_le (info : ClipInfo) : sampleCount info ≤ 4096 := by
  unfold sampleCount SAMPLE_COUNT
  exact Nat.min_le_right _ _

theorem variableBound_eq (info : ClipInfo) : variableBound info = 2 * sampleCount info := by
  have h := sampleCount_le info
  unfold variableBound toU32
  omega

theorem fillChannel_fst_variable (info : ClipInfo) (ch : Nat → Int)
    (hs : hasFlag info.flags SE_STATIC_SPEED = false) :
    (fillChannel info ch).1 = fProgressEnd info := by
  have hn : (variableBound info + 1) / 2 = sampleCount info := by
    rw [variableBound_eq]; omega
  unfold fillChannel fProgressEnd
  rw [hs]
  cases hv : hasFlag info.flags SE_STATIC_VOLUME
  · simp only [Bool.false_eq_true, if_false]
    rw [resampleGainLoop_fst, hn]
  · simp only [Bool.false_eq_true, if_false, if_true]
    rw [resampleLoop_fst, hn]

theorem processInfo_info_variable (info : ClipInfo) (m ch : Nat → Int)
    (hs : hasFlag info.flags SE_STATIC_SPEED = false) :
    (processInfo info m ch).info = { info with
      active := decide (rnd32 (rnd32 (rnd32 ((offset info / 2 : Nat) : ℚ) + fProgressEnd info)
        + 3) < rnd32 (info.end_ : ℚ))
      progress := castU32 (rnd32 (rnd32 (info.progress : ℚ) + floorF (fProgressEnd info)))
      difference := rnd32 (fProgressEnd info - floorF (fProgressEnd info)) } := by
  show advance info (fillChannel info ch).1 = _
  rw [fillChannel_fst_variable info ch hs]
  unfold advance
  rw [if_neg (by rw [hs]; exact Bool.false_ne_true)]

theorem produced_variable (info : ClipInfo)
    (hs : hasFlag info.flags SE_STATIC_SPEED = false) :
    produced info = 2 * sampleCount info := by
  unfold produced
  rw [if_neg (by rw [hs]; exact Bool.false_ne_true)]
  exact variableBound_eq info

theorem floorF_natCast (n : Nat) : floorF (n : ℚ) = n := by
  unfold floorF
  rw [Int.floor_natCast, Int.cast_natCast]

theorem fAcc_nonneg (info : ClipInfo) (hd : 0 ≤ info.difference) (hsp : 0 ≤ info.speed)
    (k : Nat) : 0 ≤ fAcc info k := by
  induction k with
  | zero => exact hd
  | succ k ih => exact rnd32_nonneg _ (add_nonneg ih hsp)

/-- With a `difference` and a `speed` that are natural numbers the accumulation
of `fProgress` is exact as long as it stays within `2^24`. -/
theorem fAcc_nat (info : ClipInfo) (d s : Nat) (hd : info.difference = d)
    (hs : info.speed = s) (k : Nat) (h : d + k * s ≤ 16777216) :
    fAcc info k = ((d + k * s : Nat) : ℚ) := by
  induction k with
  | zero =>
    show info.difference = _
    rw [hd]
    simp
  | succ k ih =>
    have hk : d + k * s ≤ 16777216 := by
      have : k * s ≤ (k + 1) * s := Nat.mul_le_mul_right s (Nat.le_succ k)
      omega
    show rnd32 (fAcc info k + info.speed) = _
    rw [ih hk, hs]
    have e : ((d + k * s : Nat) : ℚ) + (s : ℚ) = ((d + (k + 1) * s : Nat) : ℚ) := by
      push_cast
      ring
    rw [e]
    exact rnd32_natCast _ h

/-- The local `sampleCount` when `sampleRange` is a natural number within `2^24`
that binary32 divides by `speed` to the value `q`. -/
theorem sampleCount_eval (info : ClipInfo) (r : Nat) (q : ℚ) (c : Nat)
    (hr : sampleRange info = (r : Int)) (hr2 : r ≤ 16777216)
    (hq : rnd32 ((r : ℚ) / info.speed) = q) (hc : ⌊q⌋ = (c : Int)) (hc2 : c < 4294967296) :
    sampleCount info = min c 4096 := by
  unfold sampleCount SAMPLE_COUNT
  rw [hr, Int.cast_natCast, rnd32_natCast r hr2, hq]
  unfold floorF
  rw [hc, Int.cast_natCast, castU32_natCast c hc2]

/-! ## A call that leaves the range -/

theorem offset_half (info : ClipInfo) (h : info.start + info.progress ≤ 16777216) :
    offset info / 2 = info.start + info.progress := by
  unfold offset toU32
  omega

theorem sampleCount_lateClip : sampleCount lateClip = 4096 := by
  have h := sampleCount_eval lateClip 4099 4099 4099 (by decide) (by decide)
    (by
      show rnd32 (((4099 : Nat) : ℚ) / 1) = 4099
      rw [div_one]
      have := rnd32_natCast 4099 (by decide)
      exact_mod_cast this)
    (by
      have h4 : ⌊((4099 : Nat) : ℚ)⌋ = ((4099 : Nat) : Int) := Int.floor_natCast 4099
      exact_mod_cast h4)
    (by decide)
  rw [h]
  rfl

theorem fProgressEnd_lateClip : fProgressEnd lateClip = 4096 := by
  unfold fProgressEnd
  rw [sampleCount_lateClip]
  have h := fAcc_nat lateClip 0 1 (by show (0 : ℚ) = _; norm_num)
    (by show (1 : ℚ) = _; norm_num) 4096 (by decide)
  rw [h]
  norm_num

theorem lateClip_call :
    (processInfo lateClip (fun _ => 0) (fun _ => 0)).info.active = false ∧
    (processInfo lateClip (fun _ => 0) (fun _ => 0)).info.progress = 4096 := by
  have hs : hasFlag lateClip.flags SE_STATIC_SPEED = false := by decide
  have hinfo := processInfo_info_variable lateClip (fun _ => 0) (fun _ => 0) hs
  rw [fProgressEnd_lateClip] at hinfo
  have hoff : offset lateClip / 2 = 0 := by decide
  have hfl : floorF 4096 = 4096 := by
    have := floorF_natCast 4096
    exact_mod_cast this
  have r0 : rnd32 ((0 : Nat) : ℚ) = 0 := by
    have := rnd32_natCast 0 (by decide)
    exact_mod_cast this
  have ra : rnd32 (0 + 4096) = 4096 := by
    have := rnd32_natCast 4096 (by decide)
    rw [zero_add]
    exact_mod_cast this
  have rb : rnd32 (4096 + 3) = 4099 := by
    have := rnd32_natCast 4099 (by decide)
    have e : (4096 + 3 : ℚ) = ((4099 : Nat) : ℚ) := by norm_num
    rw [e, this]
    norm_num
  have re : rnd32 ((4099 : Nat) : ℚ) = 4099 := by
    have := rnd32_natCast 4099 (by decide)
    exact_mod_cast this
  constructor
  · rw [hinfo]
    show decide (rnd32 (rnd32 (rnd32 ((offset lateClip / 2 : Nat) : ℚ) + 4096) + 3)
      < rnd32 ((4099 : Nat) : ℚ)) = false
    rw [hoff, r0, ra, rb, re]
    norm_num
  · rw [hinfo]
    show castU32 (rnd32 (rnd32 ((0 : Nat) : ℚ) + floorF 4096)) = 4096
    rw [r0, hfl, ra]
    have := castU32_natCast 4096 (by decide)
    exact_mod_cast this

/-- C12 as stated fails: `lateClip` has `SE_STATIC_SPEED` clear and `speed = 1`;
one `processInfo` call sets `active` to false with `progress = 4096`, and the
range left, `4099 - 4096 = 3`, still holds three whole output sample-pairs. -/
theorem retired_with_range_left :
    hasFlag lateClip.flags SE_STATIC_SPEED = false ∧ 0 < lateClip.speed ∧
    (processInfo lateClip (fun _ => 0) (fun _ => 0)).info.active = false ∧
    (processInfo lateClip (fun _ => 0) (fun _ => 0)).info.progress = 4096 ∧
    ⌊(((lateClip.end_ - lateClip.start
      - (processInfo lateClip (fun _ => 0) (fun _ => 0)).info.progress : Nat) : ℚ))
      / lateClip.speed⌋ = 3 := by
  refine ⟨by decide, zero_lt_one, lateClip_call.1, lateClip_call.2, ?_⟩
  rw [lateClip_call.2]
  show ⌊(((4099 - 0 - 4096 : Nat) : ℚ)) / 1⌋ = 3
  rw [div_one]
  have : ((4099 - 0 - 4096 : Nat) : ℚ) = ((3 : Int) : ℚ) := by norm_num
  rw [this, Int.floor_intCast]

/-- The comparison of line 154 in closed form, for a clip whose `end` binary32
holds exactly: when the position reached, `start + progress + floor(fProgress)`,
is 5 or more sample-pairs short of `end`, the clip stays active. -/
theorem margin_arith (p e : Nat) (f : ℚ) (hf : 0 ≤ f) (he : e ≤ 16777216)
    (h : (p : Int) + ⌊f⌋ + 5 ≤ e) :
    rnd32 (rnd32 ((p : ℚ) + f) + 3) < (e : ℚ) := by
  have hfl : 0 ≤ ⌊f⌋ := Int.floor_nonneg.mpr hf
  have he4 : 4 ≤ e := by omega
  have hx : (p : ℚ) + f ≤ ((e - 4 : Nat) : ℚ) := by
    have h1 : f < (⌊f⌋ : ℚ) + 1 := Int.lt_floor_add_one f
    have h2 : ((p : Int) : ℚ) + (⌊f⌋ : ℚ) + 5 ≤ ((e : Int) : ℚ) := by exact_mod_cast h
    have h3 : ((e - 4 : Nat) : ℚ) = (e : ℚ) - 4 := by
      rw [Nat.cast_sub he4]
      norm_num
    rw [h3]
    simp only [Int.cast_natCast] at h2
    linarith
  have hx0 : 0 ≤ (p : ℚ) + f := add_nonneg (Nat.cast_nonneg p) hf
  have ha := rnd32_le_nat _ (e - 4) hx0 (by omega) hx
  have ha0 := rnd32_nonneg _ hx0
  have hy : rnd32 ((p : ℚ) + f) + 3 ≤ ((e - 1 : Nat) : ℚ) := by
    have h3 : ((e - 4 : Nat) : ℚ) = (e : ℚ) - 4 := by
      rw [Nat.cast_sub he4]
      norm_num
    have h4 : ((e - 1 : Nat) : ℚ) = (e : ℚ) - 1 := by
      rw [Nat.cast_sub (by omega)]
      norm_num
    rw [h4]
    rw [h3] at ha
    linarith
  have hb := rnd32_le_nat _ (e - 1) (by linarith) (by omega) hy
  have h4 : ((e - 1 : Nat) : ℚ) = (e : ℚ) - 1 := by
    rw [Nat.cast_sub (by omega)]
    norm_num
  rw [h4] at hb
  linarith

theorem progress_exact (p : Nat) (f : ℚ) (hf : 0 ≤ f) (h : (p : Int) + ⌊f⌋ ≤ 16777216) :
    (castU32 (rnd32 (rnd32 (p : ℚ) + floorF f)) : Int) = p + ⌊f⌋ := by
  have hfl : 0 ≤ ⌊f⌋ := Int.floor_nonneg.mpr hf
  have hp : p ≤ 16777216 := by omega
  rw [rnd32_natCast p hp]
  have e : (p : ℚ) + floorF f = (((p : Int) + ⌊f⌋ : Int) : ℚ) := by
    unfold floorF
    push_cast
    ring
  rw [e, rnd32_intCast _ (by rw [abs_of_nonneg (by omega)]; exact h)]
  exact castU32_intCast _ (by omega) (by omega)

/-- C12, amended: for a clip with `SE_STATIC_SPEED` clear, `speed > 0`,
`difference >= 0`, `start <= end <= 2^24` (the integers that binary32 holds
exactly) and `progress <= end - start`, whenever `processInfo` sets `active` to
false, the position reached, `progress + floor(fProgress)`, leaves at most 4
sample-pairs of the range: `end - start - (progress + floor(fProgress)) <= 4`.
That position is the new `progress` whenever it is at most `2^24`; then the
number of whole output sample-pairs the rest could still produce is at most
`floor(4 / speed)`, which is 0 for `speed > 4`. -/
theorem retirement_margin (info : ClipInfo) (m ch : Nat → Int)
    (hs : hasFlag info.flags SE_STATIC_SPEED = false) (hsp : 0 < info.speed)
    (hd0 : 0 ≤ info.difference) (h1 : info.start ≤ info.end_)
    (hE : info.end_ ≤ 16777216) (h2 : info.progress ≤ info.end_ - info.start)
    (hoff : (processInfo info m ch).info.active = false) :
    (info.end_ : Int) - info.start - (info.progress + ⌊fProgressEnd info⌋) ≤ 4 ∧
    ((info.progress : Int) + ⌊fProgressEnd info⌋ ≤ 16777216 →
      ((processInfo info m ch).info.progress : Int) = info.progress + ⌊fProgressEnd info⌋ ∧
      (info.end_ : Int) - info.start - (processInfo info m ch).info.progress ≤ 4 ∧
      ⌊(((info.end_ : Int) - info.start - (processInfo info m ch).info.progress : Int) : ℚ)
        / info.speed⌋ ≤ ⌊(4 : ℚ) / info.speed⌋ ∧
      (4 < info.speed →
        ⌊(((info.end_ : Int) - info.start - (processInfo info m ch).info.progress : Int) : ℚ)
          / info.speed⌋ ≤ 0)) := by
  have hinfo := processInfo_info_variable info m ch hs
  have hF : 0 ≤ fProgressEnd info := fAcc_nonneg info hd0 (le_of_lt hsp) _
  have hP : info.start + info.progress ≤ 16777216 := by omega
  have hact : ¬ (rnd32 (rnd32 (rnd32 ((offset info / 2 : Nat) : ℚ) + fProgressEnd info) + 3)
      < rnd32 (info.end_ : ℚ)) := by
    rw [hinfo] at hoff
    exact of_decide_eq_false hoff
  rw [offset_half info hP, rnd32_natCast _ hP, rnd32_natCast _ hE] at hact
  have hmain : (info.end_ : Int) - info.start - (info.progress + ⌊fProgressEnd info⌋) ≤ 4 := by
    by_contra hc
    apply hact
    apply margin_arith (info.start + info.progress) info.end_ (fProgressEnd info) hF hE
    push_cast
    omega
  refine ⟨hmain, ?_⟩
  intro hfit
  have hp : ((processInfo info m ch).info.progress : Int) =
      info.progress + ⌊fProgressEnd info⌋ := by
    rw [hinfo]
    exact progress_exact info.progress (fProgressEnd info) hF hfit
  have hleft : (info.end_ : Int) - info.start - (processInfo info m ch).info.progress ≤ 4 := by
    rw [hp]; exact hmain
  have hq : (((info.end_ : Int) - info.start - (processInfo info m ch).info.progress : Int) : ℚ)
      / info.speed ≤ (4 : ℚ) / info.speed := by
    apply div_le_div_of_nonneg_right _ (le_of_lt hsp)
    exact_mod_cast hleft
  refine ⟨hp, hleft, Int.floor_mono hq, ?_⟩
  intro h4
  have hlt : (4 : ℚ) / info.speed < 1 := by
    rw [div_lt_one hsp]; exact h4
  have : ⌊(((info.end_ : Int) - info.start - (processInfo info m ch).info.progress : Int) : ℚ)
      / info.speed⌋ < 1 := by
    apply Int.floor_lt.mpr
    push_cast
    push_cast at hq
    linarith
  omega

theorem rnd32_marginClip : rnd32 (8388608 + 3 / 4) = 8388609 := by
  have hu : ulpExp (8388608 + 3 / 4) = 0 := by
    have := ulpExp_of_bounds (8388608 + 3 / 4) 23 (by norm_num [abs_of_pos])
      (by norm_num [abs_of_pos]) (by decide)
    rw [this]; rfl
  unfold rnd32
  rw [hu, zpow_zero, div_one, mul_one]
  have hf : ⌊(8388608 + 3 / 4 : ℚ)⌋ = 8388608 := by
    rw [Int.floor_eq_iff]
    norm_num
  have hr : roundEven (8388608 + 3 / 4) = 8388609 := by
    unfold roundEven
    rw [hf]
    norm_num
  rw [hr]
  norm_num

theorem sampleCount_marginClip : sampleCount marginClip = 0 := by
  have h := sampleCount_eval marginClip 4 (1 / 2) 0 (by decide) (by decide)
    (by
      show rnd32 (((4 : Nat) : ℚ) / 8) = 1 / 2
      have h := rnd32_repr 1 (-1) (by decide) (by decide)
      have e : ((1 : Int) : ℚ) * 2 ^ (-1 : Int) = ((4 : Nat) : ℚ) / 8 := by
        rw [zpow_neg]
        norm_num
      rw [e] at h
      rw [h]
      norm_num)
    (by
      rw [Int.floor_eq_iff]
      norm_num)
    (by decide)
  rw [h]
  rfl

theorem marginClip_call (m ch : Nat → Int) :
    (processInfo marginClip m ch).info.active = false ∧
    (processInfo marginClip m ch).info.progress = 8388608 := by
  have hs : hasFlag marginClip.flags SE_STATIC_SPEED = false := by decide
  have hinfo := processInfo_info_variable marginClip m ch hs
  have hF : fProgressEnd marginClip = 3 / 4 := by
    unfold fProgressEnd
    rw [sampleCount_marginClip]
    rfl
  rw [hF] at hinfo
  have hoff : offset marginClip / 2 = 8388608 := by decide
  have hfl : floorF (3 / 4) = 0 := by
    unfold floorF
    rw [floor_three_quarters, Int.cast_zero]
  have rp : rnd32 ((8388608 : Nat) : ℚ) = 8388608 := by
    have := rnd32_natCast 8388608 (by decide)
    exact_mod_cast this
  have rb : rnd32 (8388609 + 3) = 8388612 := by
    have := rnd32_natCast 8388612 (by decide)
    have e : (8388609 + 3 : ℚ) = ((8388612 : Nat) : ℚ) := by norm_num
    rw [e, this]
    norm_num
  have re : rnd32 ((8388612 : Nat) : ℚ) = 8388612 := by
    have := rnd32_natCast 8388612 (by decide)
    exact_mod_cast this
  have rq : rnd32 (8388608 + 0) = 8388608 := by
    rw [add_zero]
    have := rnd32_natCast 8388608 (by decide)
    exact_mod_cast this
  constructor
  · rw [hinfo]
    show decide (rnd32 (rnd32 (rnd32 ((offset marginClip / 2 : Nat) : ℚ) + 3 / 4) + 3)
      < rnd32 ((8388612 : Nat) : ℚ)) = false
    rw [hoff, rp, rnd32_marginClip, rb, re]
    norm_num
  · rw [hinfo]
    show castU32 (rnd32 (rnd32 ((8388608 : Nat) : ℚ) + floorF (3 / 4))) = 8388608
    rw [rp, hfl, rq]
    have := castU32_natCast 8388608 (by decide)
    exact_mod_cast this

/-- C12 amended, at `marginClip`: the position `2^23 + 3/4` is rounded up to
`2^23 + 1`, the clip is retired, and exactly 4 sample-pairs of its range are
left. -/
theorem retirement_margin_witness :
    hasFlag marginClip.flags SE_STATIC_SPEED = false ∧ 0 < marginClip.speed ∧
    0 ≤ marginClip.difference ∧ marginClip.start ≤ marginClip.end_ ∧
    marginClip.end_ ≤ 16777216 ∧ marginClip.progress ≤ marginClip.end_ - marginClip.start ∧
    (processInfo marginClip (fun _ => 0) (fun _ => 0)).info.active = false ∧
    (marginClip.end_ : Int) - marginClip.start
      - (processInfo marginClip (fun _ => 0) (fun _ => 0)).info.progress = 4 ∧
    (marginClip.end_ : Int) - marginClip.start
      - (marginClip.progress + ⌊fProgressEnd marginClip⌋) ≤ 4 := by
  have hsp : 0 < marginClip.speed := by
    show (0 : ℚ) < 8
    norm_num
  have hd0 : 0 ≤ marginClip.difference := by
    show (0 : ℚ) ≤ 3 / 4
    norm_num
  have hcall := marginClip_call (fun _ => 0) (fun _ => 0)
  refine ⟨by decide, hsp, hd0, by decide, by decide, by decide, hcall.1, ?_,
    (retirement_margin marginClip (fun _ => 0) (fun _ => 0) (by decide) hsp hd0 (by decide)
      (by decide) (by decide) hcall.1).1⟩
  rw [hcall.2]
  decide

/-! ## Pitched playback -/

theorem empty_arith (s : Nat) :
    toI32 (toU32 ((s : Int) - s - (0 : Nat))) = 0 ∧ toU32 (((0 : Nat) : Int) + 0) = 0 ∧
    (toI32 (min (0 : Int) 4096 * 2)).toNat = 0 ∧ ¬ (toU32 (0 : Int) > 4096) := by
  unfold toI32 toU32
  refine ⟨by omega, by omega, by omega, by omega⟩

theorem sampleRange_empty (info : ClipInfo) (he : info.end_ = info.start)
    (hp : info.progress = 0) : sampleRange info = 0 := by
  unfold sampleRange
  rw [he, hp]
  exact (empty_arith info.start).1

theorem sampleCount_empty (info : ClipInfo) (he : info.end_ = info.start)
    (hp : info.progress = 0) : sampleCount info = 0 := by
  have h := sampleCount_eval info 0 0 0
    (by rw [sampleRange_empty info he hp]; rfl) (by decide)
    (by rw [Nat.cast_zero, zero_div, rnd32_zero]) (by simp) (by decide)
  rw [h]
  rfl

theorem produced_empty (info : ClipInfo) (he : info.end_ = info.start)
    (hp : info.progress = 0) : produced info = 0 := by
  cases hs : hasFlag info.flags SE_STATIC_SPEED with
  | true =>
    rw [produced, if_pos hs, fixedBound, length_eq, sampleRange_empty info he hp]
    exact (empty_arith info.start).2.2.1
  | false =>
    rw [produced_variable info hs, sampleCount_empty info he hp]

theorem fillChannel_empty (info : ClipInfo) (ch : Nat → Int) (he : info.end_ = info.start)
    (hp : info.progress = 0) : (fillChannel info ch).2 = ch := by
  have hprod := produced_empty info he hp
  unfold produced at hprod
  unfold fillChannel
  cases hs : hasFlag info.flags SE_STATIC_SPEED <;>
    cases hv : hasFlag info.flags SE_STATIC_VOLUME <;>
    (rw [hs] at hprod
     simp only [Bool.false_eq_true, if_false, if_true] at hprod ⊢
     rw [hprod]
     rfl)

theorem fProgressEnd_empty (info : ClipInfo) (he : info.end_ = info.start)
    (hp : info.progress = 0) : fProgressEnd info = info.difference := by
  unfold fProgressEnd
  rw [sampleCount_empty info he hp]
  rfl

theorem floor_of_unit (d : ℚ) (hd0 : 0 ≤ d) (hd1 : d < 1) : ⌊d⌋ = 0 := by
  rw [Int.floor_eq_iff]
  constructor
  · simpa using hd0
  · simpa using hd1

theorem load_failed : (load none).buffer = none ∧ (load none).length = 0 := ⟨rfl, rfl⟩

/-- C16: a failed `load` yields a track with a null buffer and length 0, and for
every clip with `end == start` that lies within such a track (`end <= length`),
with `progress = 0`, `0 <= difference < 1` and `speed > 0`, on either speed path
and either gain path, the loops of `processInfo` that read `data` run zero times
(it produces no sample and leaves `channelBuffer` as it was), `masterBuffer` is
unchanged, `progress` is unchanged, `active` is set to false, and none of these
results depends on `data`. -/
theorem empty_track_silent (info : ClipInfo) (m ch : Nat → Int)
    (he : info.end_ = info.start) (hload : info.end_ ≤ (load none).length)
    (hp : info.progress = 0) (hd0 : 0 ≤ info.difference) (hd1 : info.difference < 1)
    (_hsp : 0 < info.speed) :
    (load none).buffer = none ∧ (load none).length = 0 ∧
    produced info = 0 ∧
    (processInfo info m ch).channelBuffer = ch ∧
    (processInfo info m ch).masterBuffer = m ∧
    (processInfo info m ch).info.progress = info.progress ∧
    (processInfo info m ch).info.active = false ∧
    (∀ d2 : Nat → I16,
      (processInfo { info with data := d2 } m ch).masterBuffer =
        (processInfo info m ch).masterBuffer ∧
      (processInfo { info with data := d2 } m ch).channelBuffer =
        (processInfo info m ch).channelBuffer ∧
      (processInfo { info with data := d2 } m ch).info.progress =
        (processInfo info m ch).info.progress ∧
      (processInfo { info with data := d2 } m ch).info.active =
        (processInfo info m ch).info.active) := by
  have key : ∀ i : ClipInfo, i.end_ = i.start → i.end_ ≤ (load none).length →
      i.progress = 0 → 0 ≤ i.difference → i.difference < 1 →
      produced i = 0 ∧ (processInfo i m ch).channelBuffer = ch ∧
      (processInfo i m ch).masterBuffer = m ∧
      (processInfo i m ch).info.progress = i.progress ∧
      (processInfo i m ch).info.active = false := by
    intro i he hload hp hd0 hd1
    have hend : i.end_ = 0 := Nat.le_zero.mp hload
    have hstart : i.start = 0 := by rw [← he]; exact hend
    have hprod := produced_empty i he hp
    have hch : (processInfo i m ch).channelBuffer = ch := fillChannel_empty i ch he hp
    have hm : (processInfo i m ch).masterBuffer = m := by
      funext j
      rw [processInfo_masterBuffer, hprod, if_neg (Nat.not_lt_zero j)]
    refine ⟨hprod, hch, hm, ?_⟩
    obtain ⟨_, a2, _, a4⟩ := empty_arith i.start
    cases hs : hasFlag i.flags SE_STATIC_SPEED with
    | true =>
      rw [processInfo_info_fixed i m ch hs]
      refine ⟨?_, ?_⟩
      · dsimp only
        rw [length_eq, sampleRange_empty i he hp, hp]
        exact a2
      · dsimp only
        rw [sampleRange_empty i he hp]
        exact decide_eq_false a4
    | false =>
      have hfl : floorF i.difference = 0 := by
        unfold floorF
        rw [floor_of_unit i.difference hd0 hd1, Int.cast_zero]
      have r0 : rnd32 ((0 : Nat) : ℚ) = 0 := by
        rw [Nat.cast_zero, rnd32_zero]
      rw [processInfo_info_variable i m ch hs, fProgressEnd_empty i he hp, hfl]
      refine ⟨?_, ?_⟩
      · dsimp only
        rw [hp, r0, add_zero, rnd32_zero]
        exact castU32_natCast 0 (by decide)
      · dsimp only
        have hoff : offset i / 2 = 0 := by
          rw [offset_half i (by omega), hstart, hp]
        rw [hoff, hend, r0, zero_add]
        apply decide_eq_false
        have h1 := rnd32_nonneg _ hd0
        have h2 := rnd32_nonneg (rnd32 i.difference + 3) (by linarith)
        exact not_lt.mpr h2
  obtain ⟨k1, k2, k3, k4, k5⟩ := key info he hload hp hd0 hd1
  refine ⟨rfl, rfl, k1, k2, k3, k4, k5, ?_⟩
  intro d2
  obtain ⟨_, j2, j3, j4, j5⟩ := key { info with data := d2 } he hload hp hd0 hd1
  exact ⟨j3.trans k3.symm, j2.trans k2.symm, j4.trans k4.symm, j5.trans k5.symm⟩

/-- C16, at the clip that main.cpp builds over a track that failed to load
(`start = 0`, `end = length = 0`, variable speed `0.5f`, with gain): it is retired
by its first `processInfo` call, and `masterBuffer` is left as it was. -/
theorem empty_track_silent_witness :
    failedClip.end_ = failedClip.start ∧ failedClip.end_ ≤ (load none).length ∧
    failedClip.progress = 0 ∧ 0 ≤ failedClip.difference ∧ failedClip.difference < 1 ∧
    0 < failedClip.speed ∧ failedClip.active = true ∧
    produced failedClip = 0 ∧
    (processInfo failedClip (fun _ => 7) (fun _ => 0)).masterBuffer = (fun _ => 7) ∧
    (processInfo failedClip (fun _ => 7) (fun _ => 0)).info.active = false :=
  have hsp : 0 < failedClip.speed := by
    show (0 : ℚ) < 1 / 2
    norm_num
  have h := empty_track_silent failedClip (fun _ => 7) (fun _ => 0)
    rfl (le_refl _) rfl (le_refl _) zero_lt_one hsp
  ⟨rfl, le_refl _, rfl, le_refl _, zero_lt_one, hsp, rfl, h.2.2.1, h.2.2.2.2.1,
    h.2.2.2.2.2.2.1⟩

/-! ## A clip that is never retired -/

theorem rnd32_one_half : rnd32 (1 / 2) = 1 / 2 := by
  have h := rnd32_repr 1 (-1) (by decide) (by decide)
  have e : ((1 : Int) : ℚ) * 2 ^ (-1 : Int) = 1 / 2 := by
    rw [zpow_neg]
    norm_num
  rw [e] at h
  exact h

theorem sampleCount_stuckClip : sampleCount stuckClip = 0 := by
  have h := sampleCount_eval stuckClip 5 (1 / 2) 0 (by decide) (by decide)
    (by
      show rnd32 (((5 : Nat) : ℚ) / 10) = 1 / 2
      have e : ((5 : Nat) : ℚ) / 10 = 1 / 2 := by norm_num
      rw [e]
      exact rnd32_one_half)
    (by
      rw [Int.floor_eq_iff]
      norm_num)
    (by decide)
  rw [h]
  rfl

theorem fProgressEnd_stuckClip : fProgressEnd stuckClip = 0 := by
  unfold fProgressEnd
  rw [sampleCount_stuckClip]
  rfl

theorem processInfo_stuckClip (m ch : Nat → Int) :
    (processInfo stuckClip m ch).info = stuckClip := by
  rw [processInfo_info_variable stuckClip m ch (by decide), fProgressEnd_stuckClip]
  have hoff : offset stuckClip / 2 = 0 := by decide
  have hfl : floorF 0 = 0 := by
    unfold floorF
    rw [Int.floor_zero, Int.cast_zero]
  have r0 : rnd32 ((0 : Nat) : ℚ) = 0 := by
    rw [Nat.cast_zero, rnd32_zero]
  have r3 : rnd32 (0 + 3) = 3 := by
    have := rnd32_natCast 3 (by decide)
    rw [zero_add]
    exact_mod_cast this
  have r5 : rnd32 ((5 : Nat) : ℚ) = 5 := by
    have := rnd32_natCast 5 (by decide)
    exact_mod_cast this
  have e1 : decide (rnd32 (rnd32 (rnd32 ((offset stuckClip / 2 : Nat) : ℚ) + 0) + 3)
      < rnd32 (stuckClip.end_ : ℚ)) = true := by
    rw [hoff]
    show decide (rnd32 (rnd32 (rnd32 ((0 : Nat) : ℚ) + 0) + 3) < rnd32 ((5 : Nat) : ℚ)) = true
    rw [r0, add_zero, rnd32_zero, r3, r5]
    norm_num
  have e2 : castU32 (rnd32 (rnd32 (stuckClip.progress : ℚ) + floorF 0)) = 0 := by
    show castU32 (rnd32 (rnd32 ((0 : Nat) : ℚ) + floorF 0)) = 0
    rw [r0, hfl, add_zero, rnd32_zero]
    exact castU32_natCast 0 (by decide)
  have e3 : rnd32 ((0 : ℚ) - floorF 0) = 0 := by
    rw [hfl, sub_zero, rnd32_zero]
  rw [e1, e2, e3]
  rfl

/-- C19 at its failing input: `stuckClip` is active, has `start <= end`,
`progress <= end - start`, `difference = 0` and `speed = 10 > 0`, and every
`processInfo` call returns it unchanged, so after any number of consecutive calls
it is still active at `progress = 0`. -/
theorem stuckClip_never_retires (bufs : Nat → (Nat → Int) × (Nat → Int)) (n : Nat) :
    stuckClip.active = true ∧ stuckClip.start ≤ stuckClip.end_ ∧
    stuckClip.progress ≤ stuckClip.end_ - stuckClip.start ∧
    0 ≤ stuckClip.difference ∧ stuckClip.difference < 1 ∧ 0 < stuckClip.speed ∧
    playback bufs stuckClip n = stuckClip ∧
    (playback bufs stuckClip n).active = true ∧
    (playback bufs stuckClip n).progress = 0 := by
  have h : playback bufs stuckClip n = stuckClip := by
    induction n with
    | zero => rfl
    | succ n ih =>
      show (processInfo (playback bufs stuckClip n) (bufs n).1 (bufs n).2).info = stuckClip
      rw [ih]
      exact processInfo_stuckClip _ _
  refine ⟨rfl, by decide, by decide, le_refl _, zero_lt_one, ?_, h, ?_, ?_⟩
  · show (0 : ℚ) < 10
    norm_num
  · rw [h]; rfl
  · rw [h]; rfl

/-! ## A read past the end of the slice -/

theorem sampleCount_carryClip : sampleCount carryClip = 4 := by
  have h := sampleCount_eval carryClip 1 4 4 (by decide) (by decide)
    (by
      show rnd32 (((1 : Nat) : ℚ) / (1 / 4)) = 4
      have e : ((1 : Nat) : ℚ) / (1 / 4) = ((4 : Nat) : ℚ) := by norm_num
      rw [e]
      have := rnd32_natCast 4 (by decide)
      exact_mod_cast this)
    (by
      have h4 : ⌊((4 : Nat) : ℚ)⌋ = ((4 : Nat) : Int) := Int.floor_natCast 4
      exact_mod_cast h4)
    (by decide)
  rw [h]
  rfl

theorem floor_carryClip : ⌊carryClip.difference + ((1 : Nat) : ℚ) * carryClip.speed⌋ = 1 := by
  show ⌊(3 / 4 : ℚ) + ((1 : Nat) : ℚ) * (1 / 4)⌋ = 1
  rw [Int.floor_eq_iff]
  norm_num

theorem fAcc_carryClip : fAcc carryClip 1 = 1 := by
  show rnd32 (3 / 4 + 1 / 4) = 1
  have e : (3 / 4 + 1 / 4 : ℚ) = ((1 : Nat) : ℚ) := by norm_num
  rw [e]
  have := rnd32_natCast 1 (by decide)
  exact_mod_cast this

theorem sourcePosition_carryClip : sourcePosition carryClip 1 = 2 := by
  unfold sourcePosition
  rw [fAcc_carryClip]
  have hoff : offset carryClip = 0 := by decide
  have hfl : floorF 1 = 1 := by
    have := floorF_natCast 1
    exact_mod_cast this
  have r0 : rnd32 ((0 : Nat) : ℚ) = 0 := by
    rw [Nat.cast_zero, rnd32_zero]
  have r2 : rnd32 (1 * 2) = 2 := by
    have := rnd32_natCast 2 (by decide)
    rw [one_mul]
    exact_mod_cast this
  have r2b : rnd32 (0 + 2) = 2 := by
    have := rnd32_natCast 2 (by decide)
    rw [zero_add]
    exact_mod_cast this
  rw [hoff, r0, hfl, r2, r2b]
  have := castU32_natCast 2 (by decide)
  exact_mod_cast this

/-- C20 at its failing input: `carryClip` has `SE_STATIC_SPEED` clear,
`start = 0 <= end = 1`, `progress = 0`, `difference = 3/4` and `speed = 1/4`.
`processInfo` produces 4 sample-pairs, and for `k = 1 < sampleCount` the
sample-pair index `start + progress + floor(difference + k*speed)` is 1, which is
`end` and so outside `[start, end)`: element 2 of `data` is read and its value 5
is what the clip contributes at position 2. -/
theorem carryClip_reads_past_end :
    hasFlag carryClip.flags SE_STATIC_SPEED = false ∧ carryClip.start ≤ carryClip.end_ ∧
    carryClip.progress ≤ carryClip.end_ - carryClip.start ∧
    0 ≤ carryClip.difference ∧ carryClip.difference < 1 ∧ 0 < carryClip.speed ∧
    1 < sampleCount carryClip ∧
    (carryClip.start : Int) + carryClip.progress
      + ⌊carryClip.difference + ((1 : Nat) : ℚ) * carryClip.speed⌋ = carryClip.end_ ∧
    sourcePosition carryClip 1 = 2 * carryClip.end_ ∧
    contribution carryClip 2 = 5 := by
  have hs : hasFlag carryClip.flags SE_STATIC_SPEED = false := by decide
  have hj : 2 < produced carryClip := by
    rw [produced_variable carryClip hs, sampleCount_carryClip]
    decide
  refine ⟨hs, by decide, by decide, ?_, ?_, ?_, ?_, ?_, ?_, ?_⟩
  · show (0 : ℚ) ≤ 3 / 4
    norm_num
  · show (3 / 4 : ℚ) < 1
    norm_num
  · show (0 : ℚ) < 1 / 4
    norm_num
  · rw [sampleCount_carryClip]; decide
  · rw [floor_carryClip]; rfl
  · rw [sourcePosition_carryClip]; rfl
  · rw [← fillChannel_eq_contribution carryClip (fun _ => 0) 2 hj,
      fillChannel_static_variable carryClip _ 2 hs (by decide) hj]
    show (if 2 % 2 = 0 then (carryClip.data (sourcePosition carryClip (2 / 2))).val
      else (carryClip.data (toU32 ((sourcePosition carryClip (2 / 2) : Int) + 1))).val) = 5
    have h1 : (2 : Nat) / 2 = 1 := rfl
    rw [if_pos (by decide), h1, sourcePosition_carryClip]
    rfl

/-! ## The dispatch table -/

theorem dispatchList_length (s : Engine) : (dispatchList s).length = s.dispatchCount := by
  unfold dispatchList
  rw [List.length_map, List.length_range]

theorem inv_count_le (s : Engine) (h : DispatchInv s) : s.dispatchCount ≤ CLIP_COUNT := by
  obtain ⟨_, hnd, hb, _⟩ := h
  have hsub : (dispatchList s).toFinset ⊆ Finset.range CLIP_COUNT := by
    intro i hi
    exact Finset.mem_range.mpr (hb i (List.mem_toFinset.mp hi))
  have hcard := Finset.card_le_card hsub
  rw [List.toFinset_card_of_nodup hnd, Finset.card_range, dispatchList_length] at hcard
  exact hcard

theorem inv_exists_free (s : Engine) (h : DispatchInv s) (hne : s.dispatchCount ≠ CLIP_COUNT) :
    ∃ i, i < CLIP_COUNT ∧ (s.dispatchInfos i).active = false := by
  have hle := inv_count_le s h
  obtain ⟨_, hnd, _, hiff⟩ := h
  by_contra hall
  have hsub : Finset.range CLIP_COUNT ⊆ (dispatchList s).toFinset := by
    intro i hi
    have hi2 := Finset.mem_range.mp hi
    apply List.mem_toFinset.mpr
    apply (hiff i hi2).mp
    cases hact : (s.dispatchInfos i).active with
    | true => rfl
    | false => exact absurd ⟨i, hi2, hact⟩ hall
  have hcard := Finset.card_le_card hsub
  rw [List.toFinset_card_of_nodup hnd, Finset.card_range, dispatchList_length] at hcard
  omega

theorem dispatch_full (s : Engine) (info : ClipInfo) (h : s.dispatchCount = CLIP_COUNT) :
    dispatch s info = (false, s) := by
  unfold dispatch
  simp [h]

theorem dispatch_found (s : Engine) (info : ClipInfo) (i : Nat)
    (hne : s.dispatchCount ≠ CLIP_COUNT)
    (hfind : findInactive s.dispatchInfos 0 CLIP_COUNT = some i) :
    dispatch s info = (true, { s with
      dispatchInfos := Function.update s.dispatchInfos i { info with active := true }
      dispatchIndices := Function.update s.dispatchIndices s.dispatchCount i
      dispatchCount := toU32 ((s.dispatchCount : Int) + 1) }) := by
  unfold dispatch
  simp [hne, hfind]

theorem inv_initial (s : Engine) (h : isInitial s) : DispatchInv s := by
  obtain ⟨h1, h2, h3⟩ := h
  have hl : dispatchList s = [] := by
    unfold dispatchList
    rw [h2]
    rfl
  refine ⟨h1, ?_, ?_, ?_⟩
  · rw [hl]; exact List.nodup_nil
  · intro i hi; rw [hl] at hi; exact absurd hi (List.not_mem_nil i)
  · intro i hi
    rw [hl, h3 i hi]
    simp

theorem inv_dispatch (s : Engine) (info : ClipInfo) (h : DispatchInv s) :
    DispatchInv (dispatch s info).2 := by
  by_cases hfull : s.dispatchCount = CLIP_COUNT
  · rw [dispatch_full s info hfull]; exact h
  · have hle := inv_count_le s h
    obtain ⟨i0, hi0, hact0⟩ := inv_exists_free s h hfull
    obtain ⟨i, hfind, _, hlt, hact, _⟩ :=
      findInactive_spec s.dispatchInfos CLIP_COUNT 0 ⟨i0, Nat.zero_le _, by omega, hact0⟩
    have hi : i < CLIP_COUNT := by omega
    rw [dispatch_found s info i hfull hfind]
    obtain ⟨hc, hnd, hb, hiff⟩ := h
    have hnotin : i ∉ dispatchList s := by
      intro hin
      have := (hiff i hi).mpr hin
      rw [hact] at this
      exact Bool.noConfusion this
    have hC : CLIP_COUNT = 128 := rfl
    have hcount : toU32 ((s.dispatchCount : Int) + 1) = s.dispatchCount + 1 := by
      rw [hC] at hle
      unfold toU32
      omega
    have hl : dispatchList { s with
        dispatchInfos := Function.update s.dispatchInfos i { info with active := true }
        dispatchIndices := Function.update s.dispatchIndices s.dispatchCount i
        dispatchCount := toU32 ((s.dispatchCount : Int) + 1) } = dispatchList s ++ [i] := by
      show List.map (Function.update s.dispatchIndices s.dispatchCount i)
        (List.range (toU32 ((s.dispatchCount : Int) + 1))) = _
      rw [hcount, List.range_succ, List.map_append, List.map_singleton, Function.update_same]
      congr 1
      apply List.map_congr_left
      intro k hk
      have := List.mem_range.mp hk
      rw [Function.update_noteq (by omega)]
    refine ⟨hc, ?_, ?_, ?_⟩
    · rw [hl]
      exact List.Nodup.append hnd (List.nodup_singleton i)
        (List.disjoint_singleton.mpr hnotin)
    · intro k hk
      rw [hl] at hk
      rcases List.mem_append.mp hk with hk | hk
      · exact hb k hk
      · rw [List.mem_singleton.mp hk]; exact hi
    · intro k hk
      rw [hl, List.mem_append, List.mem_singleton]
      by_cases hki : k = i
      · subst hki
        show (Function.update s.dispatchInfos k { info with active := true } k).active = true
          ↔ _
        rw [Function.update_same]
        simp
      · show (Function.update s.dispatchInfos i { info with active := true } k).active = true
          ↔ _
        rw [Function.update_noteq hki, hiff k hk]
        simp [hki]

theorem compactDispatchStep_dead (infos : Nat → ClipInfo) (i : Nat) (st : (Nat → Nat) × Nat)
    (h : (infos (st.1 i)).active = false) :
    compactDispatchStep infos i st = (st.1, st.2 + 1) := by
  unfold compactDispatchStep
  simp [h]

theorem compactDispatchStep_alive (infos : Nat → ClipInfo) (i : Nat) (st : (Nat → Nat) × Nat)
    (h : (infos (st.1 i)).active = true) :
    compactDispatchStep infos i st =
      if st.2 = 0 then st else (Function.update st.1 (i - st.2) (st.1 i), st.2) := by
  unfold compactDispatchStep
  simp [h]

theorem compactDispatch_invariant (infos : Nat → ClipInfo) (idx0 : Nat → Nat) (n : Nat) :
    (forLoop (compactDispatchStep infos) n (idx0, 0)).2 +
        (((List.range n).map idx0).filter (fun i => (infos i).active)).length = n ∧
    (List.range (n - (forLoop (compactDispatchStep infos) n (idx0, 0)).2)).map
        (forLoop (compactDispatchStep infos) n (idx0, 0)).1 =
      ((List.range n).map idx0).filter (fun i => (infos i).active) ∧
    ∀ k, n ≤ k → (forLoop (compactDispatchStep infos) n (idx0, 0)).1 k = idx0 k := by
  induction n with
  | zero => simp [forLoop]
  | succ n ih =>
    obtain ⟨ia, ib, ic⟩ := ih
    have hstep : forLoop (compactDispatchStep infos) (n + 1) (idx0, 0) =
        compactDispatchStep infos n (forLoop (compactDispatchStep infos) n (idx0, 0)) := rfl
    rw [hstep]
    generalize forLoop (compactDispatchStep infos) n (idx0, 0) = st at ia ib ic
    have hn : st.1 n = idx0 n := ic n (le_refl _)
    rw [List.range_succ, List.map_append, List.filter_append, List.map_singleton,
      List.filter_singleton]
    cases ha : (infos (idx0 n)).active with
    | false =>
      rw [compactDispatchStep_dead infos n st (by rw [hn]; exact ha)]
      simp only [cond_false, List.append_nil]
      refine ⟨by omega, ?_, fun k hk => ic k (by omega)⟩
      have : n + 1 - (st.2 + 1) = n - st.2 := by omega
      rw [this]; exact ib
    | true =>
      rw [compactDispatchStep_alive infos n st (by rw [hn]; exact ha)]
      simp only [cond_true, List.length_append, List.length_singleton]
      have hle : st.2 ≤ n := by omega
      have hsucc : n + 1 - st.2 = (n - st.2) + 1 := by omega
      by_cases hb : st.2 = 0
      · rw [if_pos hb]
        refine ⟨by omega, ?_, fun k hk => ic k (by omega)⟩
        rw [hsucc, List.range_succ, List.map_append, ib, List.map_singleton]
        have : n - st.2 = n := by omega
        rw [this, hn]
      · rw [if_neg hb]
        refine ⟨by omega, ?_, ?_⟩
        · show List.map (Function.update st.1 (n - st.2) (st.1 n))
            (List.range (n + 1 - st.2)) = _
          rw [hsucc, List.range_succ, List.map_append, List.map_singleton,
            Function.update_same]
          have h1 : List.map (Function.update st.1 (n - st.2) (st.1 n))
              (List.range (n - st.2)) = List.map st.1 (List.range (n - st.2)) := by
            apply List.map_congr_left
            intro k hk
            have hk2 := List.mem_range.mp hk
            rw [Function.update_noteq (by omega)]
          rw [h1, ib, hn]
        · intro k hk
          show Function.update st.1 (n - st.2) (st.1 n) k = _
          rw [Function.update_noteq (by omega)]
          exact ic k (by omega)

theorem mixPhase_dispatch (s : Engine) (h0 : s.clipCount = 0)
    (hnd : (dispatchList s).Nodup) :
    ∃ s2, mixPhase s = some s2 ∧ s2.clipCount = 0 ∧
      s2.dispatchIndices = s.dispatchIndices ∧ s2.dispatchCount = s.dispatchCount ∧
      ∀ d, d ∉ dispatchList s → s2.dispatchInfos d = s.dispatchInfos d := by
  have hp : ∀ i, i < s.clipCount → ∃ c, s.clipPointers i = some c := by
    intro i hi; omega
  have hinj : ∀ i k, i < s.clipCount → k < s.clipCount →
      s.clipPointers i = s.clipPointers k → i = k := by
    intro i k hi; omega
  have hdinj : ∀ i k, i < s.dispatchCount → k < s.dispatchCount →
      s.dispatchIndices i = s.dispatchIndices k → i = k := by
    intro i k hi hk e
    exact List.inj_on_of_nodup_map hnd (List.mem_range.mpr hi) (List.mem_range.mpr hk) e
  obtain ⟨s1, h1, _, _, _, e1, e2⟩ :=
    mixClips_master s.clipCount { s with masterBuffer := fun _ => 0 } hp hinj
  have e1 : s1.dispatchInfos = s.dispatchInfos := e1
  have e2 : s1.dispatchIndices = s.dispatchIndices := e2
  obtain ⟨s1b, hb, _, f2, _, _, f5⟩ :=
    mixClips_frame s.clipCount { s with masterBuffer := fun _ => 0 } hp
  rw [h1] at hb
  have hsame : s1 = s1b := Option.some.inj hb
  rw [← hsame] at f2 f5
  have f2 : s1.clipCount = s.clipCount := f2
  have f5 : s1.dispatchCount = s.dispatchCount := f5
  obtain ⟨_, hd⟩ := mixDispatch_master s.dispatchCount s1 (by rw [e2]; exact hdinj)
  obtain ⟨_, _, g3, g4, g5⟩ := mixDispatch_frame s.dispatchCount s1
  refine ⟨forLoop mixDispatch s.dispatchCount s1, ?_, ?_, g4.trans e2, g5.trans f5, ?_⟩
  · unfold mixPhase
    simp only [h1]
  · rw [g3, f2, h0]
  · intro d hd2
    rw [hd d, e1]
    intro i hi e
    apply hd2
    unfold dispatchList
    rw [e2] at e
    exact List.mem_map.mpr ⟨i, List.mem_range.mpr hi, e⟩

theorem inv_callback (s : Engine) (out : Nat → Int) (h : DispatchInv s) :
    ∃ r, callback s out = some r ∧ DispatchInv r.1 := by
  obtain ⟨h0, hnd, hb, hiff⟩ := h
  obtain ⟨s2, hm, c0, eidx, ecnt, hfr⟩ := mixPhase_dispatch s h0 hnd
  refine ⟨_, callback_of_mixPhase s s2 out hm, ?_⟩
  obtain ⟨_, ib, _⟩ :=
    compactDispatch_invariant s2.dispatchInfos s2.dispatchIndices s2.dispatchCount
  have hl : dispatchList (compactDispatch (compactClips s2)) =
      (dispatchList s).filter (fun i => (s2.dispatchInfos i).active) := by
    unfold dispatchList
    rw [← eidx, ← ecnt]
    exact ib
  have hinfos : (compactDispatch (compactClips s2)).dispatchInfos = s2.dispatchInfos := rfl
  refine ⟨?_, ?_, ?_, ?_⟩
  · show s2.clipCount - _ = 0
    rw [c0]
    exact Nat.zero_sub _
  · rw [hl]
    exact List.Nodup.filter _ hnd
  · intro i hi
    rw [hl] at hi
    exact hb i (List.mem_filter.mp hi).1
  · intro i hi
    rw [hl, hinfos, List.mem_filter]
    constructor
    · intro hact
      refine ⟨?_, hact⟩
      by_contra hnot
      have hsame := hfr i hnot
      rw [hsame] at hact
      exact hnot ((hiff i hi).mp hact)
    · intro hmem
      exact hmem.2

theorem inv_reachable (s : Engine) (h : Reachable s) : DispatchInv s := by
  induction h with
  | start s hi => exact inv_initial s hi
  | afterDispatch s info _ _ ih => exact inv_dispatch s info ih
  | afterCallback s out r _ hcb ih =>
    obtain ⟨r2, hr2, hinv⟩ := inv_callback s out ih
    rw [hcb] at hr2
    rw [Option.some.inj hr2]
    exact hinv

/-- C17: in every state reachable from `init` by `dispatch` calls (clips with
`speed > 0`) and `callback` runs, `dispatchIndices[0..dispatchCount)` are pairwise
distinct, name slots below `CLIP_COUNT`, and are exactly the indices of the
active `dispatchInfos` slots; hence `dispatch` returns false if and only if
`dispatchCount == CLIP_COUNT`, the slot scan always finds a slot when the table
is not full (the trailing `return false` is not reached), and `callback`
returns. -/
theorem dispatch_fails_only_when_full (s : Engine) (h : Reachable s) :
    (dispatchList s).Nodup ∧
    (∀ i k, i < s.dispatchCount → k < s.dispatchCount →
      s.dispatchIndices i = s.dispatchIndices k → i = k) ∧
    (∀ k, k < s.dispatchCount → s.dispatchIndices k < CLIP_COUNT) ∧
    (∀ i, i < CLIP_COUNT → ((s.dispatchInfos i).active = true ↔
      ∃ k, k < s.dispatchCount ∧ s.dispatchIndices k = i)) ∧
    s.dispatchCount ≤ CLIP_COUNT ∧
    (∀ info, (dispatch s info).1 = false ↔ s.dispatchCount = CLIP_COUNT) ∧
    (s.dispatchCount ≠ CLIP_COUNT →
      ∃ i, findInactive s.dispatchInfos 0 CLIP_COUNT = some i) ∧
    (∀ out, ∃ r, callback s out = some r) := by
  have hinv := inv_reachable s h
  have hle := inv_count_le s hinv
  have hfree : s.dispatchCount ≠ CLIP_COUNT →
      ∃ i, findInactive s.dispatchInfos 0 CLIP_COUNT = some i := by
    intro hne
    obtain ⟨i0, hi0, hact0⟩ := inv_exists_free s hinv hne
    obtain ⟨i, hfind, _⟩ :=
      findInactive_spec s.dispatchInfos CLIP_COUNT 0 ⟨i0, Nat.zero_le _, by omega, hact0⟩
    exact ⟨i, hfind⟩
  have hcb : ∀ out, ∃ r, callback s out = some r := by
    intro out
    obtain ⟨r, hr, _⟩ := inv_callback s out hinv
    exact ⟨r, hr⟩
  obtain ⟨_, hnd, hb, hiff⟩ := hinv
  have hmem : ∀ i, i ∈ dispatchList s ↔ ∃ k, k < s.dispatchCount ∧ s.dispatchIndices k = i := by
    intro i
    unfold dispatchList
    rw [List.mem_map]
    constructor
    · rintro ⟨k, hk, e⟩; exact ⟨k, List.mem_range.mp hk, e⟩
    · rintro ⟨k, hk, e⟩; exact ⟨k, List.mem_range.mpr hk, e⟩
  refine ⟨hnd, ?_, ?_, ?_, hle, ?_, hfree, hcb⟩
  · intro i k hi hk e
    exact List.inj_on_of_nodup_map hnd (List.mem_range.mpr hi) (List.mem_range.mpr hk) e
  · intro k hk
    exact hb _ ((hmem _).mpr ⟨k, hk, rfl⟩)
  · intro i hi
    rw [hiff i hi, hmem]
  · intro info
    constructor
    · intro hf
      by_contra hne
      obtain ⟨i, hfind⟩ := hfree hne
      rw [dispatch_found s info i hne hfind] at hf
      exact Bool.noConfusion hf
    · intro hfull
      rw [dispatch_full s info hfull]

theorem dispatch_count (s : Engine) (info : ClipInfo) (h : DispatchInv s)
    (hne : s.dispatchCount ≠ CLIP_COUNT) :
    (dispatch s info).1 = true ∧ (dispatch s info).2.dispatchCount = s.dispatchCount + 1 := by
  have hle := inv_count_le s h
  obtain ⟨i0, hi0, hact0⟩ := inv_exists_free s h hne
  obtain ⟨i, hfind, _⟩ :=
    findInactive_spec s.dispatchInfos CLIP_COUNT 0 ⟨i0, Nat.zero_le _, by omega, hact0⟩
  rw [dispatch_found s info i hne hfind]
  refine ⟨rfl, ?_⟩
  show toU32 ((s.dispatchCount : Int) + 1) = s.dispatchCount + 1
  have hC : CLIP_COUNT = 128 := rfl
  rw [hC] at hle
  unfold toU32
  omega

theorem reachable_dispatchMany (info : ClipInfo) (hsp : 0 < info.speed) (n : Nat) :
    Reachable (dispatchMany info n initEngine) := by
  induction n with
  | zero => exact Reachable.start initEngine ⟨rfl, rfl, fun _ _ => rfl⟩
  | succ n ih => exact Reachable.afterDispatch _ info ih hsp

theorem dispatchMany_count (info : ClipInfo) (hsp : 0 < info.speed) (n : Nat)
    (hn : n ≤ CLIP_COUNT) : (dispatchMany info n initEngine).dispatchCount = n := by
  induction n with
  | zero => rfl
  | succ n ih =>
    have hc := ih (by omega)
    have hinv := inv_reachable _ (reachable_dispatchMany info hsp n)
    have hne : (dispatchMany info n initEngine).dispatchCount ≠ CLIP_COUNT := by
      rw [hc]; omega
    show (dispatch (dispatchMany info n initEngine) info).2.dispatchCount = n + 1
    rw [(dispatch_count _ info hinv hne).2, hc]

theorem reachable_fullEngineAfterCallback : Reachable fullEngineAfterCallback := by
  have hr : Reachable fullEngine := reachable_dispatchMany clip5000 zero_lt_one CLIP_COUNT
  unfold fullEngineAfterCallback
  cases h : callback fullEngine (fun _ => 0) with
  | none => exact hr
  | some r => exact Reachable.afterCallback fullEngine (fun _ => 0) r hr h

/-- C17, at three reachable states: after 5 `dispatch` calls the table is not
full and `dispatch` succeeds; after `CLIP_COUNT` calls it is full
(`dispatchCount = CLIP_COUNT`, no repetition in `dispatchIndices`) and `dispatch`
returns false; and in the state that one `callback` run leaves behind, `dispatch`
returns false exactly when the table is full. -/
theorem dispatch_fails_only_when_full_witness :
    Reachable (dispatchMany clip5000 5 initEngine) ∧
    (dispatchMany clip5000 5 initEngine).dispatchCount = 5 ∧
    (dispatch (dispatchMany clip5000 5 initEngine) clip5000).1 = true ∧
    Reachable fullEngine ∧ fullEngine.dispatchCount = CLIP_COUNT ∧
    (dispatchList fullEngine).Nodup ∧ (dispatchList fullEngine).length = CLIP_COUNT ∧
    (dispatch fullEngine clip5000).1 = false ∧
    Reachable fullEngineAfterCallback ∧
    ((dispatch fullEngineAfterCallback clip5000).1 = false ↔
      fullEngineAfterCallback.dispatchCount = CLIP_COUNT) := by
  have hsp : (0 : ℚ) < clip5000.speed := zero_lt_one
  have hr5 := reachable_dispatchMany clip5000 hsp 5
  have hc5 := dispatchMany_count clip5000 hsp 5 (by decide)
  have hr : Reachable fullEngine := reachable_dispatchMany clip5000 hsp CLIP_COUNT
  have hc : fullEngine.dispatchCount = CLIP_COUNT :=
    dispatchMany_count clip5000 hsp CLIP_COUNT (le_refl _)
  have h5 := dispatch_fails_only_when_full (dispatchMany clip5000 5 initEngine) hr5
  have hfull := dispatch_fails_only_when_full fullEngine hr
  have hafter := dispatch_fails_only_when_full fullEngineAfterCallback
    reachable_fullEngineAfterCallback
  refine ⟨hr5, hc5, ?_, hr, hc, hfull.1, ?_, (hfull.2.2.2.2.2.1 clip5000).mpr hc,
    reachable_fullEngineAfterCallback, hafter.2.2.2.2.2.1 clip5000⟩
  · cases hd : (dispatch (dispatchMany clip5000 5 initEngine) clip5000).1 with
    | true => rfl
    | false =>
      have := (h5.2.2.2.2.2.1 clip5000).mp hd
      rw [hc5] at this
      exact absurd this (by decide)
  · rw [dispatchList_length, hc]

end SoundEngine

namespace Sound

/-! ## Handles -/

/-- C14: on a handle with `id < 0`, in every state of the registry, `setVolume`,
`setProgress` and `stop` leave `clips`, `clipIds` and `clipCount` (the whole
registry, and the handle) unchanged, and `getVolume` and `getProgress`
return 0. -/
theorem invalid_handle_noop (h : Handle) (r : Registry) (v : ℚ) (p : Nat) (hid : h.id < 0) :
    h.setVolume r v = r ∧ h.setProgress r p = r ∧ (h.stop r).2 = r ∧ (h.stop r).1 = h ∧
    h.getVolume r = 0 ∧ h.getProgress r = 0 := by
  refine ⟨?_, ?_, ?_, ?_, ?_, ?_⟩
  · unfold Handle.setVolume; rw [if_pos hid]
  · unfold Handle.setProgress; rw [if_pos hid]
  · unfold Handle.stop; rw [if_pos hid]
  · unfold Handle.stop; rw [if_pos hid]
  · unfold Handle.getVolume; rw [if_pos hid]
  · unfold Handle.getProgress; rw [if_pos hid]

/-- C14, at the handle `-1` and the registry after one `play`. -/
theorem invalid_handle_noop_witness :
    (⟨-1⟩ : Handle).id < 0 ∧ (⟨-1⟩ : Handle).setVolume oneRegistry (1 / 2) = oneRegistry ∧
    (⟨-1⟩ : Handle).getVolume oneRegistry = 0 :=
  have h := invalid_handle_noop ⟨-1⟩ oneRegistry (1 / 2) 7 (by decide)
  ⟨by decide, h.1, h.2.2.2.2.1⟩

theorem firstHandle_index : firstHandle.id = 0 ∧ getClipIndex oneRegistry firstHandle.id = 0 ∧
    oneRegistry.clipCount = 1 := by
  refine ⟨by decide, by decide, by decide⟩

/-- C15 at its failing input: the handle returned by the first `play` has id 0
and its clip is registered at index 0; `setVolume(1/2)` and `setProgress(7)` change
nothing, and `getVolume` and `getProgress` called right after them return 0. -/
theorem first_slot_not_found :
    firstHandle.id = 0 ∧ oneRegistry.clipCount = 1 ∧ oneRegistry.clipIds 0 = 0 ∧
    getClipIndex oneRegistry firstHandle.id = 0 ∧
    firstHandle.setVolume oneRegistry (1 / 2) = oneRegistry ∧
    firstHandle.getVolume (firstHandle.setVolume oneRegistry (1 / 2)) = 0 ∧
    firstHandle.setProgress oneRegistry 7 = oneRegistry ∧
    firstHandle.getProgress (firstHandle.setProgress oneRegistry 7) = 0 := by
  obtain ⟨h1, h2, h3⟩ := firstHandle_index
  have hv : firstHandle.setVolume oneRegistry (1 / 2) = oneRegistry := by
    unfold Handle.setVolume
    rw [h1, if_neg (by decide)]
    rw [← h1, h2]
    rfl
  have hp : firstHandle.setProgress oneRegistry 7 = oneRegistry := by
    unfold Handle.setProgress
    rw [h1, if_neg (by decide)]
    rw [← h1, h2]
    rfl
  refine ⟨h1, h3, by decide, h2, hv, ?_, hp, ?_⟩
  · rw [hv]
    unfold Handle.getVolume
    rw [h1, if_neg (by decide)]
    rw [← h1, h2]
    rfl
  · rw [hp]
    unfold Handle.getProgress
    rw [h1, if_neg (by decide)]
    rw [← h1, h2]
    rfl

/-- C13 at its failing input: the handle returned by the second `play` has id 1
and its clip is registered at index 1 of 2; `stop` invalidates the handle but
leaves the registry as it was: `clipCount` is still 2 and id 1 still stands at
index 1. -/
theorem stop_removes_nothing :
    secondHandle.id = 1 ∧ twoRegistry.clipCount = 2 ∧ twoRegistry.clipIds 1 = 1 ∧
    getClipIndex twoRegistry secondHandle.id = 1 ∧
    (secondHandle.stop twoRegistry).1.id = -1 ∧
    (secondHandle.stop twoRegistry).2 = twoRegistry ∧
    (secondHandle.stop twoRegistry).2.clipCount = 2 ∧
    (secondHandle.stop twoRegistry).2.clipIds 1 = 1 := by
  have h1 : secondHandle.id = 1 := by decide
  have hidx : getClipIndex twoRegistry (-1) = -1 := by decide
  have hstop : secondHandle.stop twoRegistry = (⟨-1⟩, twoRegistry) := by
    unfold Handle.stop
    rw [h1, if_neg (by decide)]
    simp only [hidx]
    rfl
  refine ⟨h1, by decide, by decide, by decide, ?_, ?_, ?_, ?_⟩
  · rw [hstop]
  · rw [hstop]
  · rw [hstop]; decide
  · rw [hstop]; decide

/-! ## The mixing loop of audio_callback -/

theorem mixLoop_apply (source : Nat → SoundEngine.I16) (offset : Int) (volume : ℚ)
    (pb : Nat → Int) (n : Nat) : ∀ j : Nat,
    mixLoop source offset volume n pb j =
      if j < 2 * n then
        (if j % 2 = 0 then
          SoundEngine.toI32 (pb j + SoundEngine.castInt (SoundEngine.rnd32
            (((source (offset + (j : Int)).toNat).val : ℚ) * volume)))
         else
          SoundEngine.castInt (SoundEngine.rnd32
            (((source (offset + (j : Int)).toNat).val : ℚ) * volume)))
      else pb j := by
  induction n with
  | zero => intro j; simp [mixLoop, SoundEngine.forLoop]
  | succ n ih =>
    intro j
    show Function.update (Function.update (mixLoop source offset volume n pb) (2 * n) _)
      (2 * n + 1) _ j = _
    by_cases h1 : j = 2 * n + 1
    · subst h1
      have hp : (2 * n + 1) % 2 ≠ 0 := by omega
      have hl : 2 * n + 1 < 2 * (n + 1) := by omega
      rw [Function.update_same]
      simp only [hp, hl, if_true, if_false]
      push_cast
      simp [add_assoc]
    · rw [Function.update_noteq h1]
      by_cases h2 : j = 2 * n
      · subst h2
        have hp : (2 * n) % 2 = 0 := by omega
        have hl : 2 * n < 2 * (n + 1) := by omega
        have hold := ih (2 * n)
        rw [if_neg (lt_irrefl _)] at hold
        simp only [mixLoop] at hold
        rw [Function.update_same]
        simp only [hp, hl, if_true, hold]
      · rw [Function.update_noteq h2, ih j]
        have : j < 2 * (n + 1) ↔ j < 2 * n := by omega
        simp [this]

theorem castInt_sample (z : Int) (h0 : -32768 ≤ z) (h1 : z ≤ 32767) :
    SoundEngine.castInt (SoundEngine.rnd32 ((z : ℚ) * 1)) = z := by
  rw [mul_one, SoundEngine.rnd32_intCast z (by rw [abs_le]; constructor <;> omega)]
  exact SoundEngine.castInt_intCast z (by omega) (by omega)

theorem mixClipStep_some (currentLength : Int) (i : Nat) (clips : Nat → Clip)
    (pb : Nat → Int) (src : Nat → SoundEngine.I16) (hsrc : (clips i).source = some src)
    (hn : (clipLength currentLength (clips i)).toNat ≠ 0) :
    mixClipStep currentLength i (some (clips, pb)) =
      some (Function.update clips i
          (Clip.mk (clips i).source (clips i).maskStart (clips i).maskEnd (clips i).volume
            (SoundEngine.toU32
              (((clips i).progress : Int) + clipLength currentLength (clips i)))),
        mixLoop src (clipOffset (clips i)) (clips i).volume
          (((clipLength currentLength (clips i)).toNat + 1) / 2) pb) := by
  have hn2 : ¬ ((clipLength currentLength (clips i)).toNat + 1) / 2 = 0 := by omega
  unfold mixClipStep
  simp only [hn2, if_false, hsrc]

theorem mixClipStep_frame (currentLength : Int) (i : Nat) (clips : Nat → Clip)
    (pb : Nat → Int) (src : Nat → SoundEngine.I16) (hsrc : (clips i).source = some src)
    (hn : (clipLength currentLength (clips i)).toNat ≠ 0) :
    ∃ clips2, mixClipStep currentLength i (some (clips, pb)) =
      some (clips2, mixLoop src (clipOffset (clips i)) (clips i).volume
        (((clipLength currentLength (clips i)).toNat + 1) / 2) pb) ∧
      ∀ k, k ≠ i → clips2 k = clips k :=
  ⟨_, mixClipStep_some currentLength i clips pb src hsrc hn,
    fun _ hk => Function.update_noteq hk _ _⟩

theorem mixChunk_two (r : Registry) (currentLength : Int) (a b : Nat → SoundEngine.I16)
    (hc : r.clipCount.toNat = 2)
    (ha : (r.clips 0).source = some a) (hb : (r.clips 1).source = some b)
    (hna : (clipLength currentLength (r.clips 0)).toNat ≠ 0)
    (hnb : (clipLength currentLength (r.clips 1)).toNat ≠ 0) :
    ∃ clips2, mixChunk r currentLength = some (clips2,
      mixLoop b (clipOffset (r.clips 1)) (r.clips 1).volume
        (((clipLength currentLength (r.clips 1)).toNat + 1) / 2)
        (mixLoop a (clipOffset (r.clips 0)) (r.clips 0).volume
          (((clipLength currentLength (r.clips 0)).toNat + 1) / 2) (fun _ => 0))) := by
  unfold mixChunk
  rw [hc]
  show ∃ clips2, mixClipStep currentLength 1
    (mixClipStep currentLength 0 (some (r.clips, fun _ => 0))) = _
  obtain ⟨c1, e1, f1⟩ := mixClipStep_frame currentLength 0 r.clips (fun _ => 0) a ha hna
  have hk : c1 1 = r.clips 1 := f1 1 (by decide)
  rw [e1]
  obtain ⟨c2, e2, _⟩ := mixClipStep_frame currentLength 1 c1
    (mixLoop a (clipOffset (r.clips 0)) (r.clips 0).volume
      (((clipLength currentLength (r.clips 0)).toNat + 1) / 2) (fun _ => 0)) b
    (by rw [hk]; exact hb) (by rw [hk]; exact hnb)
  rw [hk] at e2
  exact ⟨c2, e2⟩

theorem mixRegistry_clips :
    mixRegistry.clipCount = 2 ∧ mixRegistry.clips 0 = threeClip ∧
    mixRegistry.clips 1 = fiveClip := by
  refine ⟨by decide, rfl, rfl⟩

/-- C21 at its failing input: two clips are registered, each with more than
`BUFFER_LENGTH` samples remaining, one over a buffer of threes and one over a
buffer of fives, both at `volume = 1`.  Before output `processingBuffer[0]` (left)
is the sum `3 + 5`, but `processingBuffer[1]` (right) is 5, the value of the last
clip alone, not the sum 8 of `(int)(source sample * volume)` over both clips. -/
theorem right_channel_not_summed :
    mixRegistry.clipCount = 2 ∧
    BUFFER_LENGTH ≤ (mixRegistry.clips 0).maskEnd - clipOffset (mixRegistry.clips 0) ∧
    BUFFER_LENGTH ≤ (mixRegistry.clips 1).maskEnd - clipOffset (mixRegistry.clips 1) ∧
    SoundEngine.castInt (SoundEngine.rnd32
      (((SoundEngine.constData ⟨3, by decide⟩ 1).val : ℚ) * (mixRegistry.clips 0).volume))
      + SoundEngine.castInt (SoundEngine.rnd32
      (((SoundEngine.constData ⟨5, by decide⟩ 1).val : ℚ) * (mixRegistry.clips 1).volume))
      = 8 ∧
    ∃ st, mixChunk mixRegistry BUFFER_LENGTH = some st ∧ st.2 0 = 8 ∧ st.2 1 = 5 := by
  obtain ⟨hcount, h0, h1⟩ := mixRegistry_clips
  have v3 : SoundEngine.castInt (SoundEngine.rnd32 (((3 : Int) : ℚ) * 1)) = 3 :=
    castInt_sample 3 (by decide) (by decide)
  have v5 : SoundEngine.castInt (SoundEngine.rnd32 (((5 : Int) : ℚ) * 1)) = 5 :=
    castInt_sample 5 (by decide) (by decide)
  refine ⟨hcount, ?_, ?_, ?_, ?_⟩
  · rw [h0]; decide
  · rw [h1]; decide
  · rw [h0, h1]
    show SoundEngine.castInt (SoundEngine.rnd32 (((3 : Int) : ℚ) * 1))
      + SoundEngine.castInt (SoundEngine.rnd32 (((5 : Int) : ℚ) * 1)) = 8
    rw [v3, v5]; decide
  · obtain ⟨clips2, hmix⟩ := mixChunk_two mixRegistry BUFFER_LENGTH
      (SoundEngine.constData ⟨3, by decide⟩) (SoundEngine.constData ⟨5, by decide⟩)
      (by rw [hcount]; decide) (by rw [h0]; rfl) (by rw [h1]; rfl)
      (by rw [h0]; decide) (by rw [h1]; decide)
    rw [h0, h1] at hmix
    have n3 : ((clipLength BUFFER_LENGTH threeClip).toNat + 1) / 2 = 4096 := by decide
    have n5 : ((clipLength BUFFER_LENGTH fiveClip).toNat + 1) / 2 = 4096 := by decide
    rw [n3, n5] at hmix
    have hv3 : threeClip.volume = 1 := rfl
    have hv5 : fiveClip.volume = 1 := rfl
    rw [hv3, hv5] at hmix
    refine ⟨_, hmix, ?_, ?_⟩
    · dsimp only
      rw [mixLoop_apply, if_pos (by decide), if_pos (by decide), mixLoop_apply,
        if_pos (by decide), if_pos (by decide)]
      simp only [SoundEngine.constData]
      rw [v3, v5]; decide
    · dsimp only
      rw [mixLoop_apply, if_pos (by decide), if_neg (by decide)]
      simp only [SoundEngine.constData]
      exact v5

end Sound
